import Mathlib

/-!
# Smart-Pointers: shared / weak ownership

A shallow embedding of the control blocks (`weak/sw_fwd.h`), of `SharedPtr`
(`weak/shared.h`, `shared-from-this/shared.h`) and of `WeakPtr`
(`shared-from-this/weak.h`, the only `WeakPtr` among the sources; both `shared.h` use it).

* Addresses are natural numbers and `0` is `nullptr`.
* `size_t` counters are natural numbers below `2 ^ 64`; `++` and `--` wrap.
* The heap maps addresses to control blocks.  Two ghost fields are kept in each block:
  `destroyed` counts the runs of the managed object's destructor and `freed` records that
  `delete block_` has run.  A freed block stays in the map so that its last counters can
  still be inspected, but every access through a pointer to it is a fault.
* A member function that dereferences `block_` returns `Except Fault _`: dereferencing a
  null, wild or freed block pointer is undefined behaviour and is reported as a fault, and
  the `BadWeakPtr` exception is reported as `Fault.BadWeakPtr`.  A function that returns an
  error returns no heap: nothing was written before the fault.
* The managed object itself is opaque: its destructor has no effect on the heap, and no handle
  that a member function receives by reference lives inside a managed object.  The section on
  `EnableSharedFromThis` lifts this for the member `weak_this_` (`Store`).
* The `sw_fwd.h` of the `shared-from-this` variant is not among the sources.  Its counters are
  taken to be those of `weak/sw_fwd.h`; the two members that `shared-from-this/shared.h` needs
  beyond them are modelled in `SharedFromThis.DecrementStrong` and `SharedFromThis.DeleteObject`.
* The intrusive counter of `intrusive/intrusive.h` (`Objects`, `IntrusivePtr`) and the
  exclusive handle of `unique/unique.h` (`UniquePtr`, with a log of the deleter calls) are
  embedded after the shared and weak handles.
-/

namespace SmartPointers

/-- The exclusive upper bound of `size_t`. -/
def SIZE_MOD : Nat := 2 ^ 64

/-- Outcome other than normal return: undefined behaviour on a block pointer, or the
`BadWeakPtr` exception of `sw_fwd.h`. -/
inductive Fault where
  | nullDeref
  | danglingDeref
  | BadWeakPtr
  deriving DecidableEq, Repr

/-- The two concrete control blocks of `sw_fwd.h`. -/
inductive BlockKind where
  | withObject
  | withPtr
  deriving DecidableEq, Repr

/-- State of a control block.  For `ControlBlockWithPtr`, `object_` is the adopted pointer; for
`ControlBlockWithObject` it is the address of the in-place storage, which is what `Get()`
returns. -/
structure ControlBlock where
  kind : BlockKind
  strong_counter_ : Nat
  weak_counter_ : Nat
  object_ : Nat
  destroyed : Nat
  freed : Bool
  deriving DecidableEq, Repr

namespace ControlBlock

def UseStrongCount (b : ControlBlock) : Nat := b.strong_counter_

def UseWeakCount (b : ControlBlock) : Nat := b.weak_counter_

/-- Models `++strong_counter_`. -/
def IncrementStrong (b : ControlBlock) : ControlBlock :=
  { b with strong_counter_ := (1 + b.strong_counter_) % SIZE_MOD }

/-- Models `++weak_counter_`. -/
def IncrementWeak (b : ControlBlock) : ControlBlock :=
  { b with weak_counter_ := (1 + b.weak_counter_) % SIZE_MOD }

/-- Models `--weak_counter_`. -/
def DecrementWeak (b : ControlBlock) : ControlBlock :=
  { b with weak_counter_ := (SIZE_MOD - 1 + b.weak_counter_) % SIZE_MOD }

/-- Models `ControlBlockWithObject::Get()`: the address of the storage. -/
def Get (b : ControlBlock) : Nat := b.object_

/-- Run the destructor of the managed object: `Get()->~T()` guarded by `Get() != nullptr` in
`ControlBlockWithObject`, `delete object_` in `ControlBlockWithPtr` (a no-op on null). -/
def destroyObject (b : ControlBlock) : ControlBlock :=
  match b.kind with
  | .withObject => if b.Get ≠ 0 then { b with destroyed := b.destroyed + 1 } else b
  | .withPtr => if b.object_ ≠ 0 then { b with destroyed := b.destroyed + 1 } else b

/-- Models `DecrementStrong()` of `weak/sw_fwd.h`: `--strong_counter_`, and the object is destroyed
when the counter is then `0`. -/
def DecrementStrong (b : ControlBlock) : ControlBlock :=
  let b1 := { b with strong_counter_ := (SIZE_MOD - 1 + b.strong_counter_) % SIZE_MOD }
  if b1.strong_counter_ = 0 then b1.destroyObject else b1

/-- Models the constructor `ControlBlockWithObject(args...)`, run at address `self`. -/
def newWithObject (self : Nat) : ControlBlock :=
  { kind := .withObject, strong_counter_ := 1, weak_counter_ := 0, object_ := self,
    destroyed := 0, freed := false }

/-- Models the constructor `ControlBlockWithPtr(ptr)`. -/
def newWithPtr (ptr : Nat) : ControlBlock :=
  { kind := .withPtr, strong_counter_ := 1, weak_counter_ := 0, object_ := ptr,
    destroyed := 0, freed := false }

end ControlBlock

/-- The heap of control blocks; `brk` is the next address `new` hands out. -/
structure Heap where
  cells : Nat → Option ControlBlock
  brk : Nat

namespace Heap

/-- The heap before any allocation; address `0` is never handed out. -/
def empty : Heap := { cells := fun _ => none, brk := 1 }

/-- Read through a block pointer. -/
def deref (h : Heap) (p : Nat) : Except Fault ControlBlock :=
  if p = 0 then .error .nullDeref
  else match h.cells p with
    | none => .error .danglingDeref
    | some b => if b.freed then .error .danglingDeref else .ok b

def store (h : Heap) (p : Nat) (b : ControlBlock) : Heap :=
  { h with cells := fun q => if q = p then some b else h.cells q }

/-- Call a mutating member function through a block pointer. -/
def call (h : Heap) (p : Nat) (f : ControlBlock → ControlBlock) : Except Fault Heap :=
  match h.deref p with
  | .error e => .error e
  | .ok b => .ok (h.store p (f b))

/-- Models `new`: the block is placed at a fresh address. -/
def alloc (h : Heap) (mk : Nat → ControlBlock) : Heap × Nat :=
  ({ cells := fun q => if q = h.brk then some (mk h.brk) else h.cells q, brk := h.brk + 1 },
    h.brk)

/-- Models `delete block_`. -/
def delete (h : Heap) (p : Nat) : Except Fault Heap :=
  h.call p fun b => { b with freed := true }

def IncrementStrong (h : Heap) (p : Nat) : Except Fault Heap := h.call p ControlBlock.IncrementStrong

def DecrementStrong (h : Heap) (p : Nat) : Except Fault Heap := h.call p ControlBlock.DecrementStrong

def IncrementWeak (h : Heap) (p : Nat) : Except Fault Heap := h.call p ControlBlock.IncrementWeak

def DecrementWeak (h : Heap) (p : Nat) : Except Fault Heap := h.call p ControlBlock.DecrementWeak

def UseStrongCount (h : Heap) (p : Nat) : Except Fault Nat :=
  match h.deref p with
  | .error e => .error e
  | .ok b => .ok b.UseStrongCount

def UseWeakCount (h : Heap) (p : Nat) : Except Fault Nat :=
  match h.deref p with
  | .error e => .error e
  | .ok b => .ok b.UseWeakCount

/-- The statement `if (block_->UseStrongCount() == 0 && block_->UseWeakCount() == 0) delete block_;`
that follows each decrement. -/
def deleteIfUnused (h : Heap) (p : Nat) : Except Fault Heap :=
  match h.UseStrongCount p with
  | .error e => .error e
  | .ok s =>
    if s = 0 then
      match h.UseWeakCount p with
      | .error e => .error e
      | .ok w => if w = 0 then h.delete p else .ok h
    else .ok h

end Heap

/-- A `SharedPtr<T>`: the pair `(object_ptr_, block_)`. -/
structure SharedPtr where
  object_ptr_ : Nat
  block_ : Nat
  deriving DecidableEq, Repr

/-- A `WeakPtr<T>`: the pair `(object_ptr_, block_)`. -/
structure WeakPtr where
  object_ptr_ : Nat
  block_ : Nat
  deriving DecidableEq, Repr

namespace SharedPtr

/-- Models `SharedPtr()` and `SharedPtr(std::nullptr_t)`. -/
def null : SharedPtr := { object_ptr_ := 0, block_ := 0 }

/-- Models `explicit operator bool()`: `object_ptr_ != nullptr`. -/
def toBool (self : SharedPtr) : Bool := self.object_ptr_ != 0

/-- Models `Get()`. -/
def Get (self : SharedPtr) : Nat := self.object_ptr_

/-- Models `explicit SharedPtr(T* ptr)`.  `block_` is assigned only when `ptr` is not null;
otherwise it keeps the indeterminate value `uninit` the member had. -/
def ofPtr (h : Heap) (uninit ptr : Nat) : Heap × SharedPtr :=
  if ptr ≠ 0 then
    let r := h.alloc fun _ => ControlBlock.newWithPtr ptr
    (r.1, { object_ptr_ := ptr, block_ := r.2 })
  else (h, { object_ptr_ := ptr, block_ := uninit })

/-- Models `SharedPtr(ControlBlockWithObject<Y>* block, T* ptr)`. -/
def ofBlock (block ptr : Nat) : SharedPtr := { object_ptr_ := ptr, block_ := block }

/-- Models `SharedPtr(const SharedPtr& other)` (and its converting template twin). -/
def copy (h : Heap) (other : SharedPtr) : Except Fault (Heap × SharedPtr) :=
  if other.toBool then do
    let h1 ← h.IncrementStrong other.block_
    pure (h1, { object_ptr_ := other.object_ptr_, block_ := other.block_ })
  else pure (h, { object_ptr_ := 0, block_ := 0 })

/-- Models `Swap(SharedPtr& other)`; returns the new `(*this, other)`. -/
def Swap (self other : SharedPtr) : SharedPtr × SharedPtr :=
  ({ object_ptr_ := other.object_ptr_, block_ := other.block_ },
   { object_ptr_ := self.object_ptr_, block_ := self.block_ })

/-- Models `~SharedPtr()` of `weak/shared.h`. -/
def dtor (h : Heap) (self : SharedPtr) : Except Fault Heap :=
  if self.toBool then do
    let h1 ← h.DecrementStrong self.block_
    h1.deleteIfUnused self.block_
  else pure h

/-- Models `Reset()` of `weak/shared.h`. -/
def Reset (h : Heap) (self : SharedPtr) : Except Fault (Heap × SharedPtr) :=
  if self.toBool then do
    let h1 ← h.DecrementStrong self.block_
    let h2 ← h1.deleteIfUnused self.block_
    pure (h2, { object_ptr_ := 0, block_ := 0 })
  else pure (h, self)

/-- Models `SharedPtr(SharedPtr&& other)`; returns the heap, the new handle and `other`. -/
def move (h : Heap) (other : SharedPtr) : Except Fault (Heap × SharedPtr × SharedPtr) :=
  let sw := Swap { object_ptr_ := 0, block_ := 0 } other
  do
    let r ← Reset h sw.2
    pure (r.1, sw.1, r.2)

/-- Models the template `SharedPtr(SharedPtr<Y>&& other)`; returns the new handle and `other`. -/
def moveConv (other : SharedPtr) : SharedPtr × SharedPtr :=
  ({ object_ptr_ := other.object_ptr_, block_ := other.block_ }, { object_ptr_ := 0, block_ := 0 })

/-- Models the aliasing constructor `SharedPtr(const SharedPtr<Y>& other, T* ptr)`. -/
def aliasing (h : Heap) (other : SharedPtr) (ptr : Nat) : Except Fault (Heap × SharedPtr) :=
  if other.toBool then do
    let h1 ← h.IncrementStrong other.block_
    pure (h1, { object_ptr_ := ptr, block_ := other.block_ })
  else pure (h, { object_ptr_ := 0, block_ := 0 })

/-- Models `operator=(const SharedPtr& other)` of `weak/shared.h`; `same` is `this == &other`. -/
def copyAssign (h : Heap) (self other : SharedPtr) (same : Bool) : Except Fault (Heap × SharedPtr) :=
  if same then pure (h, self)
  else if self.block_ = other.block_ then
    pure (h, { self with object_ptr_ := other.object_ptr_ })
  else do
    let h2 ← if self.toBool then do
        let h1 ← h.DecrementStrong self.block_
        h1.deleteIfUnused self.block_
      else pure h
    let h3 ← if other.toBool then h2.IncrementStrong other.block_ else pure h2
    pure (h3, { object_ptr_ := other.object_ptr_, block_ := other.block_ })

/-- Models `operator=(SharedPtr&& other)` of `weak/shared.h`; `same` is `this == &other`.
Returns the heap, `*this` and `other`. -/
def moveAssign (h : Heap) (self other : SharedPtr) (same : Bool) :
    Except Fault (Heap × SharedPtr × SharedPtr) :=
  if same then pure (h, self, other)
  else
    let sw := Swap self other
    do
      let r ← Reset h sw.2
      pure (r.1, sw.1, r.2)

/-- Models the template `operator=(SharedPtr<Y>&& other)` of `weak/shared.h`. -/
def moveAssignConv (h : Heap) (self other : SharedPtr) :
    Except Fault (Heap × SharedPtr × SharedPtr) := do
  let r ← Reset h self
  pure (r.1, { object_ptr_ := other.object_ptr_, block_ := other.block_ },
    { object_ptr_ := 0, block_ := 0 })

/-- Models `UseCount()`. -/
def UseCount (h : Heap) (self : SharedPtr) : Except Fault Nat :=
  if self.toBool then h.UseStrongCount self.block_ else pure 0

end SharedPtr

namespace WeakPtr

/-- Models `WeakPtr()`. -/
def null : WeakPtr := { object_ptr_ := 0, block_ := 0 }

/-- Models `Expired()`. -/
def Expired (h : Heap) (self : WeakPtr) : Except Fault Bool :=
  if self.block_ ≠ 0 then do
    let s ← h.UseStrongCount self.block_
    pure (s == 0)
  else pure true

/-- Models `WeakPtr(const WeakPtr& other)` (and its converting template twin). -/
def copy (h : Heap) (other : WeakPtr) : Except Fault (Heap × WeakPtr) :=
  if other.block_ ≠ 0 then do
    let h1 ← h.IncrementWeak other.block_
    pure (h1, { object_ptr_ := other.object_ptr_, block_ := other.block_ })
  else pure (h, { object_ptr_ := 0, block_ := 0 })

/-- Models `Swap(WeakPtr& other)`; returns the new `(*this, other)`. -/
def Swap (self other : WeakPtr) : WeakPtr × WeakPtr :=
  ({ object_ptr_ := other.object_ptr_, block_ := other.block_ },
   { object_ptr_ := self.object_ptr_, block_ := self.block_ })

/-- Models `~WeakPtr()`. -/
def dtor (h : Heap) (self : WeakPtr) : Except Fault Heap :=
  if self.block_ ≠ 0 then do
    let h1 ← h.DecrementWeak self.block_
    h1.deleteIfUnused self.block_
  else pure h

/-- Models `Reset()`. -/
def Reset (h : Heap) (self : WeakPtr) : Except Fault (Heap × WeakPtr) :=
  if self.block_ ≠ 0 then do
    let h1 ← h.DecrementWeak self.block_
    let h2 ← h1.deleteIfUnused self.block_
    pure (h2, { object_ptr_ := 0, block_ := 0 })
  else pure (h, self)

/-- Models `WeakPtr(WeakPtr&& other)`; returns the heap, the new handle and `other`. -/
def move (h : Heap) (other : WeakPtr) : Except Fault (Heap × WeakPtr × WeakPtr) :=
  let sw := Swap { object_ptr_ := 0, block_ := 0 } other
  do
    let r ← Reset h sw.2
    pure (r.1, sw.1, r.2)

/-- Models `WeakPtr(const SharedPtr<Y>& other)`: the block is incremented without a null test. -/
def ofShared (h : Heap) (other : SharedPtr) : Except Fault (Heap × WeakPtr) := do
  let h1 ← h.IncrementWeak other.block_
  pure (h1, { object_ptr_ := other.object_ptr_, block_ := other.block_ })

/-- Models `operator=(const WeakPtr& other)`; `same` is `this == &other`. -/
def copyAssign (h : Heap) (self other : WeakPtr) (same : Bool) : Except Fault (Heap × WeakPtr) :=
  if same then pure (h, self)
  else if self.block_ = other.block_ then
    pure (h, { self with object_ptr_ := other.object_ptr_ })
  else do
    let h2 ← if self.block_ ≠ 0 then do
        let h1 ← h.DecrementWeak self.block_
        h1.deleteIfUnused self.block_
      else pure h
    let h3 ← if other.block_ ≠ 0 then h2.IncrementWeak other.block_ else pure h2
    pure (h3, { object_ptr_ := other.object_ptr_, block_ := other.block_ })

/-- Models `operator=(WeakPtr&& other)`; `same` is `this == &other`. -/
def moveAssign (h : Heap) (self other : WeakPtr) (same : Bool) :
    Except Fault (Heap × WeakPtr × WeakPtr) :=
  if same then pure (h, self, other)
  else
    let sw := Swap self other
    do
      let r ← Reset h sw.2
      pure (r.1, sw.1, r.2)

/-- Models `IncBlockStrong()`. -/
def IncBlockStrong (h : Heap) (self : WeakPtr) : Except Fault Heap :=
  h.IncrementStrong self.block_

end WeakPtr

/-- Models `explicit SharedPtr(const WeakPtr<T>& other)`: throws `BadWeakPtr` when `other` is
expired. -/
def SharedPtr.ofWeak (h : Heap) (other : WeakPtr) : Except Fault (Heap × SharedPtr) := do
  let e ← other.Expired h
  if e then throw Fault.BadWeakPtr
  else
    let h1 ← h.IncrementStrong other.block_
    pure (h1, { object_ptr_ := other.object_ptr_, block_ := other.block_ })

/-- Models `WeakPtr::Lock()`. -/
def WeakPtr.Lock (h : Heap) (self : WeakPtr) : Except Fault (Heap × SharedPtr) := do
  let e ← self.Expired h
  if e then pure (h, SharedPtr.null)
  else SharedPtr.ofWeak h self

/-- Models `WeakPtr::UseCount()`. -/
def WeakPtr.UseCount (h : Heap) (self : WeakPtr) : Except Fault Nat := do
  let e ← self.Expired h
  if !e then h.UseStrongCount self.block_ else pure 0

/-- Models `MakeShared<T>(args...)`. -/
def MakeShared (h : Heap) : Heap × SharedPtr :=
  let r := h.alloc ControlBlock.newWithObject
  (r.1, SharedPtr.ofBlock r.2 (ControlBlock.newWithObject r.2).Get)

/-! ## The `shared-from-this` variant

`shared-from-this/shared.h` differs from `weak/shared.h` in the release sequence, which calls
`block_->DeleteObject()`, and in the constructors that bind `EnableSharedFromThis`. -/

namespace SharedFromThis

/-- Modelled from the spec: `ControlBlock::DecrementStrong()` of the `shared-from-this` variant,
whose `sw_fwd.h` is not among the sources.  The spec gives `decrement_strong()` as "−1; if result
is 0, destroy the managed object now"; in this variant the handle performs the second half
itself by calling `DeleteObject()` when the count is `0`, so the member is the decrement alone. -/
def DecrementStrong (b : ControlBlock) : ControlBlock :=
  { b with strong_counter_ := (SIZE_MOD - 1 + b.strong_counter_) % SIZE_MOD }

/-- Modelled from the spec: `ControlBlock::DeleteObject()` of the `shared-from-this` variant,
whose `sw_fwd.h` is not among the sources: "destroy the managed object now (call its destructor /
release its allocation) — the block itself is NOT freed here". -/
def DeleteObject (b : ControlBlock) : ControlBlock := b.destroyObject

/-- The release sequence of `shared-from-this/shared.h`:
`DecrementStrong(); if (strong == 0 && weak == 0) { DeleteObject(); delete block_; }
else if (strong == 0) { DeleteObject(); }`. -/
def release (h : Heap) (p : Nat) : Except Fault Heap := do
  let h1 ← h.call p DecrementStrong
  let s ← h1.UseStrongCount p
  let both ← if s = 0 then do
      let w ← h1.UseWeakCount p
      pure (decide (w = 0))
    else pure false
  if both then do
    let h2 ← h1.call p DeleteObject
    h2.delete p
  else do
    let s2 ← h1.UseStrongCount p
    if s2 = 0 then h1.call p DeleteObject else pure h1

/-- Models `~SharedPtr()` of `shared-from-this/shared.h`. -/
def dtor (h : Heap) (self : SharedPtr) : Except Fault Heap :=
  if self.toBool then release h self.block_ else pure h

/-- Models `Reset()` of `shared-from-this/shared.h`. -/
def Reset (h : Heap) (self : SharedPtr) : Except Fault (Heap × SharedPtr) :=
  if self.toBool then do
    let h1 ← release h self.block_
    pure (h1, { object_ptr_ := 0, block_ := 0 })
  else pure (h, self)

/-- Models `SharedPtr(SharedPtr&& other)` of `shared-from-this/shared.h`. -/
def move (h : Heap) (other : SharedPtr) : Except Fault (Heap × SharedPtr × SharedPtr) :=
  let sw := SharedPtr.Swap { object_ptr_ := 0, block_ := 0 } other
  do
    let r ← Reset h sw.2
    pure (r.1, sw.1, r.2)

/-- Models `operator=(const SharedPtr& other)` of `shared-from-this/shared.h`. -/
def copyAssign (h : Heap) (self other : SharedPtr) (same : Bool) : Except Fault (Heap × SharedPtr) :=
  if same then pure (h, self)
  else if self.block_ = other.block_ then
    pure (h, { self with object_ptr_ := other.object_ptr_ })
  else do
    let h2 ← if self.toBool then release h self.block_ else pure h
    let h3 ← if other.toBool then h2.IncrementStrong other.block_ else pure h2
    pure (h3, { object_ptr_ := other.object_ptr_, block_ := other.block_ })

/-- Models `operator=(SharedPtr&& other)` of `shared-from-this/shared.h`. -/
def moveAssign (h : Heap) (self other : SharedPtr) (same : Bool) :
    Except Fault (Heap × SharedPtr × SharedPtr) :=
  if same then pure (h, self, other)
  else
    let sw := SharedPtr.Swap self other
    do
      let r ← Reset h sw.2
      pure (r.1, sw.1, r.2)

end SharedFromThis

/-! ## Programs over handles

A world is a heap together with the handle variables of a program.  A destroyed variable
leaves a `none` behind, so that the remaining variables keep their index. -/

/-- The member functions of `SharedPtr` whose text differs between the two variants. -/
structure Variant where
  dtor : Heap → SharedPtr → Except Fault Heap
  Reset : Heap → SharedPtr → Except Fault (Heap × SharedPtr)
  move : Heap → SharedPtr → Except Fault (Heap × SharedPtr × SharedPtr)
  copyAssign : Heap → SharedPtr → SharedPtr → Bool → Except Fault (Heap × SharedPtr)
  moveAssign : Heap → SharedPtr → SharedPtr → Bool → Except Fault (Heap × SharedPtr × SharedPtr)

/-- The operations as written in `weak/shared.h`. -/
def Variant.weak : Variant :=
  { dtor := SharedPtr.dtor, Reset := SharedPtr.Reset, move := SharedPtr.move,
    copyAssign := SharedPtr.copyAssign, moveAssign := SharedPtr.moveAssign }

/-- The operations as written in `shared-from-this/shared.h`. -/
def Variant.sharedFromThis : Variant :=
  { dtor := SharedFromThis.dtor, Reset := SharedFromThis.Reset, move := SharedFromThis.move,
    copyAssign := SharedFromThis.copyAssign, moveAssign := SharedFromThis.moveAssign }

structure World where
  heap : Heap
  shared : List (Option SharedPtr)
  weak : List (Option WeakPtr)

/-- One statement of a program; `i`, `j` index `SharedPtr` variables and `k`, `l` index
`WeakPtr` variables. -/
inductive Op where
  | sCopy (i : Nat)
  | sMove (i : Nat)
  | sCopyAssign (i j : Nat)
  | sMoveAssign (i j : Nat)
  | sReset (i : Nat)
  | sDestroy (i : Nat)
  | sOfWeak (k : Nat)
  | wLock (k : Nat)
  | wOfShared (i : Nat)
  | wCopy (k : Nat)
  | wMove (k : Nat)
  | wCopyAssign (k l : Nat)
  | wMoveAssign (k l : Nat)
  | wReset (k : Nat)
  | wDestroy (k : Nat)
  deriving DecidableEq, Repr

/-- The live variable at index `i`, if any. -/
def slot {α : Type} (l : List (Option α)) (i : Nat) : Option α := (l[i]?).join

/-- Number of live variables of the list `l` whose block pointer (`key`) is `p`. -/
def refCount {α : Type} (key : α → Nat) (l : List (Option α)) (p : Nat) : Nat :=
  l.countP fun o => match o with
    | some a => key a == p
    | none => false

namespace World

/-- Execute one statement.  A statement that names a variable which is not live is not a
statement of the program and leaves the world as it is; a `BadWeakPtr` thrown by the
promoting constructor is caught by the caller, and no variable is created. -/
def step (v : Variant) (W : World) : Op → Except Fault World
  | .sCopy i =>
    match slot W.shared i with
    | none => pure W
    | some s => do
      let r ← SharedPtr.copy W.heap s
      pure { W with heap := r.1, shared := W.shared ++ [some r.2] }
  | .sMove i =>
    match slot W.shared i with
    | none => pure W
    | some s => do
      let r ← v.move W.heap s
      pure { W with heap := r.1, shared := (W.shared.set i (some r.2.2)) ++ [some r.2.1] }
  | .sCopyAssign i j =>
    match slot W.shared i, slot W.shared j with
    | some s, some t => do
      let r ← v.copyAssign W.heap s t (i == j)
      pure { W with heap := r.1, shared := W.shared.set i (some r.2) }
    | _, _ => pure W
  | .sMoveAssign i j =>
    match slot W.shared i, slot W.shared j with
    | some s, some t => do
      let r ← v.moveAssign W.heap s t (i == j)
      pure { W with heap := r.1,
                    shared := if i = j then W.shared.set i (some r.2.1)
                      else (W.shared.set i (some r.2.1)).set j (some r.2.2) }
    | _, _ => pure W
  | .sReset i =>
    match slot W.shared i with
    | none => pure W
    | some s => do
      let r ← v.Reset W.heap s
      pure { W with heap := r.1, shared := W.shared.set i (some r.2) }
  | .sDestroy i =>
    match slot W.shared i with
    | none => pure W
    | some s => do
      let h1 ← v.dtor W.heap s
      pure { W with heap := h1, shared := W.shared.set i none }
  | .sOfWeak k =>
    match slot W.weak k with
    | none => pure W
    | some w =>
      match SharedPtr.ofWeak W.heap w with
      | .ok r => pure { W with heap := r.1, shared := W.shared ++ [some r.2] }
      | .error .BadWeakPtr => pure W
      | .error e => .error e
  | .wLock k =>
    match slot W.weak k with
    | none => pure W
    | some w => do
      let r ← w.Lock W.heap
      pure { W with heap := r.1, shared := W.shared ++ [some r.2] }
  | .wOfShared i =>
    match slot W.shared i with
    | none => pure W
    | some s => do
      let r ← WeakPtr.ofShared W.heap s
      pure { W with heap := r.1, weak := W.weak ++ [some r.2] }
  | .wCopy k =>
    match slot W.weak k with
    | none => pure W
    | some w => do
      let r ← WeakPtr.copy W.heap w
      pure { W with heap := r.1, weak := W.weak ++ [some r.2] }
  | .wMove k =>
    match slot W.weak k with
    | none => pure W
    | some w => do
      let r ← WeakPtr.move W.heap w
      pure { W with heap := r.1, weak := (W.weak.set k (some r.2.2)) ++ [some r.2.1] }
  | .wCopyAssign k l =>
    match slot W.weak k, slot W.weak l with
    | some w, some x => do
      let r ← WeakPtr.copyAssign W.heap w x (k == l)
      pure { W with heap := r.1, weak := W.weak.set k (some r.2) }
    | _, _ => pure W
  | .wMoveAssign k l =>
    match slot W.weak k, slot W.weak l with
    | some w, some x => do
      let r ← WeakPtr.moveAssign W.heap w x (k == l)
      pure { W with heap := r.1,
                    weak := if k = l then W.weak.set k (some r.2.1)
                      else (W.weak.set k (some r.2.1)).set l (some r.2.2) }
    | _, _ => pure W
  | .wReset k =>
    match slot W.weak k with
    | none => pure W
    | some w => do
      let r ← WeakPtr.Reset W.heap w
      pure { W with heap := r.1, weak := W.weak.set k (some r.2) }
  | .wDestroy k =>
    match slot W.weak k with
    | none => pure W
    | some w => do
      let h1 ← WeakPtr.dtor W.heap w
      pure { W with heap := h1, weak := W.weak.set k none }

/-- Execute a program. -/
def run (v : Variant) : World → List Op → Except Fault World
  | W, [] => pure W
  | W, op :: ops =>
    match step v W op with
    | .ok W1 => run v W1 ops
    | .error e => .error e

/-- The world after `auto p = MakeShared<T>(...)` in an empty heap. -/
def ofMakeShared : World :=
  let r := MakeShared Heap.empty
  { heap := r.1, shared := [some r.2], weak := [] }

/-- The world after `SharedPtr<T> p(ptr)` in an empty heap. -/
def ofPtr (uninit ptr : Nat) : World :=
  let r := SharedPtr.ofPtr Heap.empty uninit ptr
  { heap := r.1, shared := [some r.2], weak := [] }

/-- Number of live `SharedPtr` variables whose block pointer is `p`. -/
def sharedRefs (W : World) (p : Nat) : Nat := refCount SharedPtr.block_ W.shared p

/-- Number of live `WeakPtr` variables whose block pointer is `p`. -/
def weakRefs (W : World) (p : Nat) : Nat := refCount WeakPtr.block_ W.weak p

end World


/-! ## Reference counts as a specification -/

/-- The count function `f` with one more reference to `p`. -/
def bump (f : Nat → Nat) (p : Nat) : Nat → Nat := fun q => if q = p then f q + 1 else f q

/-- The count function `f` with one reference to `p` removed. -/
def drop (f : Nat → Nat) (p : Nat) : Nat → Nat := fun q => if q = p then f q - 1 else f q

/-- The block left behind by a strong release: `DecrementStrong()`, then `delete` when both
counters are `0`. -/
def ControlBlock.releaseStrong (b : ControlBlock) : ControlBlock :=
  if b.DecrementStrong.strong_counter_ = 0 ∧ b.DecrementStrong.weak_counter_ = 0 then
    { b.DecrementStrong with freed := true }
  else b.DecrementStrong

/-- The block left behind by a weak release: `DecrementWeak()`, then `delete` when both
counters are `0`. -/
def ControlBlock.releaseWeak (b : ControlBlock) : ControlBlock :=
  if b.DecrementWeak.strong_counter_ = 0 ∧ b.DecrementWeak.weak_counter_ = 0 then
    { b.DecrementWeak with freed := true }
  else b.DecrementWeak

/-- A block agrees with `s` strong and `w` weak references: the counters are `s` and `w`, the
block is freed exactly when both are `0`, and the managed object has been destroyed once if
`s = 0` and never otherwise. -/
def BlockInv (b : ControlBlock) (s w : Nat) : Prop :=
  b.strong_counter_ = s ∧ b.weak_counter_ = w ∧ (b.freed = true ↔ s = 0 ∧ w = 0) ∧
    b.destroyed = (if s = 0 then 1 else 0) ∧ b.object_ ≠ 0

/-- Every block of the heap agrees with the reference counts `fs` and `fw`, and an address
without a block has no reference. -/
def HeapInv (h : Heap) (fs fw : Nat → Nat) : Prop :=
  (∀ p b, p ≠ 0 → h.cells p = some b → BlockInv b (fs p) (fw p)) ∧
    (∀ p, p ≠ 0 → h.cells p = none → fs p = 0 ∧ fw p = 0)


/-- A `SharedPtr` has both pointers null or both non-null. -/
def SharedPtr.Paired (s : SharedPtr) : Prop := s.object_ptr_ = 0 ↔ s.block_ = 0

/-- A `WeakPtr` has both pointers null or both non-null. -/
def WeakPtr.Paired (w : WeakPtr) : Prop := w.object_ptr_ = 0 ↔ w.block_ = 0

/-- The invariant of a world with at most `n` variables: the heap agrees with the numbers of
live handles, and every handle has both pointers null or both non-null. -/
def World.Inv (n : Nat) (W : World) : Prop :=
  HeapInv W.heap W.sharedRefs W.weakRefs ∧
    (∀ s, some s ∈ W.shared → s.Paired) ∧ (∀ w, some w ∈ W.weak → w.Paired) ∧
    W.shared.length + W.weak.length ≤ n

/-- What one statement may do to a reference count: it never leaves `0` again and it falls
by at most one. -/
def CountStep (f g : Nat → Nat) : Prop :=
  ∀ q, q ≠ 0 → (f q = 0 → g q = 0) ∧ f q ≤ g q + 1

/-- One statement succeeds on a world that satisfies the invariant, keeps the invariant,
changes the strong reference counts by one step, and gives no reference to a block that has
none. -/
def StepOk (n : Nat) (W : World) (r : Except Fault World) : Prop :=
  ∃ W1, r = .ok W1 ∧ W1.Inv (n + 1) ∧ CountStep W.sharedRefs W1.sharedRefs ∧
    ∀ q, q ≠ 0 → W.sharedRefs q = 0 → W.weakRefs q = 0 → W1.weakRefs q = 0

/-- The worlds a program starts from: one handle made by `MakeShared`, or one handle that
adopted a non-null pointer. -/
def World.Initial (W : World) : Prop :=
  W = World.ofMakeShared ∨ ∃ uninit ptr, ptr ≠ 0 ∧ W = World.ofPtr uninit ptr

/-- The statement constructs a `WeakPtr` from a `SharedPtr` whose block pointer is null. -/
def Op.demotesNull (W : World) : Op → Prop
  | .wOfShared i => ∃ s, slot W.shared i = some s ∧ s.block_ = 0
  | _ => False

/-- The statements made of `SharedPtr` variables alone: copy and move construction, copy and
move assignment, `Reset()` and destruction. -/
def Op.onShared : Op → Bool
  | .sCopy _ => true
  | .sMove _ => true
  | .sCopyAssign _ _ => true
  | .sMoveAssign _ _ => true
  | .sReset _ => true
  | .sDestroy _ => true
  | _ => false


/-- Models `Reset(T* ptr)` of `weak/shared.h` (and its template twin): the old block is released
as in `~SharedPtr()`, then a `ControlBlockWithPtr` is allocated for `ptr`, without a null
test. -/
def SharedPtr.ResetPtr (h : Heap) (self : SharedPtr) (ptr : Nat) :
    Except Fault (Heap × SharedPtr) := do
  let h2 ← if self.toBool then do
      let h1 ← h.DecrementStrong self.block_
      h1.deleteIfUnused self.block_
    else pure h
  let r := h2.alloc fun _ => ControlBlock.newWithPtr ptr
  pure (r.1, { object_ptr_ := ptr, block_ := r.2 })

/-- One statement of a program that may also use the aliasing constructor:
`sAlias i ptr` is `SharedPtr q(p_i, ptr)`. -/
inductive AOp where
  | base (op : Op)
  | sAlias (i ptr : Nat)
  deriving DecidableEq, Repr

/-- Execute one statement of a program with aliasing. -/
def World.stepA (v : Variant) (W : World) : AOp → Except Fault World
  | .base op => World.step v W op
  | .sAlias i ptr =>
    match slot W.shared i with
    | none => pure W
    | some s => do
      let r ← SharedPtr.aliasing W.heap s ptr
      pure { W with heap := r.1, shared := W.shared ++ [some r.2] }

/-- Execute a program with aliasing. -/
def World.runA (v : Variant) : World → List AOp → Except Fault World
  | W, [] => pure W
  | W, op :: ops =>
    match World.stepA v W op with
    | .ok W1 => World.runA v W1 ops
    | .error e => .error e

/-- The aliasing statements of the program take a pointer that is not null (a pointer to a
sub-object). -/
def AOp.aliasNonNull : AOp → Bool
  | .base _ => true
  | .sAlias _ ptr => ptr != 0


/-! ## Equality of handles -/

/-- Models `operator==(const SharedPtr<T>& left, const SharedPtr<U>& right)`:
`left.Get() == right.Get()`. -/
def SharedPtr.operatorEq (left right : SharedPtr) : Bool := left.Get == right.Get

/-! ## Objects that derive from `EnableSharedFromThis`

The managed object is no longer opaque here: its `EnableSharedFromThis` base holds the member
`weak_this_`, which the raw-pointer constructors of `shared-from-this/shared.h` assign and which
the destructor of the object destroys. -/

/-- The heap of control blocks together with the objects whose type derives from
`EnableSharedFromThis`: `weak_this_ e` is the member `weak_this_` of the object at address `e`,
and `none` says that no such object is alive at `e`. -/
structure Store where
  heap : Heap
  weak_this_ : Nat → Option WeakPtr

namespace Store

/-- No block and no object. -/
def empty : Store := { heap := Heap.empty, weak_this_ := fun _ => none }

/-- Read the member `weak_this_` through an object pointer; a null pointer or a pointer to an
object that is not alive is a fault. -/
def self (S : Store) (e : Nat) : Except Fault WeakPtr :=
  if e = 0 then .error .nullDeref
  else match S.weak_this_ e with
    | none => .error .danglingDeref
    | some w => .ok w

/-- The constructor of the `EnableSharedFromThis` base of an object built at address `e`:
`weak_this_` is default-constructed. -/
def construct (S : Store) (e : Nat) : Store :=
  { S with weak_this_ := fun q => if q = e then some WeakPtr.null else S.weak_this_ q }

end Store

namespace EnableSharedFromThis

/-- Models `SetWeak(const SharedPtr<Y>& sp)` called on the object at `e`.  The statement
`weak_this_ = sp` converts `sp` by `WeakPtr(const SharedPtr<Y>&)`, move-assigns the temporary
to `weak_this_` and destroys the temporary. -/
def SetWeak (S : Store) (e : Nat) (sp : SharedPtr) : Except Fault Store := do
  let w ← S.self e
  let t ← WeakPtr.ofShared S.heap sp
  let r ← WeakPtr.moveAssign t.1 w t.2 false
  let h ← WeakPtr.dtor r.1 r.2.2
  pure { heap := h, weak_this_ := fun q => if q = e then some r.2.1 else S.weak_this_ q }

/-- Models `SharedFromThis()` called on the object at `e`: `SharedPtr(weak_this_)`. -/
def SharedFromThis (S : Store) (e : Nat) : Except Fault (Store × SharedPtr) := do
  let w ← S.self e
  let r ← SharedPtr.ofWeak S.heap w
  pure ({ S with heap := r.1 }, r.2)

/-- Models `WeakFromThis()` called on the object at `e`: `WeakPtr<T>(weak_this_)`. -/
def WeakFromThis (S : Store) (e : Nat) : Except Fault (Store × WeakPtr) := do
  let w ← S.self e
  let r ← WeakPtr.copy S.heap w
  pure ({ S with heap := r.1 }, r.2)

end EnableSharedFromThis

/-- Models `InitWeakThis(EnableSharedFromThis<Y>* e)`: `e->SetWeak(*this)`. -/
def SharedPtr.InitWeakThis (S : Store) (self : SharedPtr) (e : Nat) : Except Fault Store :=
  EnableSharedFromThis.SetWeak S e self

namespace SharedFromThis

/-- Models `explicit SharedPtr(T* ptr)` of `shared-from-this/shared.h` for a type that derives
from `EnableSharedFromThis`: the constructor of `weak/shared.h`, then `InitWeakThis(ptr)`. -/
def ofPtr (S : Store) (uninit ptr : Nat) : Except Fault (Store × SharedPtr) :=
  let r := SharedPtr.ofPtr S.heap uninit ptr
  do
    let S1 ← SharedPtr.InitWeakThis { S with heap := r.1 } r.2 ptr
    pure (S1, r.2)

/-- Models `SharedPtr(ControlBlockWithObject<Y>* block, T* ptr)` for a type that derives from
`EnableSharedFromThis`. -/
def ofBlock (S : Store) (block ptr : Nat) : Except Fault (Store × SharedPtr) :=
  let sp := SharedPtr.ofBlock block ptr
  do
    let S1 ← SharedPtr.InitWeakThis S sp ptr
    pure (S1, sp)

/-- Models `MakeShared<T>(args...)` for a type that derives from `EnableSharedFromThis`:
`new ControlBlockWithObject<T>(args...)` builds the object in the storage of the block, then
`SharedPtr(block, block->Get())`. -/
def MakeShared (S : Store) : Except Fault (Store × SharedPtr) :=
  let r := S.heap.alloc ControlBlock.newWithObject
  let obj := (ControlBlock.newWithObject r.2).Get
  ofBlock ({ S with heap := r.1 }.construct obj) r.2 obj

end SharedFromThis

namespace Store

/-- Modelled from the spec: `ControlBlock::DeleteObject()` of the `shared-from-this` variant
(its `sw_fwd.h` is not among the sources) on the block at `p`, when the managed object derives
from `EnableSharedFromThis`: "destroy the managed object now (call its destructor / release its
allocation) — the block itself is NOT freed here".  The destructor of the object is counted in
the block, then the members of the object are destroyed, of which `weak_this_` is the one that
touches the heap (`~WeakPtr()`).  Destroying an object that is not alive is a fault. -/
def DeleteObject (S : Store) (p : Nat) : Except Fault Store := do
  let b ← S.heap.deref p
  if b.object_ = 0 then pure S
  else do
    let w ← S.self b.object_
    let h ← WeakPtr.dtor (S.heap.store p (SharedFromThis.DeleteObject b)) w
    pure { heap := h, weak_this_ := fun q => if q = b.object_ then none else S.weak_this_ q }

/-- The release sequence of `shared-from-this/shared.h` over objects that derive from
`EnableSharedFromThis`:
`DecrementStrong(); if (strong == 0 && weak == 0) { DeleteObject(); delete block_; }
else if (strong == 0) { DeleteObject(); }`. -/
def release (S : Store) (p : Nat) : Except Fault Store := do
  let h1 ← S.heap.call p SharedFromThis.DecrementStrong
  let s ← h1.UseStrongCount p
  let both ← if s = 0 then do
      let w ← h1.UseWeakCount p
      pure (decide (w = 0))
    else pure false
  if both then do
    let S2 ← DeleteObject { S with heap := h1 } p
    let h3 ← S2.heap.delete p
    pure { S2 with heap := h3 }
  else do
    let s2 ← h1.UseStrongCount p
    if s2 = 0 then DeleteObject { S with heap := h1 } p else pure { S with heap := h1 }

/-- Models `~SharedPtr()` of `shared-from-this/shared.h` over objects that derive from
`EnableSharedFromThis`. -/
def dtor (S : Store) (self : SharedPtr) : Except Fault Store :=
  if self.toBool then release S self.block_ else pure S

end Store

/-! ## Intrusive reference counting (`intrusive/intrusive.h`)

The counter lives inside the managed object.  `Deleter` is `DefaultDelete`, whose `Destroy` is
`delete object`: an object on which `Destroy` has run is gone, and an access through a pointer
to it is a fault. -/

/-- Models `SimpleCounter`: the member `count_`. -/
structure SimpleCounter where
  count_ : Nat
  deriving DecidableEq, Repr

namespace SimpleCounter

/-- Models `IncRef()`: `return ++count_`; the counter and the value returned. -/
def IncRef (c : SimpleCounter) : SimpleCounter × Nat :=
  ({ count_ := (1 + c.count_) % SIZE_MOD }, (1 + c.count_) % SIZE_MOD)

/-- Models `DecRef()`: `return --count_`; the counter and the value returned. -/
def DecRef (c : SimpleCounter) : SimpleCounter × Nat :=
  ({ count_ := (SIZE_MOD - 1 + c.count_) % SIZE_MOD }, (SIZE_MOD - 1 + c.count_) % SIZE_MOD)

/-- Models `RefCount()`. -/
def RefCount (c : SimpleCounter) : Nat := c.count_

end SimpleCounter

/-- An object whose type derives from `RefCounted<Derived, SimpleCounter, Deleter>`: the member
`counter_`, and the ghost field `destroyed` that counts the calls of `Deleter::Destroy` on the
object. -/
structure RefCounted where
  counter_ : SimpleCounter
  destroyed : Nat
  deriving DecidableEq, Repr

namespace RefCounted

/-- The object right after its constructor: `count_ = 0`. -/
def init : RefCounted := { counter_ := { count_ := 0 }, destroyed := 0 }

/-- Models `IncRef()`: `counter_.IncRef()`. -/
def IncRef (o : RefCounted) : RefCounted := { o with counter_ := o.counter_.IncRef.1 }

/-- Models `Deleter::Destroy(static_cast<Derived*>(this))`. -/
def Destroy (o : RefCounted) : RefCounted := { o with destroyed := o.destroyed + 1 }

/-- Models `DecRef()`. -/
def DecRef (o : RefCounted) : RefCounted :=
  if o.counter_.RefCount < 2 then
    Destroy (if o.counter_.RefCount = 1 then { o with counter_ := o.counter_.DecRef.1 } else o)
  else { o with counter_ := o.counter_.DecRef.1 }

/-- Models `RefCount()`. -/
def RefCount (o : RefCounted) : Nat := o.counter_.RefCount

end RefCounted

/-- The heap of objects with an intrusive counter; `brk` is the next address `new` hands
out. -/
structure Objects where
  cells : Nat → Option RefCounted
  brk : Nat

namespace Objects

/-- The heap before any allocation; address `0` is never handed out. -/
def empty : Objects := { cells := fun _ => none, brk := 1 }

/-- Read through an object pointer: a null pointer, a wild pointer and a pointer to an object
that `Destroy` has deleted are faults. -/
def deref (H : Objects) (p : Nat) : Except Fault RefCounted :=
  if p = 0 then .error .nullDeref
  else match H.cells p with
    | none => .error .danglingDeref
    | some o => if o.destroyed ≠ 0 then .error .danglingDeref else .ok o

def store (H : Objects) (p : Nat) (o : RefCounted) : Objects :=
  { H with cells := fun q => if q = p then some o else H.cells q }

/-- Call a mutating member function through an object pointer. -/
def call (H : Objects) (p : Nat) (f : RefCounted → RefCounted) : Except Fault Objects :=
  match H.deref p with
  | .error e => .error e
  | .ok o => .ok (H.store p (f o))

/-- Models `new T(args...)`. -/
def alloc (H : Objects) : Objects × Nat :=
  ({ cells := fun q => if q = H.brk then some RefCounted.init else H.cells q, brk := H.brk + 1 },
    H.brk)

def IncRef (H : Objects) (p : Nat) : Except Fault Objects := H.call p RefCounted.IncRef

def DecRef (H : Objects) (p : Nat) : Except Fault Objects := H.call p RefCounted.DecRef

def RefCount (H : Objects) (p : Nat) : Except Fault Nat :=
  match H.deref p with
  | .error e => .error e
  | .ok o => .ok o.RefCount

end Objects

/-- An `IntrusivePtr<T>`: the member `object_ptr_`. -/
structure IntrusivePtr where
  object_ptr_ : Nat
  deriving DecidableEq, Repr

namespace IntrusivePtr

/-- Models `IntrusivePtr()` and `IntrusivePtr(std::nullptr_t)`. -/
def null : IntrusivePtr := { object_ptr_ := 0 }

/-- Models `IntrusivePtr(T* ptr)`. -/
def ofPtr (H : Objects) (ptr : Nat) : Except Fault (Objects × IntrusivePtr) :=
  if ptr ≠ 0 then do
    let H1 ← H.IncRef ptr
    pure (H1, { object_ptr_ := ptr })
  else pure (H, { object_ptr_ := ptr })

/-- Models the template `IntrusivePtr(const IntrusivePtr<Y>& other)`. -/
def copyConv (H : Objects) (other : IntrusivePtr) : Except Fault (Objects × IntrusivePtr) :=
  if other.object_ptr_ ≠ 0 then do
    let H1 ← H.IncRef other.object_ptr_
    pure (H1, { object_ptr_ := other.object_ptr_ })
  else pure (H, { object_ptr_ := other.object_ptr_ })

/-- Models `IntrusivePtr(const IntrusivePtr& other)`.  The constructor compares the member
`object_ptr_` with `other.object_ptr_` before it has assigned it; `uninit` is the indeterminate
value the member has at that point. -/
def copy (H : Objects) (uninit : Nat) (other : IntrusivePtr) :
    Except Fault (Objects × IntrusivePtr) :=
  if uninit ≠ other.object_ptr_ then
    if other.object_ptr_ ≠ 0 then do
      let H1 ← H.IncRef other.object_ptr_
      pure (H1, { object_ptr_ := other.object_ptr_ })
    else pure (H, { object_ptr_ := other.object_ptr_ })
  else pure (H, { object_ptr_ := uninit })

/-- Models `IntrusivePtr(IntrusivePtr&& other)` (and its template twin); returns the new handle
and `other`. -/
def move (other : IntrusivePtr) : IntrusivePtr × IntrusivePtr :=
  ({ object_ptr_ := other.object_ptr_ }, { object_ptr_ := 0 })

/-- Models `operator=(const IntrusivePtr& other)`; `same` is `this == &other`. -/
def copyAssign (H : Objects) (self other : IntrusivePtr) (same : Bool) :
    Except Fault (Objects × IntrusivePtr) :=
  if same then pure (H, self)
  else if self.object_ptr_ = other.object_ptr_ then pure (H, self)
  else do
    let H1 ← if self.object_ptr_ ≠ 0 then H.DecRef self.object_ptr_ else pure H
    let H2 ← if other.object_ptr_ ≠ 0 then H1.IncRef other.object_ptr_ else pure H1
    pure (H2, { object_ptr_ := other.object_ptr_ })

/-- Models `Swap(IntrusivePtr& other)`; returns the new `(*this, other)`. -/
def Swap (self other : IntrusivePtr) : IntrusivePtr × IntrusivePtr :=
  ({ object_ptr_ := other.object_ptr_ }, { object_ptr_ := self.object_ptr_ })

/-- Models `Reset()`. -/
def Reset (H : Objects) (self : IntrusivePtr) : Except Fault (Objects × IntrusivePtr) :=
  if self.object_ptr_ ≠ 0 then do
    let H1 ← H.DecRef self.object_ptr_
    pure (H1, { object_ptr_ := 0 })
  else pure (H, self)

/-- Models `operator=(IntrusivePtr&& other)`; `same` is `this == &other`.  Returns the heap,
`*this` and `other`. -/
def moveAssign (H : Objects) (self other : IntrusivePtr) (same : Bool) :
    Except Fault (Objects × IntrusivePtr × IntrusivePtr) :=
  if same then pure (H, self, other)
  else
    let sw := Swap self other
    do
      let r ← Reset H sw.2
      pure (r.1, sw.1, r.2)

/-- Models `~IntrusivePtr()`. -/
def dtor (H : Objects) (self : IntrusivePtr) : Except Fault Objects :=
  if self.object_ptr_ ≠ 0 then H.DecRef self.object_ptr_ else pure H

/-- Models `Reset(T* ptr)`. -/
def ResetPtr (H : Objects) (self : IntrusivePtr) (ptr : Nat) :
    Except Fault (Objects × IntrusivePtr) := do
  let H1 ← if self.object_ptr_ ≠ 0 then H.DecRef self.object_ptr_ else pure H
  let H2 ← if ptr ≠ 0 then H1.IncRef ptr else pure H1
  pure (H2, { object_ptr_ := ptr })

/-- Models `Get()`. -/
def Get (self : IntrusivePtr) : Nat := self.object_ptr_

/-- Models `UseCount()`. -/
def UseCount (H : Objects) (self : IntrusivePtr) : Except Fault Nat :=
  if self.object_ptr_ ≠ 0 then H.RefCount self.object_ptr_ else pure 0

/-- Models `explicit operator bool()`. -/
def toBool (self : IntrusivePtr) : Bool := self.object_ptr_ != 0

end IntrusivePtr

/-- Models `MakeIntrusive<T>(args...)`: `new T(args...)`, then `IntrusivePtr(ptr)`. -/
def MakeIntrusive (H : Objects) : Except Fault (Objects × IntrusivePtr) :=
  let r := H.alloc
  IntrusivePtr.ofPtr r.1 r.2

/-! ## `UniquePtr` (`unique/unique.h`, `unique/compressed_pair.h`)

A deleter is a value of a type `D`; calling it is recorded in a log, in the order of the calls.
The pointer it is called with is not interpreted: a call with `0` is a call of the deleter with
`nullptr`. -/

/-- Models `CompressedPair<F, S>`.  The primary template stores both members.  In the
specialisations for an empty class `S` the pair derives from `S` and stores `first_` alone;
such an `S` has one value, so that `second_` carries nothing there. -/
structure CompressedPair (F S : Type) where
  first_ : F
  second_ : S
  deriving DecidableEq, Repr

namespace CompressedPair

/-- Models `GetFirst()`. -/
def GetFirst {F S : Type} (p : CompressedPair F S) : F := p.first_

/-- Models `GetSecond()`. -/
def GetSecond {F S : Type} (p : CompressedPair F S) : S := p.second_

end CompressedPair

/-- One call `deleter(arg)` made by a member function of a handle.  The ghost field `held` is
the value of `pair_.GetFirst()` of that handle at the time of the call. -/
structure DeleterCall (D : Type) where
  deleter : D
  arg : Nat
  held : Nat
  deriving DecidableEq, Repr

/-- A `UniquePtr<T, Deleter>`: the member `pair_`. -/
structure UniquePtr (D : Type) where
  pair_ : CompressedPair Nat D
  deriving DecidableEq, Repr

namespace UniquePtr

/-- Models the expression statement `pair_.GetSecond()(ptr)` in a member function of `self`. -/
def callDeleter {D : Type} (log : List (DeleterCall D)) (self : UniquePtr D) (ptr : Nat) :
    List (DeleterCall D) :=
  log ++ [{ deleter := self.pair_.GetSecond, arg := ptr, held := self.pair_.GetFirst }]

/-- Models `explicit UniquePtr(T* ptr = nullptr)`; `d` is the default-constructed deleter. -/
def ofPtr {D : Type} (d : D) (ptr : Nat) : UniquePtr D :=
  { pair_ := { first_ := ptr, second_ := d } }

/-- Models `UniquePtr(T* ptr, Deleter deleter)`. -/
def ofPtrDeleter {D : Type} (ptr : Nat) (deleter : D) : UniquePtr D :=
  { pair_ := { first_ := ptr, second_ := deleter } }

/-- Models `Get()`. -/
def Get {D : Type} (self : UniquePtr D) : Nat := self.pair_.GetFirst

/-- Models `GetDeleter()`. -/
def GetDeleter {D : Type} (self : UniquePtr D) : D := self.pair_.GetSecond

/-- Models `explicit operator bool()`. -/
def toBool {D : Type} (self : UniquePtr D) : Bool := self.pair_.GetFirst != 0

/-- Models `Release()`: `ret = first; first = nullptr; return ret`.  Returns the log, `*this`
and the pointer returned. -/
def Release {D : Type} (log : List (DeleterCall D)) (self : UniquePtr D) :
    List (DeleterCall D) × UniquePtr D × Nat :=
  (log, { pair_ := { self.pair_ with first_ := 0 } }, self.pair_.GetFirst)

/-- Models `Reset(T* ptr = nullptr)`: `el = first; first = ptr; deleter(el)`. -/
def Reset {D : Type} (log : List (DeleterCall D)) (self : UniquePtr D) (ptr : Nat) :
    List (DeleterCall D) × UniquePtr D :=
  let el := self.pair_.GetFirst
  let self1 : UniquePtr D := { pair_ := { self.pair_ with first_ := ptr } }
  (callDeleter log self1 el, self1)

/-- Models `Swap(UniquePtr& other)`: `std::swap(pair_, other.pair_)`; returns the new
`(*this, other)`. -/
def Swap {D : Type} (self other : UniquePtr D) : UniquePtr D × UniquePtr D :=
  ({ pair_ := other.pair_ }, { pair_ := self.pair_ })

/-- Models `UniquePtr(UniquePtr&& other)`: `pair_` is default-constructed (`nullptr` and the
deleter `d`), then `Swap(other); other.Reset()`.  Returns the log, the new handle and
`other`. -/
def move {D : Type} (log : List (DeleterCall D)) (d : D) (other : UniquePtr D) :
    List (DeleterCall D) × UniquePtr D × UniquePtr D :=
  let sw := Swap { pair_ := { first_ := 0, second_ := d } } other
  let r := Reset log sw.2 0
  (r.1, sw.1, r.2)

/-- Models `operator=(UniquePtr&& other)`; `same` is `this == &other`.  Returns the log,
`*this` and `other`. -/
def moveAssign {D : Type} (log : List (DeleterCall D)) (self other : UniquePtr D)
    (same : Bool) : List (DeleterCall D) × UniquePtr D × UniquePtr D :=
  if same then (log, self, other)
  else
    let sw := Swap self other
    let r := Reset log sw.2 0
    (r.1, sw.1, r.2)

/-- Models the template `operator=(UniquePtr<U, B>&& other)`:
`deleter(first); first = other.Release(); other.Reset()`.  The log of the deleter `B` of
`other` is kept apart.  Returns the two logs, `*this` and `other`. -/
def moveAssignConv {D B : Type} (log : List (DeleterCall D)) (logB : List (DeleterCall B))
    (self : UniquePtr D) (other : UniquePtr B) :
    List (DeleterCall D) × List (DeleterCall B) × UniquePtr D × UniquePtr B :=
  let log1 := callDeleter log self self.pair_.GetFirst
  let rel := Release logB other
  let r := Reset rel.1 rel.2.1 0
  (log1, r.1, { pair_ := { self.pair_ with first_ := rel.2.2 } }, r.2)

/-- Models `operator=(std::nullptr_t)` of the primary template:
`deleter(first); first = nullptr`. -/
def assignNull {D : Type} (log : List (DeleterCall D)) (self : UniquePtr D) :
    List (DeleterCall D) × UniquePtr D :=
  (callDeleter log self self.pair_.GetFirst, { pair_ := { self.pair_ with first_ := 0 } })

/-- Models `~UniquePtr()`: `deleter(first)`. -/
def dtor {D : Type} (log : List (DeleterCall D)) (self : UniquePtr D) : List (DeleterCall D) :=
  callDeleter log self self.pair_.GetFirst

end UniquePtr

/-- The member functions of the specialisation `UniquePtr<void, Deleter>`. -/
structure UniquePtrVoid (D : Type) where
  pair_ : CompressedPair Nat D
  deriving DecidableEq, Repr

namespace UniquePtrVoid

/-- Models the expression statement `pair_.GetSecond()(ptr)` in a member function of `self`. -/
def callDeleter {D : Type} (log : List (DeleterCall D)) (self : UniquePtrVoid D) (ptr : Nat) :
    List (DeleterCall D) :=
  log ++ [{ deleter := self.pair_.GetSecond, arg := ptr, held := self.pair_.GetFirst }]

/-- Models `Get()`. -/
def Get {D : Type} (self : UniquePtrVoid D) : Nat := self.pair_.GetFirst

/-- Models `Release()`: `ret = first; first = nullptr; return ret`.  Returns the log, `*this`
and the pointer returned. -/
def Release {D : Type} (log : List (DeleterCall D)) (self : UniquePtrVoid D) :
    List (DeleterCall D) × UniquePtrVoid D × Nat :=
  (log, { pair_ := { self.pair_ with first_ := 0 } }, self.pair_.GetFirst)

/-- Models `Reset(void* ptr = nullptr)`. -/
def Reset {D : Type} (log : List (DeleterCall D)) (self : UniquePtrVoid D) (ptr : Nat) :
    List (DeleterCall D) × UniquePtrVoid D :=
  let el := self.pair_.GetFirst
  let self1 : UniquePtrVoid D := { pair_ := { self.pair_ with first_ := ptr } }
  (callDeleter log self1 el, self1)

/-- Models `operator=(std::nullptr_t)` of the specialisation:
`if (first != nullptr) deleter(first); first = nullptr`. -/
def assignNull {D : Type} (log : List (DeleterCall D)) (self : UniquePtrVoid D) :
    List (DeleterCall D) × UniquePtrVoid D :=
  (if self.pair_.GetFirst ≠ 0 then callDeleter log self self.pair_.GetFirst else log,
    { pair_ := { self.pair_ with first_ := 0 } })

/-- Models `~UniquePtr()`. -/
def dtor {D : Type} (log : List (DeleterCall D)) (self : UniquePtrVoid D) :
    List (DeleterCall D) :=
  callDeleter log self self.pair_.GetFirst

end UniquePtrVoid

/-- The member functions of the specialisation `UniquePtr<T[], Deleter>`. -/
structure UniquePtrArray (D : Type) where
  pair_ : CompressedPair Nat D
  deriving DecidableEq, Repr

namespace UniquePtrArray

/-- Models the expression statement `pair_.GetSecond()(ptr)` in a member function of `self`. -/
def callDeleter {D : Type} (log : List (DeleterCall D)) (self : UniquePtrArray D) (ptr : Nat) :
    List (DeleterCall D) :=
  log ++ [{ deleter := self.pair_.GetSecond, arg := ptr, held := self.pair_.GetFirst }]

/-- Models `Get()`. -/
def Get {D : Type} (self : UniquePtrArray D) : Nat := self.pair_.GetFirst

/-- Models `Release()`: `ret = first; first = nullptr; return ret`.  Returns the log, `*this`
and the pointer returned. -/
def Release {D : Type} (log : List (DeleterCall D)) (self : UniquePtrArray D) :
    List (DeleterCall D) × UniquePtrArray D × Nat :=
  (log, { pair_ := { self.pair_ with first_ := 0 } }, self.pair_.GetFirst)

/-- Models `Reset(T* ptr = nullptr)`. -/
def Reset {D : Type} (log : List (DeleterCall D)) (self : UniquePtrArray D) (ptr : Nat) :
    List (DeleterCall D) × UniquePtrArray D :=
  let el := self.pair_.GetFirst
  let self1 : UniquePtrArray D := { pair_ := { self.pair_ with first_ := ptr } }
  (callDeleter log self1 el, self1)

/-- Models `operator=(std::nullptr_t)` of the specialisation:
`if (first != nullptr) deleter(first); first = nullptr`. -/
def assignNull {D : Type} (log : List (DeleterCall D)) (self : UniquePtrArray D) :
    List (DeleterCall D) × UniquePtrArray D :=
  (if self.pair_.GetFirst ≠ 0 then callDeleter log self self.pair_.GetFirst else log,
    { pair_ := { self.pair_ with first_ := 0 } })

/-- Models `~UniquePtr()`. -/
def dtor {D : Type} (log : List (DeleterCall D)) (self : UniquePtrArray D) :
    List (DeleterCall D) :=
  callDeleter log self self.pair_.GetFirst

end UniquePtrArray

/-! ## Programs over `IntrusivePtr` variables -/

/-- The object heap together with the `IntrusivePtr` variables of a program; a destroyed
variable leaves a `none` behind. -/
structure IWorld where
  objects : Objects
  handles : List (Option IntrusivePtr)

/-- One statement of a program over `IntrusivePtr` variables; `i` and `j` index variables.
`ofPtr i` is `IntrusivePtr<T> q(p_i.Get())`, and `copy i uninit` is `IntrusivePtr<T> q(p_i)`
built in storage that holds `uninit`. -/
inductive IOp where
  | ofPtr (i : Nat)
  | copy (i uninit : Nat)
  | copyConv (i : Nat)
  | move (i : Nat)
  | copyAssign (i j : Nat)
  | moveAssign (i j : Nat)
  | reset (i : Nat)
  | destroy (i : Nat)
  deriving DecidableEq, Repr

namespace IWorld

/-- Execute one statement.  A statement that names a variable which is not live is not a
statement of the program and leaves the world as it is. -/
def step (W : IWorld) : IOp → Except Fault IWorld
  | .ofPtr i =>
    match slot W.handles i with
    | none => pure W
    | some s => do
      let r ← IntrusivePtr.ofPtr W.objects s.Get
      pure { objects := r.1, handles := W.handles ++ [some r.2] }
  | .copy i uninit =>
    match slot W.handles i with
    | none => pure W
    | some s => do
      let r ← IntrusivePtr.copy W.objects uninit s
      pure { objects := r.1, handles := W.handles ++ [some r.2] }
  | .copyConv i =>
    match slot W.handles i with
    | none => pure W
    | some s => do
      let r ← IntrusivePtr.copyConv W.objects s
      pure { objects := r.1, handles := W.handles ++ [some r.2] }
  | .move i =>
    match slot W.handles i with
    | none => pure W
    | some s =>
      pure { W with handles := (W.handles.set i (some (IntrusivePtr.move s).2)) ++
                      [some (IntrusivePtr.move s).1] }
  | .copyAssign i j =>
    match slot W.handles i, slot W.handles j with
    | some s, some t => do
      let r ← IntrusivePtr.copyAssign W.objects s t (i == j)
      pure { objects := r.1, handles := W.handles.set i (some r.2) }
    | _, _ => pure W
  | .moveAssign i j =>
    match slot W.handles i, slot W.handles j with
    | some s, some t => do
      let r ← IntrusivePtr.moveAssign W.objects s t (i == j)
      pure { objects := r.1,
             handles := if i = j then W.handles.set i (some r.2.1)
               else (W.handles.set i (some r.2.1)).set j (some r.2.2) }
    | _, _ => pure W
  | .reset i =>
    match slot W.handles i with
    | none => pure W
    | some s => do
      let r ← IntrusivePtr.Reset W.objects s
      pure { objects := r.1, handles := W.handles.set i (some r.2) }
  | .destroy i =>
    match slot W.handles i with
    | none => pure W
    | some s => do
      let H1 ← IntrusivePtr.dtor W.objects s
      pure { objects := H1, handles := W.handles.set i none }

/-- Execute a program. -/
def run : IWorld → List IOp → Except Fault IWorld
  | W, [] => pure W
  | W, op :: ops =>
    match step W op with
    | .ok W1 => run W1 ops
    | .error e => .error e

/-- The world after `auto p = MakeIntrusive<T>(...)` in an empty heap. -/
def ofMakeIntrusive : Except Fault IWorld := do
  let r ← MakeIntrusive Objects.empty
  pure { objects := r.1, handles := [some r.2] }

/-- Number of live variables that hold the object at `p`. -/
def live (W : IWorld) (p : Nat) : Nat := refCount IntrusivePtr.object_ptr_ W.handles p

end IWorld

/-- The object heap agrees with the reference counts `f`: an object with a reference is alive
and its counter is the number of its references. -/
def ObjInv (H : Objects) (f : Nat → Nat) : Prop :=
  ∀ p, p ≠ 0 → 1 ≤ f p → H.cells p = some { counter_ := { count_ := f p }, destroyed := 0 }

/-- The invariant of a world with at most `n` variables. -/
def IWorld.Inv (n : Nat) (W : IWorld) : Prop :=
  ObjInv W.objects W.live ∧ W.handles.length ≤ n

/-- No copy constructor of the program runs in storage that holds the pointer `a`. -/
def IOp.avoids (a : Nat) : IOp → Bool
  | .copy _ uninit => uninit != a
  | _ => true

/-- Every variable of the world is empty or holds the object at `a`. -/
def IWorld.Over (a : Nat) (W : IWorld) : Prop :=
  ∀ s, some s ∈ W.handles → s.object_ptr_ = 0 ∨ s.object_ptr_ = a
/-! ## Counters -/

theorem dec_size (s : Nat) (h1 : 1 ≤ s) (h2 : s < SIZE_MOD) :
    (SIZE_MOD - 1 + s) % SIZE_MOD = s - 1 := by
  unfold SIZE_MOD at *
  omega

theorem inc_size (s : Nat) (h2 : s + 1 < SIZE_MOD) : (1 + s) % SIZE_MOD = s + 1 := by
  unfold SIZE_MOD at *
  omega

theorem ControlBlock.destroyObject_eq (b : ControlBlock) (hobj : b.object_ ≠ 0) :
    b.destroyObject = { b with destroyed := b.destroyed + 1 } := by
  unfold ControlBlock.destroyObject ControlBlock.Get
  cases b.kind <;> simp [hobj]

theorem ControlBlock.DecrementStrong_eq (b : ControlBlock) (hobj : b.object_ ≠ 0)
    (h1 : 1 ≤ b.strong_counter_) (h2 : b.strong_counter_ < SIZE_MOD) :
    b.DecrementStrong = { b with strong_counter_ := b.strong_counter_ - 1,
                                 destroyed := if b.strong_counter_ = 1 then b.destroyed + 1
                                   else b.destroyed } := by
  unfold ControlBlock.DecrementStrong
  simp only [dec_size _ h1 h2]
  by_cases h : b.strong_counter_ = 1
  · have h0 : b.strong_counter_ - 1 = 0 := by omega
    simp only [h0, if_true, h]
    exact ControlBlock.destroyObject_eq _ hobj
  · have h0 : ¬ (b.strong_counter_ - 1 = 0) := by omega
    simp only [h0, if_false, h]

theorem ControlBlock.DecrementStrong_freed (b : ControlBlock) :
    b.DecrementStrong.freed = b.freed := by
  unfold ControlBlock.DecrementStrong ControlBlock.destroyObject
  dsimp only
  split <;> [skip; rfl]
  split <;> split <;> rfl

theorem BlockInv.incStrong {b : ControlBlock} {s w : Nat} (hb : BlockInv b s w) (h1 : 1 ≤ s)
    (h2 : s + 1 < SIZE_MOD) : BlockInv b.IncrementStrong (s + 1) w := by
  obtain ⟨e1, e2, e3, e4, e5⟩ := hb
  have hs : ¬ s = 0 := by omega
  refine ⟨?_, e2, ?_, ?_, e5⟩
  · simp only [ControlBlock.IncrementStrong, e1, inc_size _ h2]
  · simp only [ControlBlock.IncrementStrong]
    rw [e3]; simp [hs]
  · simp only [ControlBlock.IncrementStrong, e4, hs]; simp

theorem BlockInv.incWeak {b : ControlBlock} {s w : Nat} (hb : BlockInv b s w) (h1 : 1 ≤ s + w)
    (h2 : w + 1 < SIZE_MOD) : BlockInv b.IncrementWeak s (w + 1) := by
  obtain ⟨e1, e2, e3, e4, e5⟩ := hb
  refine ⟨e1, ?_, ?_, e4, e5⟩
  · simp only [ControlBlock.IncrementWeak, e2, inc_size _ h2]
  · simp only [ControlBlock.IncrementWeak]
    rw [e3]
    constructor
    · intro h; omega
    · intro h; omega

theorem BlockInv.releaseStrong {b : ControlBlock} {s w : Nat} (hb : BlockInv b s w) (h1 : 1 ≤ s)
    (h2 : s < SIZE_MOD) : BlockInv b.releaseStrong (s - 1) w := by
  obtain ⟨e1, e2, e3, e4, e5⟩ := hb
  have hf : b.freed = false := by
    cases hfr : b.freed
    · rfl
    · have := e3.1 hfr; omega
  unfold ControlBlock.releaseStrong
  rw [ControlBlock.DecrementStrong_eq b e5 (by omega) (by omega)]
  simp only [e1, e2, e4]
  have hs : ¬ s = 0 := by omega
  by_cases hc : s - 1 = 0 ∧ w = 0
  · rw [if_pos hc]
    have hs1 : s = 1 := by omega
    refine ⟨rfl, rfl, ?_, ?_, e5⟩
    · simp [hc.1, hc.2]
    · simp [hs, hs1]
  · rw [if_neg hc]
    refine ⟨rfl, rfl, ?_, ?_, e5⟩
    · simp only [hf]
      constructor
      · intro h; cases h
      · intro h; exact absurd h hc
    · simp only [hs, if_false]
      by_cases hs1 : s = 1
      · simp [hs1]
      · have : ¬ s - 1 = 0 := by omega
        simp [hs1, this]

theorem BlockInv.releaseWeak {b : ControlBlock} {s w : Nat} (hb : BlockInv b s w) (h1 : 1 ≤ w)
    (h2 : w < SIZE_MOD) : BlockInv b.releaseWeak s (w - 1) := by
  obtain ⟨e1, e2, e3, e4, e5⟩ := hb
  have hf : b.freed = false := by
    cases hfr : b.freed
    · rfl
    · have := e3.1 hfr; omega
  unfold ControlBlock.releaseWeak ControlBlock.DecrementWeak
  simp only [e1, e2, dec_size _ h1 h2]
  by_cases hc : s = 0 ∧ w - 1 = 0
  · rw [if_pos hc]
    refine ⟨rfl, rfl, ?_, e4, e5⟩
    simp [hc.1, hc.2]
  · rw [if_neg hc]
    refine ⟨rfl, rfl, ?_, e4, e5⟩
    simp only [hf]
    constructor
    · intro h; cases h
    · intro h; exact absurd h hc

/-! ## Heap accesses -/

theorem Heap.deref_ok_iff (h : Heap) (p : Nat) (b : ControlBlock) :
    h.deref p = .ok b ↔ p ≠ 0 ∧ h.cells p = some b ∧ b.freed = false := by
  unfold Heap.deref
  by_cases hp : p = 0
  · simp [hp]
  · cases hc : h.cells p with
    | none => simp [hp]
    | some c =>
      cases hf : c.freed
      · simp [hp, hf]
        intro e; subst e; exact hf
      · simp [hp, hf]
        intro e; subst e; simp [hf]

theorem Heap.call_ok (h : Heap) (p : Nat) (b : ControlBlock) (f : ControlBlock → ControlBlock)
    (hb : h.deref p = .ok b) : h.call p f = .ok (h.store p (f b)) := by
  simp [Heap.call, hb]

theorem Heap.call_error (h : Heap) (p : Nat) (e : Fault) (f : ControlBlock → ControlBlock)
    (hb : h.deref p = .error e) : h.call p f = .error e := by
  simp [Heap.call, hb]

theorem Heap.deref_store (h : Heap) (p : Nat) (b : ControlBlock) (hp : p ≠ 0)
    (hf : b.freed = false) : (h.store p b).deref p = .ok b := by
  simp [Heap.deref, Heap.store, hp, hf]

theorem Heap.store_store (h : Heap) (p : Nat) (b c : ControlBlock) :
    (h.store p b).store p c = h.store p c := by
  simp only [Heap.store]
  congr 1
  funext q
  by_cases hq : q = p <;> simp [hq]

theorem Heap.deleteIfUnused_store (h : Heap) (p : Nat) (b : ControlBlock) (hp : p ≠ 0)
    (hf : b.freed = false) :
    (h.store p b).deleteIfUnused p =
      .ok (h.store p (if b.strong_counter_ = 0 ∧ b.weak_counter_ = 0 then
        { b with freed := true } else b)) := by
  simp only [Heap.deleteIfUnused, Heap.UseStrongCount, Heap.UseWeakCount, Heap.delete,
    Heap.deref_store h p b hp hf, Heap.call, ControlBlock.UseStrongCount,
    ControlBlock.UseWeakCount, Heap.store_store]
  by_cases hs : b.strong_counter_ = 0
  · by_cases hw : b.weak_counter_ = 0
    · simp [hs, hw]
    · simp [hs, hw]
  · simp [hs]

/-- The strong release of `weak/shared.h` on a live block. -/
theorem Heap.releaseStrong_ok (h : Heap) (p : Nat) (b : ControlBlock) (hb : h.deref p = .ok b) :
    (h.DecrementStrong p >>= fun h1 => h1.deleteIfUnused p) = .ok (h.store p b.releaseStrong) := by
  have hp := (Heap.deref_ok_iff _ _ _).1 hb
  have hf : b.DecrementStrong.freed = false := by
    rw [ControlBlock.DecrementStrong_freed]; exact hp.2.2
  simp only [Heap.DecrementStrong, Heap.call_ok h _ b _ hb, bind, Except.bind,
    Heap.deleteIfUnused_store h _ _ hp.1 hf, Heap.store_store, ControlBlock.releaseStrong]

theorem Heap.releaseStrong_error (h : Heap) (p : Nat) (e : Fault) (hb : h.deref p = .error e) :
    (h.DecrementStrong p >>= fun h1 => h1.deleteIfUnused p) = .error e := by
  simp only [Heap.DecrementStrong, Heap.call_error h _ e _ hb, bind, Except.bind]

/-- The weak release of `weak.h` on a live block. -/
theorem Heap.releaseWeak_ok (h : Heap) (p : Nat) (b : ControlBlock) (hb : h.deref p = .ok b) :
    (h.DecrementWeak p >>= fun h1 => h1.deleteIfUnused p) = .ok (h.store p b.releaseWeak) := by
  have hp := (Heap.deref_ok_iff _ _ _).1 hb
  have hf : b.DecrementWeak.freed = false := hp.2.2
  simp only [Heap.DecrementWeak, Heap.call_ok h _ b _ hb, bind, Except.bind,
    Heap.deleteIfUnused_store h _ _ hp.1 hf, Heap.store_store, ControlBlock.releaseWeak]

theorem ControlBlock.destroyObject_fields (b : ControlBlock) :
    b.destroyObject.strong_counter_ = b.strong_counter_ ∧
      b.destroyObject.weak_counter_ = b.weak_counter_ ∧ b.destroyObject.freed = b.freed := by
  unfold ControlBlock.destroyObject
  cases b.kind <;> dsimp only <;> split <;> simp

/-- The release sequence of `shared-from-this/shared.h` has the effect of the one of
`weak/shared.h`. -/
theorem SharedFromThis.release_eq (h : Heap) (p : Nat) :
    SharedFromThis.release h p = (h.DecrementStrong p >>= fun h1 => h1.deleteIfUnused p) := by
  cases hb : h.deref p with
  | error e =>
    rw [Heap.releaseStrong_error h p e hb]
    simp only [SharedFromThis.release, Heap.call_error h _ e _ hb, bind, Except.bind]
  | ok b =>
    rw [Heap.releaseStrong_ok h p b hb]
    have hp := (Heap.deref_ok_iff _ _ _).1 hb
    have hf : (SharedFromThis.DecrementStrong b).freed = false := hp.2.2
    have hd := ControlBlock.destroyObject_fields (SharedFromThis.DecrementStrong b)
    have hf2 : (SharedFromThis.DecrementStrong b).destroyObject.freed = false := by
      rw [hd.2.2]; exact hf
    simp only [SharedFromThis.release, Heap.call_ok h _ b _ hb, bind, Except.bind,
      Heap.UseStrongCount, Heap.UseWeakCount, Heap.deref_store h p _ hp.1 hf,
      ControlBlock.UseStrongCount, ControlBlock.UseWeakCount, pure, Except.pure]
    have e4 : b.DecrementStrong =
        if (SharedFromThis.DecrementStrong b).strong_counter_ = 0 then
          (SharedFromThis.DecrementStrong b).destroyObject
        else SharedFromThis.DecrementStrong b := rfl
    unfold ControlBlock.releaseStrong
    rw [e4]
    by_cases hs : (SharedFromThis.DecrementStrong b).strong_counter_ = 0
    · rw [if_pos hs]
      by_cases hw : (SharedFromThis.DecrementStrong b).weak_counter_ = 0
      · simp only [hs, hw, if_true, decide_True, hd.1, hd.2.1, and_self, Heap.delete,
          Heap.call_ok _ _ _ _ (Heap.deref_store h p _ hp.1 hf), Heap.store_store,
          SharedFromThis.DeleteObject]
        rw [Heap.call_ok _ _ _ _ (Heap.deref_store h p _ hp.1 hf2), Heap.store_store]
        simp only [hd.1, hd.2.1, hs, hw]
      · simp only [hs, hw, if_true, decide_False, hd.1, hd.2.1, and_false, if_false,
          Heap.call_ok _ _ _ _ (Heap.deref_store h p _ hp.1 hf), Heap.store_store,
          SharedFromThis.DeleteObject]
        simp
    · rw [if_neg hs]
      simp only [hs, if_false, false_and]
      simp

/-! ## The heap invariant under the counting protocol -/

theorem HeapInv.live {h : Heap} {fs fw : Nat → Nat} (hi : HeapInv h fs fw) {p : Nat}
    (hp : p ≠ 0) (h1 : 1 ≤ fs p + fw p) :
    ∃ b, h.deref p = .ok b ∧ BlockInv b (fs p) (fw p) := by
  cases hc : h.cells p with
  | none => have := hi.2 p hp hc; omega
  | some b =>
    have hb := hi.1 p b hp hc
    refine ⟨b, (Heap.deref_ok_iff _ _ _).2 ⟨hp, hc, ?_⟩, hb⟩
    cases hf : b.freed
    · rfl
    · have := hb.2.2.1.1 hf; omega

theorem HeapInv.store {h : Heap} {fs fw : Nat → Nat} (hi : HeapInv h fs fw) {p : Nat}
    {c : ControlBlock} {fs1 fw1 : Nat → Nat} (hc : BlockInv c (fs1 p) (fw1 p))
    (hq : ∀ q, q ≠ p → fs1 q = fs q ∧ fw1 q = fw q) : HeapInv (h.store p c) fs1 fw1 := by
  constructor
  · intro q b hq0 hcell
    by_cases e : q = p
    · subst e
      simp only [Heap.store, if_true, Option.some.injEq] at hcell
      subst hcell
      exact hc
    · simp only [Heap.store, e, if_false] at hcell
      rw [(hq q e).1, (hq q e).2]
      exact hi.1 q b hq0 hcell
  · intro q hq0 hcell
    by_cases e : q = p
    · subst e
      simp [Heap.store] at hcell
    · simp only [Heap.store, e, if_false] at hcell
      rw [(hq q e).1, (hq q e).2]
      exact hi.2 q hq0 hcell

theorem HeapInv.congr {h : Heap} {fs fw fs1 fw1 : Nat → Nat} (hi : HeapInv h fs fw)
    (hq : ∀ q, q ≠ 0 → fs1 q = fs q ∧ fw1 q = fw q) : HeapInv h fs1 fw1 := by
  constructor
  · intro q b hq0 hcell
    rw [(hq q hq0).1, (hq q hq0).2]
    exact hi.1 q b hq0 hcell
  · intro q hq0 hcell
    rw [(hq q hq0).1, (hq q hq0).2]
    exact hi.2 q hq0 hcell

theorem HeapInv.addStrong {h : Heap} {fs fw : Nat → Nat} (hi : HeapInv h fs fw) {p : Nat}
    (hp : p ≠ 0) (h1 : 1 ≤ fs p) (h2 : fs p + 1 < SIZE_MOD) :
    ∃ h1, h.IncrementStrong p = .ok h1 ∧ HeapInv h1 (bump fs p) fw := by
  obtain ⟨b, hd, hb⟩ := hi.live hp (by omega)
  refine ⟨_, Heap.call_ok h p b _ hd, hi.store ?_ ?_⟩
  · simpa [bump] using hb.incStrong h1 h2
  · intro q hq; simp [bump, hq]

theorem HeapInv.addWeak {h : Heap} {fs fw : Nat → Nat} (hi : HeapInv h fs fw) {p : Nat}
    (hp : p ≠ 0) (h1 : 1 ≤ fs p + fw p) (h2 : fw p + 1 < SIZE_MOD) :
    ∃ h1, h.IncrementWeak p = .ok h1 ∧ HeapInv h1 fs (bump fw p) := by
  obtain ⟨b, hd, hb⟩ := hi.live hp h1
  refine ⟨_, Heap.call_ok h p b _ hd, hi.store ?_ ?_⟩
  · simpa [bump] using hb.incWeak h1 h2
  · intro q hq; simp [bump, hq]

theorem HeapInv.relStrong {h : Heap} {fs fw : Nat → Nat} (hi : HeapInv h fs fw) {p : Nat}
    (hp : p ≠ 0) (h1 : 1 ≤ fs p) (h2 : fs p < SIZE_MOD) :
    ∃ h1, (h.DecrementStrong p >>= fun h1 => h1.deleteIfUnused p) = .ok h1 ∧
      HeapInv h1 (drop fs p) fw := by
  obtain ⟨b, hd, hb⟩ := hi.live hp (by omega)
  refine ⟨_, Heap.releaseStrong_ok h p b hd, hi.store ?_ ?_⟩
  · simpa [drop] using hb.releaseStrong h1 h2
  · intro q hq; simp [drop, hq]

theorem HeapInv.relWeak {h : Heap} {fs fw : Nat → Nat} (hi : HeapInv h fs fw) {p : Nat}
    (hp : p ≠ 0) (h1 : 1 ≤ fw p) (h2 : fw p < SIZE_MOD) :
    ∃ h1, (h.DecrementWeak p >>= fun h1 => h1.deleteIfUnused p) = .ok h1 ∧
      HeapInv h1 fs (drop fw p) := by
  obtain ⟨b, hd, hb⟩ := hi.live hp (by omega)
  refine ⟨_, Heap.releaseWeak_ok h p b hd, hi.store ?_ ?_⟩
  · simpa [drop] using hb.releaseWeak h1 h2
  · intro q hq; simp [drop, hq]

theorem HeapInv.useStrong {h : Heap} {fs fw : Nat → Nat} (hi : HeapInv h fs fw) {p : Nat}
    (hp : p ≠ 0) (h1 : 1 ≤ fs p + fw p) : h.UseStrongCount p = .ok (fs p) := by
  obtain ⟨b, hd, hb⟩ := hi.live hp h1
  simp [Heap.UseStrongCount, hd, ControlBlock.UseStrongCount, hb.1]

theorem HeapInv.bump_zero {h : Heap} {fs fw : Nat → Nat} (hi : HeapInv h fs fw) :
    HeapInv h (bump fs 0) fw :=
  hi.congr fun q hq => by simp [bump, hq]

theorem HeapInv.drop_zero {h : Heap} {fs fw : Nat → Nat} (hi : HeapInv h fs fw) :
    HeapInv h (drop fs 0) fw :=
  hi.congr fun q hq => by simp [drop, hq]

theorem HeapInv.bump_zero_weak {h : Heap} {fs fw : Nat → Nat} (hi : HeapInv h fs fw) :
    HeapInv h fs (bump fw 0) :=
  hi.congr fun q hq => by simp [bump, hq]

theorem HeapInv.drop_zero_weak {h : Heap} {fs fw : Nat → Nat} (hi : HeapInv h fs fw) :
    HeapInv h fs (drop fw 0) :=
  hi.congr fun q hq => by simp [drop, hq]

/-! ## The member functions of `SharedPtr` on a heap that satisfies the invariant -/

theorem SharedPtr.eq_null_of_block {s : SharedPtr} (hs : s.Paired) (hb : s.block_ = 0) :
    s = SharedPtr.null := by
  cases s with
  | mk o b =>
    simp only [SharedPtr.Paired] at hs
    simp only at hb
    simp [SharedPtr.null, hb, hs.2 hb]

theorem SharedPtr.toBool_of_block {s : SharedPtr} (hs : s.Paired) (hb : s.block_ ≠ 0) :
    s.toBool = true := by
  simp only [SharedPtr.toBool, bne_iff_ne, ne_eq]
  exact fun h => hb (hs.1 h)

theorem SharedPtr.toBool_null : SharedPtr.null.toBool = false := rfl

theorem SharedPtr.copy_spec {h : Heap} {fs fw : Nat → Nat} (hi : HeapInv h fs fw)
    {s : SharedPtr} (hs : s.Paired) (h1 : s.block_ ≠ 0 → 1 ≤ fs s.block_)
    (h2 : fs s.block_ + 1 < SIZE_MOD) :
    ∃ h1, SharedPtr.copy h s = .ok (h1, s) ∧ HeapInv h1 (bump fs s.block_) fw := by
  by_cases hb : s.block_ = 0
  · have e := SharedPtr.eq_null_of_block hs hb
    subst e
    exact ⟨h, rfl, hi.bump_zero⟩
  · obtain ⟨h1, e1, i1⟩ := hi.addStrong hb (h1 hb) h2
    refine ⟨h1, ?_, i1⟩
    simp [SharedPtr.copy, SharedPtr.toBool_of_block hs hb, e1, bind, Except.bind, pure,
      Except.pure]

theorem SharedPtr.dtor_spec {h : Heap} {fs fw : Nat → Nat} (hi : HeapInv h fs fw)
    {s : SharedPtr} (hs : s.Paired) (h1 : s.block_ ≠ 0 → 1 ≤ fs s.block_)
    (h2 : fs s.block_ < SIZE_MOD) :
    ∃ h1, SharedPtr.dtor h s = .ok h1 ∧ HeapInv h1 (drop fs s.block_) fw := by
  by_cases hb : s.block_ = 0
  · have e := SharedPtr.eq_null_of_block hs hb
    subst e
    exact ⟨h, rfl, hi.drop_zero⟩
  · obtain ⟨h1, e1, i1⟩ := hi.relStrong hb (h1 hb) h2
    refine ⟨h1, ?_, i1⟩
    simp only [SharedPtr.dtor, SharedPtr.toBool_of_block hs hb, if_true]
    exact e1

theorem SharedPtr.Reset_eq (h : Heap) (s : SharedPtr) :
    SharedPtr.Reset h s =
      match SharedPtr.dtor h s with
      | .ok h1 => .ok (h1, if s.toBool then SharedPtr.null else s)
      | .error e => .error e := by
  unfold SharedPtr.Reset SharedPtr.dtor
  cases hb : s.toBool
  · simp [pure, Except.pure]
  · simp only [if_true, bind, Except.bind]
    cases h.DecrementStrong s.block_ with
    | error e => rfl
    | ok h1 =>
      simp only
      cases h1.deleteIfUnused s.block_ <;> rfl

theorem SharedPtr.Reset_spec {h : Heap} {fs fw : Nat → Nat} (hi : HeapInv h fs fw)
    {s : SharedPtr} (hs : s.Paired) (h1 : s.block_ ≠ 0 → 1 ≤ fs s.block_)
    (h2 : fs s.block_ < SIZE_MOD) :
    ∃ h1, SharedPtr.Reset h s = .ok (h1, SharedPtr.null) ∧ HeapInv h1 (drop fs s.block_) fw := by
  obtain ⟨h1, e1, i1⟩ := SharedPtr.dtor_spec hi hs h1 h2
  refine ⟨h1, ?_, i1⟩
  rw [SharedPtr.Reset_eq, e1]
  by_cases hb : s.block_ = 0
  · have e := SharedPtr.eq_null_of_block hs hb
    subst e
    rfl
  · simp [SharedPtr.toBool_of_block hs hb]

theorem SharedPtr.move_spec (h : Heap) (s : SharedPtr) :
    SharedPtr.move h s = .ok (h, s, SharedPtr.null) := rfl

theorem SharedPtr.copyAssign_eq (h : Heap) (s t : SharedPtr) (hst : s.block_ ≠ t.block_) :
    SharedPtr.copyAssign h s t false =
      match SharedPtr.dtor h s with
      | .ok h2 =>
        match (if t.toBool then h2.IncrementStrong t.block_ else .ok h2) with
        | .ok h3 => .ok (h3, { object_ptr_ := t.object_ptr_, block_ := t.block_ })
        | .error e => .error e
      | .error e => .error e := by
  cases hb : s.toBool <;> cases ht : t.toBool <;>
    simp only [SharedPtr.copyAssign, SharedPtr.dtor, hb, ht, hst, Bool.false_eq_true, if_false,
      if_true, bind, Except.bind, pure, Except.pure]
  · cases h.IncrementStrong t.block_ <;> rfl
  · cases h.DecrementStrong s.block_ with
    | error e => rfl
    | ok h1 =>
      simp only
      cases h1.deleteIfUnused s.block_ <;> rfl
  · cases h.DecrementStrong s.block_ with
    | error e => rfl
    | ok h1 =>
      simp only
      cases h1.deleteIfUnused s.block_ with
      | error e => rfl
      | ok h2 =>
        simp only
        cases h2.IncrementStrong t.block_ <;> rfl

theorem SharedPtr.copyAssign_spec {h : Heap} {fs fw : Nat → Nat} (hi : HeapInv h fs fw)
    {s t : SharedPtr} (hs : s.Paired) (ht : t.Paired) (h1 : s.block_ ≠ 0 → 1 ≤ fs s.block_)
    (h2 : fs s.block_ < SIZE_MOD) (h3 : t.block_ ≠ 0 → 1 ≤ fs t.block_)
    (h4 : fs t.block_ + 1 < SIZE_MOD) :
    ∃ h1, SharedPtr.copyAssign h s t false = .ok (h1, t) ∧
      HeapInv h1 (bump (drop fs s.block_) t.block_) fw := by
  by_cases hst : s.block_ = t.block_
  · refine ⟨h, ?_, hi.congr ?_⟩
    · simp only [SharedPtr.copyAssign, hst, if_true, Bool.false_eq_true, if_false, pure,
        Except.pure]
    · intro q hq
      refine ⟨?_, rfl⟩
      simp only [bump, drop, hst]
      by_cases e : q = t.block_
      · have := h3 (e ▸ hq)
        simp only [e, if_true]; omega
      · simp [e]
  · obtain ⟨ha, e1, i1⟩ := SharedPtr.dtor_spec hi hs h1 h2
    rw [SharedPtr.copyAssign_eq h s t hst, e1]
    by_cases hb : t.block_ = 0
    · have e := SharedPtr.eq_null_of_block ht hb
      subst e
      exact ⟨ha, rfl, i1.bump_zero⟩
    · have hd : drop fs s.block_ t.block_ = fs t.block_ := by
        simp [drop, Ne.symm hst]
      obtain ⟨hb1, e3, i3⟩ := i1.addStrong hb (by rw [hd]; exact h3 hb) (by rw [hd]; exact h4)
      refine ⟨hb1, ?_, i3⟩
      simp only [SharedPtr.toBool_of_block ht hb, if_true, e3]

theorem SharedPtr.moveAssign_spec {h : Heap} {fs fw : Nat → Nat} (hi : HeapInv h fs fw)
    {s : SharedPtr} (t : SharedPtr) (hs : s.Paired) (h1 : s.block_ ≠ 0 → 1 ≤ fs s.block_)
    (h2 : fs s.block_ < SIZE_MOD) :
    ∃ h1, SharedPtr.moveAssign h s t false = .ok (h1, t, SharedPtr.null) ∧
      HeapInv h1 (drop fs s.block_) fw := by
  obtain ⟨h1, e1, i1⟩ := SharedPtr.Reset_spec hi hs h1 h2
  refine ⟨h1, ?_, i1⟩
  have e2 : SharedPtr.Reset h { object_ptr_ := s.object_ptr_, block_ := s.block_ } =
      .ok (h1, SharedPtr.null) := e1
  simp only [SharedPtr.moveAssign, Bool.false_eq_true, if_false, SharedPtr.Swap, e2, bind,
    Except.bind, pure, Except.pure]

/-! ## The member functions of `WeakPtr` on a heap that satisfies the invariant -/

theorem WeakPtr.weak_eq_null_of_block {w : WeakPtr} (hw : w.Paired) (hb : w.block_ = 0) :
    w = WeakPtr.null := by
  cases w with
  | mk o b =>
    simp only [WeakPtr.Paired] at hw
    simp only at hb
    simp [WeakPtr.null, hb, hw.2 hb]

theorem WeakPtr.wCopy_spec {h : Heap} {fs fw : Nat → Nat} (hi : HeapInv h fs fw)
    {w : WeakPtr} (hw : w.Paired) (h1 : w.block_ ≠ 0 → 1 ≤ fw w.block_)
    (h2 : fw w.block_ + 1 < SIZE_MOD) :
    ∃ h1, WeakPtr.copy h w = .ok (h1, w) ∧ HeapInv h1 fs (bump fw w.block_) := by
  by_cases hb : w.block_ = 0
  · have e := WeakPtr.weak_eq_null_of_block hw hb
    subst e
    exact ⟨h, rfl, hi.bump_zero_weak⟩
  · obtain ⟨h1, e1, i1⟩ := hi.addWeak hb (by have := h1 hb; omega) h2
    refine ⟨h1, ?_, i1⟩
    simp [WeakPtr.copy, hb, e1, bind, Except.bind, pure, Except.pure]

theorem WeakPtr.ofShared_spec {h : Heap} {fs fw : Nat → Nat} (hi : HeapInv h fs fw)
    {s : SharedPtr} (hb : s.block_ ≠ 0) (h1 : 1 ≤ fs s.block_)
    (h2 : fw s.block_ + 1 < SIZE_MOD) :
    ∃ h1, WeakPtr.ofShared h s =
        .ok (h1, { object_ptr_ := s.object_ptr_, block_ := s.block_ }) ∧
      HeapInv h1 fs (bump fw s.block_) := by
  obtain ⟨h1, e1, i1⟩ := hi.addWeak hb (by omega) h2
  refine ⟨h1, ?_, i1⟩
  simp [WeakPtr.ofShared, e1, bind, Except.bind, pure, Except.pure]

theorem WeakPtr.ofShared_null (h : Heap) {s : SharedPtr} (hb : s.block_ = 0) :
    WeakPtr.ofShared h s = .error .nullDeref := by
  simp [WeakPtr.ofShared, Heap.IncrementWeak, Heap.call, Heap.deref, hb, bind, Except.bind]

theorem WeakPtr.wDtor_spec {h : Heap} {fs fw : Nat → Nat} (hi : HeapInv h fs fw)
    {w : WeakPtr} (h1 : w.block_ ≠ 0 → 1 ≤ fw w.block_) (h2 : fw w.block_ < SIZE_MOD) :
    ∃ h1, WeakPtr.dtor h w = .ok h1 ∧ HeapInv h1 fs (drop fw w.block_) := by
  by_cases hb : w.block_ = 0
  · refine ⟨h, ?_, ?_⟩
    · simp [WeakPtr.dtor, hb, pure, Except.pure]
    · rw [hb]; exact hi.drop_zero_weak
  · obtain ⟨h1, e1, i1⟩ := hi.relWeak hb (h1 hb) h2
    refine ⟨h1, ?_, i1⟩
    simp only [WeakPtr.dtor, ne_eq, hb, not_false_eq_true, if_true]
    exact e1

theorem WeakPtr.wReset_eq (h : Heap) (w : WeakPtr) :
    WeakPtr.Reset h w =
      match WeakPtr.dtor h w with
      | .ok h1 => .ok (h1, if w.block_ ≠ 0 then WeakPtr.null else w)
      | .error e => .error e := by
  unfold WeakPtr.Reset WeakPtr.dtor
  by_cases hb : w.block_ = 0
  · simp [hb, pure, Except.pure]
  · simp only [ne_eq, hb, not_false_eq_true, if_true, bind, Except.bind]
    cases h.DecrementWeak w.block_ with
    | error e => rfl
    | ok h1 =>
      simp only
      cases h1.deleteIfUnused w.block_ <;> rfl

theorem WeakPtr.wReset_spec {h : Heap} {fs fw : Nat → Nat} (hi : HeapInv h fs fw)
    {w : WeakPtr} (hw : w.Paired) (h1 : w.block_ ≠ 0 → 1 ≤ fw w.block_)
    (h2 : fw w.block_ < SIZE_MOD) :
    ∃ h1, WeakPtr.Reset h w = .ok (h1, WeakPtr.null) ∧ HeapInv h1 fs (drop fw w.block_) := by
  obtain ⟨h1, e1, i1⟩ := WeakPtr.wDtor_spec hi h1 h2
  refine ⟨h1, ?_, i1⟩
  rw [WeakPtr.wReset_eq, e1]
  by_cases hb : w.block_ = 0
  · have e := WeakPtr.weak_eq_null_of_block hw hb
    subst e
    rfl
  · simp [hb]

theorem WeakPtr.wMove_spec (h : Heap) (w : WeakPtr) :
    WeakPtr.move h w = .ok (h, w, WeakPtr.null) := rfl

theorem WeakPtr.wCopyAssign_eq (h : Heap) (w x : WeakPtr) (hwx : w.block_ ≠ x.block_) :
    WeakPtr.copyAssign h w x false =
      match WeakPtr.dtor h w with
      | .ok h2 =>
        match (if x.block_ ≠ 0 then h2.IncrementWeak x.block_ else .ok h2) with
        | .ok h3 => .ok (h3, { object_ptr_ := x.object_ptr_, block_ := x.block_ })
        | .error e => .error e
      | .error e => .error e := by
  unfold WeakPtr.copyAssign
  simp only [Bool.false_eq_true, if_false, if_neg hwx]
  by_cases hb : w.block_ = 0 <;> by_cases hx : x.block_ = 0 <;>
    simp only [WeakPtr.dtor, hb, hx, if_false,
      if_true, bind, Except.bind, pure, Except.pure, ne_eq, not_true_eq_false,
      not_false_eq_true]
  · cases h.IncrementWeak x.block_ <;> rfl
  · cases h.DecrementWeak w.block_ with
    | error e => rfl
    | ok h1 =>
      simp only
      cases h1.deleteIfUnused w.block_ <;> rfl
  · cases h.DecrementWeak w.block_ with
    | error e => rfl
    | ok h1 =>
      simp only
      cases h1.deleteIfUnused w.block_ with
      | error e => rfl
      | ok h2 =>
        simp only
        cases h2.IncrementWeak x.block_ <;> rfl

theorem WeakPtr.wCopyAssign_spec {h : Heap} {fs fw : Nat → Nat} (hi : HeapInv h fs fw)
    {w x : WeakPtr} (hx : x.Paired) (h1 : w.block_ ≠ 0 → 1 ≤ fw w.block_)
    (h2 : fw w.block_ < SIZE_MOD) (h3 : x.block_ ≠ 0 → 1 ≤ fw x.block_)
    (h4 : fw x.block_ + 1 < SIZE_MOD) :
    ∃ h1, WeakPtr.copyAssign h w x false = .ok (h1, x) ∧
      HeapInv h1 fs (bump (drop fw w.block_) x.block_) := by
  by_cases hwx : w.block_ = x.block_
  · refine ⟨h, ?_, hi.congr ?_⟩
    · simp only [WeakPtr.copyAssign, hwx, if_true, Bool.false_eq_true, if_false, pure,
        Except.pure]
    · intro q hq
      refine ⟨rfl, ?_⟩
      simp only [bump, drop, hwx]
      by_cases e : q = x.block_
      · have := h3 (e ▸ hq)
        simp only [e, if_true]; omega
      · simp [e]
  · obtain ⟨ha, e1, i1⟩ := WeakPtr.wDtor_spec hi h1 h2
    rw [WeakPtr.wCopyAssign_eq h w x hwx, e1]
    by_cases hb : x.block_ = 0
    · have e := WeakPtr.weak_eq_null_of_block hx hb
      subst e
      exact ⟨ha, rfl, i1.bump_zero_weak⟩
    · have hd : drop fw w.block_ x.block_ = fw x.block_ := by
        simp [drop, Ne.symm hwx]
      obtain ⟨hb1, e3, i3⟩ :=
        i1.addWeak hb (by rw [hd]; have := h3 hb; omega) (by rw [hd]; exact h4)
      refine ⟨hb1, ?_, i3⟩
      simp only [ne_eq, hb, not_false_eq_true, if_true, e3]

theorem WeakPtr.wMoveAssign_spec {h : Heap} {fs fw : Nat → Nat} (hi : HeapInv h fs fw)
    {w : WeakPtr} (x : WeakPtr) (hw : w.Paired) (h1 : w.block_ ≠ 0 → 1 ≤ fw w.block_)
    (h2 : fw w.block_ < SIZE_MOD) :
    ∃ h1, WeakPtr.moveAssign h w x false = .ok (h1, x, WeakPtr.null) ∧
      HeapInv h1 fs (drop fw w.block_) := by
  obtain ⟨h1, e1, i1⟩ := WeakPtr.wReset_spec hi hw h1 h2
  refine ⟨h1, ?_, i1⟩
  have e2 : WeakPtr.Reset h { object_ptr_ := w.object_ptr_, block_ := w.block_ } =
      .ok (h1, WeakPtr.null) := e1
  simp only [WeakPtr.moveAssign, Bool.false_eq_true, if_false, WeakPtr.Swap, e2, bind,
    Except.bind, pure, Except.pure]

/-! ## Promotion -/

theorem WeakPtr.Expired_spec {h : Heap} {fs fw : Nat → Nat} (hi : HeapInv h fs fw)
    {w : WeakPtr} (h1 : w.block_ ≠ 0 → 1 ≤ fw w.block_) :
    WeakPtr.Expired h w = .ok (decide (w.block_ = 0 ∨ fs w.block_ = 0)) := by
  by_cases hb : w.block_ = 0
  · simp [WeakPtr.Expired, hb, pure, Except.pure]
  · have := hi.useStrong hb (by have := h1 hb; omega)
    simp only [WeakPtr.Expired, ne_eq, hb, not_false_eq_true, if_true, this, bind, Except.bind,
      pure, Except.pure, false_or]
    by_cases hz : fs w.block_ = 0 <;> simp [hz]

theorem SharedPtr.ofWeak_expired {h : Heap} {fs fw : Nat → Nat} (hi : HeapInv h fs fw)
    {w : WeakPtr} (h1 : w.block_ ≠ 0 → 1 ≤ fw w.block_) (he : w.block_ = 0 ∨ fs w.block_ = 0) :
    SharedPtr.ofWeak h w = .error .BadWeakPtr ∧ WeakPtr.Lock h w = .ok (h, SharedPtr.null) := by
  have e := WeakPtr.Expired_spec hi h1
  simp only [he, decide_True] at e
  constructor
  · simp [SharedPtr.ofWeak, e, bind, Except.bind, throw, throwThe, MonadExceptOf.throw]
  · simp [WeakPtr.Lock, e, bind, Except.bind, pure, Except.pure]

theorem SharedPtr.ofWeak_live {h : Heap} {fs fw : Nat → Nat} (hi : HeapInv h fs fw)
    {w : WeakPtr} (h1 : w.block_ ≠ 0 → 1 ≤ fw w.block_) (hb : w.block_ ≠ 0)
    (hs : fs w.block_ ≠ 0) (h2 : fs w.block_ + 1 < SIZE_MOD) :
    ∃ h1, SharedPtr.ofWeak h w =
        .ok (h1, { object_ptr_ := w.object_ptr_, block_ := w.block_ }) ∧
      WeakPtr.Lock h w = .ok (h1, { object_ptr_ := w.object_ptr_, block_ := w.block_ }) ∧
      HeapInv h1 (bump fs w.block_) fw := by
  have e := WeakPtr.Expired_spec hi h1
  have hn : ¬ (w.block_ = 0 ∨ fs w.block_ = 0) := by
    intro hc; cases hc with
    | inl hc => exact hb hc
    | inr hc => exact hs hc
  simp only [hn, decide_False] at e
  obtain ⟨h1, e1, i1⟩ := hi.addStrong hb (by omega) h2
  have e2 : SharedPtr.ofWeak h w =
      .ok (h1, { object_ptr_ := w.object_ptr_, block_ := w.block_ }) := by
    simp [SharedPtr.ofWeak, e, e1, bind, Except.bind, pure, Except.pure]
  refine ⟨h1, e2, ?_, i1⟩
  simp [WeakPtr.Lock, e, e2, bind, Except.bind]

/-! ## Counting the live handles -/

theorem refCount_nil {α : Type} (key : α → Nat) (q : Nat) : refCount key [] q = 0 := rfl

theorem refCount_cons_some {α : Type} (key : α → Nat) (a : α) (l : List (Option α)) (q : Nat) :
    refCount key (some a :: l) q = refCount key l q + (if key a = q then 1 else 0) := by
  simp only [refCount, List.countP_cons, beq_iff_eq]

theorem refCount_cons_none {α : Type} (key : α → Nat) (l : List (Option α)) (q : Nat) :
    refCount key (none :: l) q = refCount key l q := by
  simp [refCount, List.countP_cons]

theorem refCount_append_one {α : Type} (key : α → Nat) (a : α) (l : List (Option α)) (q : Nat) :
    refCount key (l ++ [some a]) q = bump (refCount key l) (key a) q := by
  induction l with
  | nil =>
    simp only [List.nil_append, refCount_cons_some, refCount_nil, bump]
    split_ifs <;> omega
  | cons o l ih =>
    cases o with
    | none =>
      simp only [List.cons_append, refCount_cons_none, ih, bump]
    | some b =>
      simp only [List.cons_append, refCount_cons_some, ih, bump]
      split_ifs <;> omega

theorem slot_nil {α : Type} (i : Nat) : slot ([] : List (Option α)) i = none := by
  simp [slot]

theorem slot_cons_zero {α : Type} (o : Option α) (l : List (Option α)) :
    slot (o :: l) 0 = o := by
  simp [slot]

theorem slot_cons_succ {α : Type} (o : Option α) (l : List (Option α)) (i : Nat) :
    slot (o :: l) (i + 1) = slot l i := by
  simp [slot]

theorem slot_mem {α : Type} {l : List (Option α)} {i : Nat} {a : α} (h : slot l i = some a) :
    some a ∈ l := by
  induction l generalizing i with
  | nil => simp [slot_nil] at h
  | cons o l ih =>
    cases i with
    | zero =>
      rw [slot_cons_zero] at h
      simp [h]
    | succ i =>
      rw [slot_cons_succ] at h
      exact List.mem_cons_of_mem _ (ih h)

theorem slot_lt {α : Type} {l : List (Option α)} {i : Nat} {a : α} (h : slot l i = some a) :
    i < l.length := by
  induction l generalizing i with
  | nil => simp [slot_nil] at h
  | cons o l ih =>
    cases i with
    | zero => simp
    | succ i =>
      rw [slot_cons_succ] at h
      have := ih h
      simp only [List.length_cons]; omega

theorem refCount_pos {α : Type} (key : α → Nat) {l : List (Option α)} {i : Nat} {a : α}
    (h : slot l i = some a) : 1 ≤ refCount key l (key a) := by
  induction l generalizing i with
  | nil => simp [slot_nil] at h
  | cons o l ih =>
    cases i with
    | zero =>
      rw [slot_cons_zero] at h
      subst h
      rw [refCount_cons_some]; simp
    | succ i =>
      rw [slot_cons_succ] at h
      have := ih h
      cases o with
      | none => rw [refCount_cons_none]; exact this
      | some b => rw [refCount_cons_some]; omega

theorem refCount_le_length {α : Type} (key : α → Nat) (l : List (Option α)) (q : Nat) :
    refCount key l q ≤ l.length := by
  unfold refCount
  exact List.countP_le_length _

theorem refCount_set_some_add {α : Type} (key : α → Nat) {l : List (Option α)} {i : Nat}
    {a : α} (h : slot l i = some a) (v : α) (q : Nat) :
    refCount key (l.set i (some v)) q + (if key a = q then 1 else 0) =
      refCount key l q + (if key v = q then 1 else 0) := by
  induction l generalizing i with
  | nil => simp [slot_nil] at h
  | cons o l ih =>
    cases i with
    | zero =>
      rw [slot_cons_zero] at h
      subst h
      simp only [List.set_cons_zero, refCount_cons_some]
      omega
    | succ i =>
      rw [slot_cons_succ] at h
      have := ih h
      cases o with
      | none =>
        simp only [List.set_cons_succ, refCount_cons_none]
        exact this
      | some b =>
        simp only [List.set_cons_succ, refCount_cons_some]
        omega

theorem refCount_set_none_add {α : Type} (key : α → Nat) {l : List (Option α)} {i : Nat}
    {a : α} (h : slot l i = some a) (q : Nat) :
    refCount key (l.set i none) q + (if key a = q then 1 else 0) = refCount key l q := by
  induction l generalizing i with
  | nil => simp [slot_nil] at h
  | cons o l ih =>
    cases i with
    | zero =>
      rw [slot_cons_zero] at h
      subst h
      simp only [List.set_cons_zero, refCount_cons_some, refCount_cons_none]
    | succ i =>
      rw [slot_cons_succ] at h
      have := ih h
      cases o with
      | none =>
        simp only [List.set_cons_succ, refCount_cons_none]
        exact this
      | some b =>
        simp only [List.set_cons_succ, refCount_cons_some]
        omega

theorem refCount_set_some {α : Type} (key : α → Nat) {l : List (Option α)} {i : Nat} {a : α}
    (h : slot l i = some a) (v : α) (q : Nat) :
    refCount key (l.set i (some v)) q = bump (drop (refCount key l) (key a)) (key v) q := by
  have hn := refCount_set_some_add key h v q
  have hp := refCount_pos key h
  simp only [bump, drop]
  by_cases e : q = key a
  · subst e
    split_ifs at hn ⊢ <;> omega
  · split_ifs at hn ⊢ <;> omega

theorem refCount_set_none {α : Type} (key : α → Nat) {l : List (Option α)} {i : Nat} {a : α}
    (h : slot l i = some a) (q : Nat) :
    refCount key (l.set i none) q = drop (refCount key l) (key a) q := by
  have hn := refCount_set_none_add key h q
  have hp := refCount_pos key h
  simp only [drop]
  by_cases e : q = key a
  · subst e
    split_ifs at hn ⊢ <;> omega
  · split_ifs at hn ⊢ <;> omega

theorem slot_set_ne {α : Type} (l : List (Option α)) {i j : Nat} (hij : i ≠ j) (o : Option α) :
    slot (l.set i o) j = slot l j := by
  simp [slot, List.getElem?_set_ne hij]

theorem CountStep.refl (f : Nat → Nat) : CountStep f f := fun _ _ => ⟨id, by omega⟩

theorem CountStep.of_bump {f g : Nat → Nat} {p : Nat} (hp : p ≠ 0 → 1 ≤ f p)
    (hg : ∀ q, q ≠ 0 → g q = bump f p q) : CountStep f g := by
  intro q hq
  rw [hg q hq]
  simp only [bump]
  by_cases e : q = p
  · subst e
    have := hp hq
    simp only [if_true]
    constructor <;> omega
  · simp only [e, if_false]
    constructor <;> omega

theorem CountStep.of_drop {f g : Nat → Nat} {p : Nat}
    (hg : ∀ q, q ≠ 0 → g q = drop f p q) : CountStep f g := by
  intro q hq
  rw [hg q hq]
  simp only [drop]
  split_ifs <;> constructor <;> omega

theorem CountStep.of_drop_bump {f g : Nat → Nat} {a p : Nat} (hp : p ≠ 0 → 1 ≤ f p)
    (hg : ∀ q, q ≠ 0 → g q = bump (drop f a) p q) : CountStep f g := by
  intro q hq
  rw [hg q hq]
  simp only [bump, drop]
  by_cases e : q = p
  · subst e
    have := hp hq
    split_ifs <;> constructor <;> omega
  · split_ifs <;> constructor <;> omega

theorem World.Inv.mono {n : Nat} {W : World} (hW : W.Inv n) : W.Inv (n + 1) :=
  ⟨hW.1, hW.2.1, hW.2.2.1, Nat.le_succ_of_le hW.2.2.2⟩

theorem World.Inv.sharedBound {n : Nat} {W : World} (hW : W.Inv n) (q : Nat) :
    W.sharedRefs q ≤ n := by
  have := refCount_le_length SharedPtr.block_ W.shared q
  have := hW.2.2.2
  unfold World.sharedRefs
  omega

theorem World.Inv.weakBound {n : Nat} {W : World} (hW : W.Inv n) (q : Nat) :
    W.weakRefs q ≤ n := by
  have := refCount_le_length WeakPtr.block_ W.weak q
  have := hW.2.2.2
  unfold World.weakRefs
  omega

theorem SharedPtr.null_paired : SharedPtr.null.Paired := by
  simp [SharedPtr.Paired, SharedPtr.null]

theorem WeakPtr.weak_null_paired : WeakPtr.null.Paired := by
  simp [WeakPtr.Paired, WeakPtr.null]

theorem paired_append {α : Type} {P : α → Prop} {l : List (Option α)} {a : α}
    (hl : ∀ s, some s ∈ l → P s) (ha : P a) : ∀ s, some s ∈ l ++ [some a] → P s := by
  intro s hs
  rcases List.mem_append.1 hs with h | h
  · exact hl s h
  · simp only [List.mem_singleton, Option.some.injEq] at h
    exact h ▸ ha

theorem paired_set {α : Type} {P : α → Prop} {l : List (Option α)} {a : α} (i : Nat)
    (hl : ∀ s, some s ∈ l → P s) (ha : P a) : ∀ s, some s ∈ l.set i (some a) → P s := by
  intro s hs
  rcases List.mem_or_eq_of_mem_set hs with h | h
  · exact hl s h
  · simp only [Option.some.injEq] at h
    exact h ▸ ha

theorem paired_set_none {α : Type} {P : α → Prop} {l : List (Option α)} (i : Nat)
    (hl : ∀ s, some s ∈ l → P s) : ∀ s, some s ∈ l.set i none → P s := by
  intro s hs
  rcases List.mem_or_eq_of_mem_set hs with h | h
  · exact hl s h
  · cases h

theorem World.step_sCopy {n : Nat} {W : World} (hW : W.Inv n) (hn : n + 1 < SIZE_MOD)
    (i : Nat) : StepOk n W (World.step Variant.weak W (.sCopy i)) := by
  cases hsl : slot W.shared i with
  | none => exact ⟨W, by simp [World.step, hsl, pure, Except.pure], hW.mono, CountStep.refl _, fun _ _ _ h => h⟩
  | some s =>
    have hs := hW.2.1 s (slot_mem hsl)
    have hp : 1 ≤ W.sharedRefs s.block_ := refCount_pos SharedPtr.block_ hsl
    have hb := hW.sharedBound s.block_
    obtain ⟨h1, e1, i1⟩ := SharedPtr.copy_spec hW.1 hs (fun _ => hp) (by omega)
    refine ⟨{ W with heap := h1, shared := W.shared ++ [some s] }, ?_, ⟨?_, ?_, hW.2.2.1, ?_⟩, ?_, fun _ _ _ h => h⟩
    · simp [World.step, hsl, e1, bind, Except.bind, pure, Except.pure]
    · exact i1.congr fun q _ => ⟨refCount_append_one _ _ _ _, rfl⟩
    · exact paired_append hW.2.1 hs
    · have := hW.2.2.2
      simp only [List.length_append, List.length_singleton]; omega
    · exact CountStep.of_bump (fun _ => hp) fun q _ => refCount_append_one _ _ _ _

theorem World.step_sDestroy {n : Nat} {W : World} (hW : W.Inv n) (hn : n + 1 < SIZE_MOD)
    (i : Nat) : StepOk n W (World.step Variant.weak W (.sDestroy i)) := by
  cases hsl : slot W.shared i with
  | none => exact ⟨W, by simp [World.step, hsl, pure, Except.pure], hW.mono, CountStep.refl _, fun _ _ _ h => h⟩
  | some s =>
    have hs := hW.2.1 s (slot_mem hsl)
    have hp : 1 ≤ W.sharedRefs s.block_ := refCount_pos SharedPtr.block_ hsl
    have hb := hW.sharedBound s.block_
    obtain ⟨h1, e1, i1⟩ := SharedPtr.dtor_spec hW.1 hs (fun _ => hp) (by omega)
    refine ⟨{ W with heap := h1, shared := W.shared.set i none }, ?_, ⟨?_, ?_, hW.2.2.1, ?_⟩, ?_, fun _ _ _ h => h⟩
    · simp [World.step, hsl, Variant.weak, e1, bind, Except.bind, pure, Except.pure]
    · exact i1.congr fun q _ => ⟨refCount_set_none _ hsl _, rfl⟩
    · exact paired_set_none i hW.2.1
    · have := hW.2.2.2
      simp only [List.length_set]; omega
    · exact CountStep.of_drop fun q _ => refCount_set_none _ hsl _

theorem bump_zero_apply (f : Nat → Nat) (p : Nat) {q : Nat} (hp : p = 0) (hq : q ≠ 0) :
    bump f p q = f q := by
  simp [bump, hq, hp]

theorem drop_bump_apply (f : Nat → Nat) (p q : Nat) : drop (bump f p) p q = f q := by
  simp only [drop, bump]
  split_ifs <;> omega

theorem bump_drop_apply (f : Nat → Nat) {p : Nat} (hp : 1 ≤ f p) (q : Nat) :
    bump (drop f p) p q = f q := by
  simp only [drop, bump]
  by_cases e : q = p
  · subst e
    simp only [if_true]; omega
  · simp only [e, if_false]

theorem CountStep.of_eq {f g : Nat → Nat} (hg : ∀ q, q ≠ 0 → g q = f q) : CountStep f g := by
  intro q hq
  rw [hg q hq]
  constructor
  · exact id
  · omega

theorem World.step_sMove {n : Nat} {W : World} (hW : W.Inv n) (i : Nat) :
    StepOk n W (World.step Variant.weak W (.sMove i)) := by
  cases hsl : slot W.shared i with
  | none => exact ⟨W, by simp [World.step, hsl, pure, Except.pure], hW.mono, CountStep.refl _, fun _ _ _ h => h⟩
  | some s =>
    have hs := hW.2.1 s (slot_mem hsl)
    have hp : 1 ≤ W.sharedRefs s.block_ := refCount_pos SharedPtr.block_ hsl
    have hc : ∀ q, q ≠ 0 →
        refCount SharedPtr.block_ (W.shared.set i (some SharedPtr.null) ++ [some s]) q =
          W.sharedRefs q := by
      intro q hq
      have e : refCount SharedPtr.block_ (W.shared.set i (some SharedPtr.null)) q =
          drop W.sharedRefs s.block_ q := by
        rw [refCount_set_some _ hsl, bump_zero_apply _ SharedPtr.null.block_ rfl hq]
        rfl
      rw [refCount_append_one]
      have := bump_drop_apply W.sharedRefs hp q
      simp only [bump] at this ⊢
      rw [e]
      exact this
    refine ⟨{ W with shared := W.shared.set i (some SharedPtr.null) ++ [some s] }, ?_,
      ⟨?_, ?_, hW.2.2.1, ?_⟩, ?_, fun _ _ _ h => h⟩
    · simp [World.step, hsl, Variant.weak, SharedPtr.move_spec, bind, Except.bind, pure,
        Except.pure]
    · exact hW.1.congr fun q hq => ⟨hc q hq, rfl⟩
    · exact paired_append (paired_set i hW.2.1 SharedPtr.null_paired) hs
    · have := hW.2.2.2
      simp only [List.length_append, List.length_singleton, List.length_set]; omega
    · exact CountStep.of_eq hc

theorem World.step_sReset {n : Nat} {W : World} (hW : W.Inv n) (hn : n + 1 < SIZE_MOD)
    (i : Nat) : StepOk n W (World.step Variant.weak W (.sReset i)) := by
  cases hsl : slot W.shared i with
  | none => exact ⟨W, by simp [World.step, hsl, pure, Except.pure], hW.mono, CountStep.refl _, fun _ _ _ h => h⟩
  | some s =>
    have hs := hW.2.1 s (slot_mem hsl)
    have hp : 1 ≤ W.sharedRefs s.block_ := refCount_pos SharedPtr.block_ hsl
    have hb := hW.sharedBound s.block_
    obtain ⟨h1, e1, i1⟩ := SharedPtr.Reset_spec hW.1 hs (fun _ => hp) (by omega)
    have hc : ∀ q, q ≠ 0 →
        refCount SharedPtr.block_ (W.shared.set i (some SharedPtr.null)) q =
          drop W.sharedRefs s.block_ q := by
      intro q hq
      rw [refCount_set_some _ hsl, bump_zero_apply _ SharedPtr.null.block_ rfl hq]
      rfl
    refine ⟨{ W with heap := h1, shared := W.shared.set i (some SharedPtr.null) }, ?_,
      ⟨?_, ?_, hW.2.2.1, ?_⟩, ?_, fun _ _ _ h => h⟩
    · simp [World.step, hsl, Variant.weak, e1, bind, Except.bind, pure, Except.pure]
    · exact i1.congr fun q hq => ⟨hc q hq, rfl⟩
    · exact paired_set i hW.2.1 SharedPtr.null_paired
    · have := hW.2.2.2
      simp only [List.length_set]; omega
    · exact CountStep.of_drop hc

theorem World.step_sCopyAssign {n : Nat} {W : World} (hW : W.Inv n) (hn : n + 1 < SIZE_MOD)
    (i j : Nat) : StepOk n W (World.step Variant.weak W (.sCopyAssign i j)) := by
  cases hsl : slot W.shared i with
  | none => exact ⟨W, by simp [World.step, hsl, pure, Except.pure], hW.mono, CountStep.refl _, fun _ _ _ h => h⟩
  | some s =>
    cases htl : slot W.shared j with
    | none =>
      exact ⟨W, by simp [World.step, hsl, htl, pure, Except.pure], hW.mono, CountStep.refl _, fun _ _ _ h => h⟩
    | some t =>
      have hs := hW.2.1 s (slot_mem hsl)
      have ht := hW.2.1 t (slot_mem htl)
      have hp : 1 ≤ W.sharedRefs s.block_ := refCount_pos SharedPtr.block_ hsl
      have hpt : 1 ≤ W.sharedRefs t.block_ := refCount_pos SharedPtr.block_ htl
      have hb := hW.sharedBound s.block_
      have hbt := hW.sharedBound t.block_
      by_cases hij : i = j
      · subst hij
        have hc : ∀ q, refCount SharedPtr.block_ (W.shared.set i (some s)) q =
            W.sharedRefs q := by
          intro q
          rw [refCount_set_some _ hsl]
          exact bump_drop_apply W.sharedRefs hp q
        refine ⟨{ W with shared := W.shared.set i (some s) }, ?_, ⟨?_, ?_, hW.2.2.1, ?_⟩, ?_, fun _ _ _ h => h⟩
        · simp [World.step, hsl, Variant.weak, SharedPtr.copyAssign, pure, Except.pure, bind,
            Except.bind]
        · exact hW.1.congr fun q _ => ⟨hc q, rfl⟩
        · exact paired_set i hW.2.1 hs
        · have := hW.2.2.2
          simp only [List.length_set]; omega
        · exact CountStep.of_eq fun q _ => hc q
      · obtain ⟨h1, e1, i1⟩ := SharedPtr.copyAssign_spec hW.1 hs ht (fun _ => hp) (by omega)
          (fun _ => hpt) (by omega)
        refine ⟨{ W with heap := h1, shared := W.shared.set i (some t) }, ?_,
          ⟨?_, ?_, hW.2.2.1, ?_⟩, ?_, fun _ _ _ h => h⟩
        · have hbeq : (i == j) = false := by simp [hij]
          simp [World.step, hsl, htl, Variant.weak, hij, hbeq, e1, bind, Except.bind, pure,
            Except.pure]
        · exact i1.congr fun q _ => ⟨refCount_set_some _ hsl _ _, rfl⟩
        · exact paired_set i hW.2.1 ht
        · have := hW.2.2.2
          simp only [List.length_set]; omega
        · exact CountStep.of_drop_bump (fun _ => hpt) fun q _ => refCount_set_some _ hsl _ _

theorem World.step_sMoveAssign {n : Nat} {W : World} (hW : W.Inv n) (hn : n + 1 < SIZE_MOD)
    (i j : Nat) : StepOk n W (World.step Variant.weak W (.sMoveAssign i j)) := by
  cases hsl : slot W.shared i with
  | none => exact ⟨W, by simp [World.step, hsl, pure, Except.pure], hW.mono, CountStep.refl _, fun _ _ _ h => h⟩
  | some s =>
    cases htl : slot W.shared j with
    | none =>
      exact ⟨W, by simp [World.step, hsl, htl, pure, Except.pure], hW.mono, CountStep.refl _, fun _ _ _ h => h⟩
    | some t =>
      have hs := hW.2.1 s (slot_mem hsl)
      have ht := hW.2.1 t (slot_mem htl)
      have hp : 1 ≤ W.sharedRefs s.block_ := refCount_pos SharedPtr.block_ hsl
      have hb := hW.sharedBound s.block_
      by_cases hij : i = j
      · subst hij
        have hc : ∀ q, refCount SharedPtr.block_ (W.shared.set i (some s)) q =
            W.sharedRefs q := by
          intro q
          rw [refCount_set_some _ hsl]
          exact bump_drop_apply W.sharedRefs hp q
        refine ⟨{ W with shared := W.shared.set i (some s) }, ?_, ⟨?_, ?_, hW.2.2.1, ?_⟩, ?_, fun _ _ _ h => h⟩
        · simp [World.step, hsl, Variant.weak, SharedPtr.moveAssign, pure, Except.pure, bind,
            Except.bind]
        · exact hW.1.congr fun q _ => ⟨hc q, rfl⟩
        · exact paired_set i hW.2.1 hs
        · have := hW.2.2.2
          simp only [List.length_set]; omega
        · exact CountStep.of_eq fun q _ => hc q
      · obtain ⟨h1, e1, i1⟩ := SharedPtr.moveAssign_spec hW.1 t hs (fun _ => hp) (by omega)
        have htl2 : slot (W.shared.set i (some t)) j = some t := by
          rw [slot_set_ne _ hij]; exact htl
        have hc : ∀ q, q ≠ 0 →
            refCount SharedPtr.block_
              ((W.shared.set i (some t)).set j (some SharedPtr.null)) q =
            drop W.sharedRefs s.block_ q := by
          intro q hq
          rw [refCount_set_some _ htl2, bump_zero_apply _ SharedPtr.null.block_ rfl hq]
          have e : drop (refCount SharedPtr.block_ (W.shared.set i (some t))) t.block_ q =
              drop (bump (drop W.sharedRefs s.block_) t.block_) t.block_ q := by
            simp only [drop, refCount_set_some _ hsl]
            rfl
          rw [e, drop_bump_apply]
        refine ⟨{ W with heap := h1,
                         shared := (W.shared.set i (some t)).set j (some SharedPtr.null) }, ?_,
          ⟨?_, ?_, hW.2.2.1, ?_⟩, ?_, fun _ _ _ h => h⟩
        · have hbeq : (i == j) = false := by simp [hij]
          simp [World.step, hsl, htl, Variant.weak, hij, hbeq, e1, bind, Except.bind, pure,
            Except.pure]
        · exact i1.congr fun q hq => ⟨hc q hq, rfl⟩
        · exact paired_set j (paired_set i hW.2.1 ht) SharedPtr.null_paired
        · have := hW.2.2.2
          simp only [List.length_set]; omega
        · exact CountStep.of_drop hc

theorem World.step_sOfWeak {n : Nat} {W : World} (hW : W.Inv n) (hn : n + 1 < SIZE_MOD)
    (k : Nat) :
    StepOk n W (World.step Variant.weak W (.sOfWeak k)) ∧
      StepOk n W (World.step Variant.weak W (.wLock k)) := by
  cases hsl : slot W.weak k with
  | none =>
    exact ⟨⟨W, by simp [World.step, hsl, pure, Except.pure], hW.mono, CountStep.refl _, fun _ _ _ h => h⟩,
      ⟨W, by simp [World.step, hsl, pure, Except.pure], hW.mono, CountStep.refl _, fun _ _ _ h => h⟩⟩
  | some w =>
    have hw := hW.2.2.1 w (slot_mem hsl)
    have hp : 1 ≤ W.weakRefs w.block_ := refCount_pos WeakPtr.block_ hsl
    have hb := hW.sharedBound w.block_
    by_cases he : w.block_ = 0 ∨ W.sharedRefs w.block_ = 0
    · obtain ⟨e1, e2⟩ := SharedPtr.ofWeak_expired hW.1 (fun _ => hp) he
      constructor
      · exact ⟨W, by simp [World.step, hsl, e1, pure, Except.pure], hW.mono, CountStep.refl _, fun _ _ _ h => h⟩
      · have hc : ∀ q, q ≠ 0 →
            refCount SharedPtr.block_ (W.shared ++ [some SharedPtr.null]) q =
              W.sharedRefs q := by
          intro q hq
          rw [refCount_append_one, bump_zero_apply _ SharedPtr.null.block_ rfl hq]
          rfl
        refine ⟨{ W with shared := W.shared ++ [some SharedPtr.null] }, ?_,
          ⟨?_, ?_, hW.2.2.1, ?_⟩, ?_, fun _ _ _ h => h⟩
        · simp [World.step, hsl, e2, bind, Except.bind, pure, Except.pure]
        · exact hW.1.congr fun q hq => ⟨hc q hq, rfl⟩
        · exact paired_append hW.2.1 SharedPtr.null_paired
        · have := hW.2.2.2
          simp only [List.length_append, List.length_singleton]; omega
        · exact CountStep.of_eq hc
    · have hb0 : w.block_ ≠ 0 := fun h => he (Or.inl h)
      have hs0 : W.sharedRefs w.block_ ≠ 0 := fun h => he (Or.inr h)
      obtain ⟨h1, e1, e2, i1⟩ := SharedPtr.ofWeak_live hW.1 (fun _ => hp) hb0 hs0 (by omega)
      have hpair : SharedPtr.Paired { object_ptr_ := w.object_ptr_, block_ := w.block_ } := hw
      have hc : ∀ q, refCount SharedPtr.block_
          (W.shared ++ [some { object_ptr_ := w.object_ptr_, block_ := w.block_ }]) q =
            bump W.sharedRefs w.block_ q := fun q => refCount_append_one _ _ _ _
      have hW1 : World.Inv (n + 1)
          { W with heap := h1,
                   shared := W.shared ++
                     [some { object_ptr_ := w.object_ptr_, block_ := w.block_ }] } := by
        refine ⟨?_, ?_, hW.2.2.1, ?_⟩
        · exact i1.congr fun q _ => ⟨hc q, rfl⟩
        · exact paired_append hW.2.1 hpair
        · have := hW.2.2.2
          simp only [List.length_append, List.length_singleton]; omega
      have hcs : CountStep W.sharedRefs (refCount SharedPtr.block_
          (W.shared ++ [some { object_ptr_ := w.object_ptr_, block_ := w.block_ }])) :=
        CountStep.of_bump (fun _ => by omega) fun q _ => hc q
      constructor
      · exact ⟨_, by simp [World.step, hsl, e1, pure, Except.pure], hW1, hcs, fun _ _ _ h => h⟩
      · exact ⟨_, by simp [World.step, hsl, e2, bind, Except.bind, pure, Except.pure], hW1, hcs, fun _ _ _ h => h⟩

theorem World.step_wOfShared {n : Nat} {W : World} (hW : W.Inv n) (hn : n + 1 < SIZE_MOD)
    (i : Nat) :
    StepOk n W (World.step Variant.weak W (.wOfShared i)) ∨
      (World.step Variant.weak W (.wOfShared i) = .error .nullDeref ∧
        ∃ s, slot W.shared i = some s ∧ s.block_ = 0) := by
  cases hsl : slot W.shared i with
  | none =>
    exact Or.inl ⟨W, by simp [World.step, hsl, pure, Except.pure], hW.mono, CountStep.refl _, fun _ _ _ h => h⟩
  | some s =>
    by_cases hb0 : s.block_ = 0
    · refine Or.inr ⟨?_, s, rfl, hb0⟩
      simp [World.step, hsl, WeakPtr.ofShared_null W.heap hb0, bind, Except.bind]
    · have hs := hW.2.1 s (slot_mem hsl)
      have hp : 1 ≤ W.sharedRefs s.block_ := refCount_pos SharedPtr.block_ hsl
      have hb := hW.weakBound s.block_
      obtain ⟨h1, e1, i1⟩ := WeakPtr.ofShared_spec hW.1 hb0 hp (by omega)
      have hpair : WeakPtr.Paired { object_ptr_ := s.object_ptr_, block_ := s.block_ } := hs
      refine Or.inl ⟨{ W with heap := h1,
                              weak := W.weak ++
                                [some { object_ptr_ := s.object_ptr_, block_ := s.block_ }] },
        ?_, ⟨?_, hW.2.1, ?_, ?_⟩, CountStep.refl _, ?_⟩
      · simp [World.step, hsl, e1, bind, Except.bind, pure, Except.pure]
      · exact i1.congr fun q _ => ⟨rfl, refCount_append_one _ _ _ _⟩
      · exact paired_append hW.2.2.1 hpair
      · have := hW.2.2.2
        simp only [List.length_append, List.length_singleton]; omega
      · intro q hq hs0 hw0
        show refCount WeakPtr.block_ (W.weak ++ [some _]) q = 0
        rw [refCount_append_one]
        simp only [bump]
        by_cases e : q = s.block_
        · subst e; omega
        · simp only [e, if_false]; exact hw0

theorem World.step_wCopy {n : Nat} {W : World} (hW : W.Inv n) (hn : n + 1 < SIZE_MOD)
    (k : Nat) : StepOk n W (World.step Variant.weak W (.wCopy k)) := by
  cases hsl : slot W.weak k with
  | none => exact ⟨W, by simp [World.step, hsl, pure, Except.pure], hW.mono, CountStep.refl _, fun _ _ _ h => h⟩
  | some w =>
    have hw := hW.2.2.1 w (slot_mem hsl)
    have hp : 1 ≤ W.weakRefs w.block_ := refCount_pos WeakPtr.block_ hsl
    have hb := hW.weakBound w.block_
    obtain ⟨h1, e1, i1⟩ := WeakPtr.wCopy_spec hW.1 hw (fun _ => hp) (by omega)
    refine ⟨{ W with heap := h1, weak := W.weak ++ [some w] }, ?_, ⟨?_, hW.2.1, ?_, ?_⟩,
      CountStep.refl _, ?_⟩
    · simp [World.step, hsl, e1, bind, Except.bind, pure, Except.pure]
    · exact i1.congr fun q _ => ⟨rfl, refCount_append_one _ _ _ _⟩
    · exact paired_append hW.2.2.1 hw
    · have := hW.2.2.2
      simp only [List.length_append, List.length_singleton]; omega
    · exact fun q hq _ h0 =>
        (CountStep.of_bump (fun _ => hp) (fun q _ => refCount_append_one _ _ _ _) q hq).1 h0

theorem World.step_wDestroy {n : Nat} {W : World} (hW : W.Inv n) (hn : n + 1 < SIZE_MOD)
    (k : Nat) : StepOk n W (World.step Variant.weak W (.wDestroy k)) := by
  cases hsl : slot W.weak k with
  | none => exact ⟨W, by simp [World.step, hsl, pure, Except.pure], hW.mono, CountStep.refl _, fun _ _ _ h => h⟩
  | some w =>
    have hp : 1 ≤ W.weakRefs w.block_ := refCount_pos WeakPtr.block_ hsl
    have hb := hW.weakBound w.block_
    obtain ⟨h1, e1, i1⟩ := WeakPtr.wDtor_spec hW.1 (fun _ => hp) (by omega)
    refine ⟨{ W with heap := h1, weak := W.weak.set k none }, ?_, ⟨?_, hW.2.1, ?_, ?_⟩,
      CountStep.refl _, ?_⟩
    · simp [World.step, hsl, e1, bind, Except.bind, pure, Except.pure]
    · exact i1.congr fun q _ => ⟨rfl, refCount_set_none _ hsl _⟩
    · exact paired_set_none k hW.2.2.1
    · have := hW.2.2.2
      simp only [List.length_set]; omega
    · exact fun q hq _ h0 =>
        (CountStep.of_drop (fun q _ => refCount_set_none _ hsl _) q hq).1 h0

theorem World.step_wMove {n : Nat} {W : World} (hW : W.Inv n) (k : Nat) :
    StepOk n W (World.step Variant.weak W (.wMove k)) := by
  cases hsl : slot W.weak k with
  | none => exact ⟨W, by simp [World.step, hsl, pure, Except.pure], hW.mono, CountStep.refl _, fun _ _ _ h => h⟩
  | some w =>
    have hw := hW.2.2.1 w (slot_mem hsl)
    have hp : 1 ≤ W.weakRefs w.block_ := refCount_pos WeakPtr.block_ hsl
    have hc : ∀ q, q ≠ 0 →
        refCount WeakPtr.block_ (W.weak.set k (some WeakPtr.null) ++ [some w]) q =
          W.weakRefs q := by
      intro q hq
      have e : refCount WeakPtr.block_ (W.weak.set k (some WeakPtr.null)) q =
          drop W.weakRefs w.block_ q := by
        rw [refCount_set_some _ hsl, bump_zero_apply _ WeakPtr.null.block_ rfl hq]
        rfl
      rw [refCount_append_one]
      have := bump_drop_apply W.weakRefs hp q
      simp only [bump] at this ⊢
      rw [e]
      exact this
    refine ⟨{ W with weak := W.weak.set k (some WeakPtr.null) ++ [some w] }, ?_,
      ⟨?_, hW.2.1, ?_, ?_⟩, CountStep.refl _, ?_⟩
    · simp [World.step, hsl, WeakPtr.wMove_spec, bind, Except.bind, pure, Except.pure]
    · exact hW.1.congr fun q hq => ⟨rfl, hc q hq⟩
    · exact paired_append (paired_set k hW.2.2.1 WeakPtr.weak_null_paired) hw
    · have := hW.2.2.2
      simp only [List.length_append, List.length_singleton, List.length_set]; omega
    · exact fun q hq _ h0 => (CountStep.of_eq hc q hq).1 h0

theorem World.step_wReset {n : Nat} {W : World} (hW : W.Inv n) (hn : n + 1 < SIZE_MOD)
    (k : Nat) : StepOk n W (World.step Variant.weak W (.wReset k)) := by
  cases hsl : slot W.weak k with
  | none => exact ⟨W, by simp [World.step, hsl, pure, Except.pure], hW.mono, CountStep.refl _, fun _ _ _ h => h⟩
  | some w =>
    have hw := hW.2.2.1 w (slot_mem hsl)
    have hp : 1 ≤ W.weakRefs w.block_ := refCount_pos WeakPtr.block_ hsl
    have hb := hW.weakBound w.block_
    obtain ⟨h1, e1, i1⟩ := WeakPtr.wReset_spec hW.1 hw (fun _ => hp) (by omega)
    have hc : ∀ q, q ≠ 0 →
        refCount WeakPtr.block_ (W.weak.set k (some WeakPtr.null)) q =
          drop W.weakRefs w.block_ q := by
      intro q hq
      rw [refCount_set_some _ hsl, bump_zero_apply _ WeakPtr.null.block_ rfl hq]
      rfl
    refine ⟨{ W with heap := h1, weak := W.weak.set k (some WeakPtr.null) }, ?_,
      ⟨?_, hW.2.1, ?_, ?_⟩, CountStep.refl _, ?_⟩
    · simp [World.step, hsl, e1, bind, Except.bind, pure, Except.pure]
    · exact i1.congr fun q hq => ⟨rfl, hc q hq⟩
    · exact paired_set k hW.2.2.1 WeakPtr.weak_null_paired
    · have := hW.2.2.2
      simp only [List.length_set]; omega
    · exact fun q hq _ h0 => (CountStep.of_drop hc q hq).1 h0

theorem World.step_wCopyAssign {n : Nat} {W : World} (hW : W.Inv n) (hn : n + 1 < SIZE_MOD)
    (k l : Nat) : StepOk n W (World.step Variant.weak W (.wCopyAssign k l)) := by
  cases hsl : slot W.weak k with
  | none => exact ⟨W, by simp [World.step, hsl, pure, Except.pure], hW.mono, CountStep.refl _, fun _ _ _ h => h⟩
  | some w =>
    cases htl : slot W.weak l with
    | none =>
      exact ⟨W, by simp [World.step, hsl, htl, pure, Except.pure], hW.mono, CountStep.refl _, fun _ _ _ h => h⟩
    | some x =>
      have hw := hW.2.2.1 w (slot_mem hsl)
      have hx := hW.2.2.1 x (slot_mem htl)
      have hp : 1 ≤ W.weakRefs w.block_ := refCount_pos WeakPtr.block_ hsl
      have hpx : 1 ≤ W.weakRefs x.block_ := refCount_pos WeakPtr.block_ htl
      have hb := hW.weakBound w.block_
      have hbx := hW.weakBound x.block_
      by_cases hkl : k = l
      · subst hkl
        have hc : ∀ q, refCount WeakPtr.block_ (W.weak.set k (some w)) q = W.weakRefs q := by
          intro q
          rw [refCount_set_some _ hsl]
          exact bump_drop_apply W.weakRefs hp q
        refine ⟨{ W with weak := W.weak.set k (some w) }, ?_, ⟨?_, hW.2.1, ?_, ?_⟩,
          CountStep.refl _, ?_⟩
        · simp [World.step, hsl, WeakPtr.copyAssign, pure, Except.pure, bind, Except.bind]
        · exact hW.1.congr fun q _ => ⟨rfl, hc q⟩
        · exact paired_set k hW.2.2.1 hw
        · have := hW.2.2.2
          simp only [List.length_set]; omega
        · exact fun q hq _ h0 => (CountStep.of_eq (fun q _ => hc q) q hq).1 h0
      · obtain ⟨h1, e1, i1⟩ := WeakPtr.wCopyAssign_spec hW.1 hx (fun _ => hp) (by omega)
          (fun _ => hpx) (by omega)
        refine ⟨{ W with heap := h1, weak := W.weak.set k (some x) }, ?_,
          ⟨?_, hW.2.1, ?_, ?_⟩, CountStep.refl _, ?_⟩
        · have hbeq : (k == l) = false := by simp [hkl]
          simp [World.step, hsl, htl, hkl, hbeq, e1, bind, Except.bind, pure, Except.pure]
        · exact i1.congr fun q _ => ⟨rfl, refCount_set_some _ hsl _ _⟩
        · exact paired_set k hW.2.2.1 hx
        · have := hW.2.2.2
          simp only [List.length_set]; omega
        · exact fun q hq _ h0 =>
            (CountStep.of_drop_bump (fun _ => hpx) (fun q _ => refCount_set_some _ hsl _ _) q hq).1 h0

theorem World.step_wMoveAssign {n : Nat} {W : World} (hW : W.Inv n) (hn : n + 1 < SIZE_MOD)
    (k l : Nat) : StepOk n W (World.step Variant.weak W (.wMoveAssign k l)) := by
  cases hsl : slot W.weak k with
  | none => exact ⟨W, by simp [World.step, hsl, pure, Except.pure], hW.mono, CountStep.refl _, fun _ _ _ h => h⟩
  | some w =>
    cases htl : slot W.weak l with
    | none =>
      exact ⟨W, by simp [World.step, hsl, htl, pure, Except.pure], hW.mono, CountStep.refl _, fun _ _ _ h => h⟩
    | some x =>
      have hw := hW.2.2.1 w (slot_mem hsl)
      have hx := hW.2.2.1 x (slot_mem htl)
      have hp : 1 ≤ W.weakRefs w.block_ := refCount_pos WeakPtr.block_ hsl
      have hb := hW.weakBound w.block_
      by_cases hkl : k = l
      · subst hkl
        have hc : ∀ q, refCount WeakPtr.block_ (W.weak.set k (some w)) q = W.weakRefs q := by
          intro q
          rw [refCount_set_some _ hsl]
          exact bump_drop_apply W.weakRefs hp q
        refine ⟨{ W with weak := W.weak.set k (some w) }, ?_, ⟨?_, hW.2.1, ?_, ?_⟩,
          CountStep.refl _, ?_⟩
        · simp [World.step, hsl, WeakPtr.moveAssign, pure, Except.pure, bind, Except.bind]
        · exact hW.1.congr fun q _ => ⟨rfl, hc q⟩
        · exact paired_set k hW.2.2.1 hw
        · have := hW.2.2.2
          simp only [List.length_set]; omega
        · exact fun q hq _ h0 => (CountStep.of_eq (fun q _ => hc q) q hq).1 h0
      · obtain ⟨h1, e1, i1⟩ := WeakPtr.wMoveAssign_spec hW.1 x hw (fun _ => hp) (by omega)
        have htl2 : slot (W.weak.set k (some x)) l = some x := by
          rw [slot_set_ne _ hkl]; exact htl
        have hc : ∀ q, q ≠ 0 →
            refCount WeakPtr.block_ ((W.weak.set k (some x)).set l (some WeakPtr.null)) q =
            drop W.weakRefs w.block_ q := by
          intro q hq
          rw [refCount_set_some _ htl2, bump_zero_apply _ WeakPtr.null.block_ rfl hq]
          have e : drop (refCount WeakPtr.block_ (W.weak.set k (some x))) x.block_ q =
              drop (bump (drop W.weakRefs w.block_) x.block_) x.block_ q := by
            simp only [drop, refCount_set_some _ hsl]
            rfl
          rw [e, drop_bump_apply]
        refine ⟨{ W with heap := h1,
                         weak := (W.weak.set k (some x)).set l (some WeakPtr.null) }, ?_,
          ⟨?_, hW.2.1, ?_, ?_⟩, CountStep.refl _, ?_⟩
        · have hbeq : (k == l) = false := by simp [hkl]
          simp [World.step, hsl, htl, hkl, hbeq, e1, bind, Except.bind, pure, Except.pure]
        · exact i1.congr fun q hq => ⟨rfl, hc q hq⟩
        · exact paired_set l (paired_set k hW.2.2.1 hx) WeakPtr.weak_null_paired
        · have := hW.2.2.2
          simp only [List.length_set]; omega
        · exact fun q hq _ h0 => (CountStep.of_drop hc q hq).1 h0

/-! ## The two variants agree -/

theorem SharedFromThis.dtor_eq : SharedFromThis.dtor = SharedPtr.dtor := by
  funext h s
  simp only [SharedFromThis.dtor, SharedPtr.dtor, SharedFromThis.release_eq]

theorem SharedFromThis.sftReset_eq : SharedFromThis.Reset = SharedPtr.Reset := by
  funext h s
  simp only [SharedFromThis.Reset, SharedPtr.Reset, SharedFromThis.release_eq, bind_assoc]

theorem SharedFromThis.move_eq : SharedFromThis.move = SharedPtr.move := by
  funext h s
  simp only [SharedFromThis.move, SharedPtr.move, SharedFromThis.sftReset_eq]

theorem SharedFromThis.sftCopyAssign_eq : SharedFromThis.copyAssign = SharedPtr.copyAssign := by
  funext h s t same
  simp only [SharedFromThis.copyAssign, SharedPtr.copyAssign, SharedFromThis.release_eq,
    bind_assoc]

theorem SharedFromThis.moveAssign_eq : SharedFromThis.moveAssign = SharedPtr.moveAssign := by
  funext h s t same
  simp only [SharedFromThis.moveAssign, SharedPtr.moveAssign, SharedFromThis.sftReset_eq]

theorem Variant.sharedFromThis_eq : Variant.sharedFromThis = Variant.weak := by
  simp only [Variant.sharedFromThis, Variant.weak, SharedFromThis.dtor_eq,
    SharedFromThis.sftReset_eq, SharedFromThis.move_eq, SharedFromThis.sftCopyAssign_eq,
    SharedFromThis.moveAssign_eq]

/-! ## Programs preserve the invariant -/

theorem World.step_weak {n : Nat} {W : World} (hW : W.Inv n) (hn : n + 1 < SIZE_MOD)
    (op : Op) :
    StepOk n W (World.step Variant.weak W op) ∨
      (World.step Variant.weak W op = .error .nullDeref ∧
        ∃ i s, op = .wOfShared i ∧ slot W.shared i = some s ∧ s.block_ = 0) := by
  cases op with
  | sCopy i => exact Or.inl (World.step_sCopy hW hn i)
  | sMove i => exact Or.inl (World.step_sMove hW i)
  | sCopyAssign i j => exact Or.inl (World.step_sCopyAssign hW hn i j)
  | sMoveAssign i j => exact Or.inl (World.step_sMoveAssign hW hn i j)
  | sReset i => exact Or.inl (World.step_sReset hW hn i)
  | sDestroy i => exact Or.inl (World.step_sDestroy hW hn i)
  | sOfWeak k => exact Or.inl (World.step_sOfWeak hW hn k).1
  | wLock k => exact Or.inl (World.step_sOfWeak hW hn k).2
  | wOfShared i =>
    rcases World.step_wOfShared hW hn i with h | ⟨h, s, hs⟩
    · exact Or.inl h
    · exact Or.inr ⟨h, i, s, rfl, hs⟩
  | wCopy k => exact Or.inl (World.step_wCopy hW hn k)
  | wMove k => exact Or.inl (World.step_wMove hW k)
  | wCopyAssign k l => exact Or.inl (World.step_wCopyAssign hW hn k l)
  | wMoveAssign k l => exact Or.inl (World.step_wMoveAssign hW hn k l)
  | wReset k => exact Or.inl (World.step_wReset hW hn k)
  | wDestroy k => exact Or.inl (World.step_wDestroy hW hn k)

theorem World.step_inv {v : Variant} (hv : v = Variant.weak ∨ v = Variant.sharedFromThis)
    {n : Nat} {W W1 : World} (hW : W.Inv n) (hn : n + 1 < SIZE_MOD) {op : Op}
    (hstep : World.step v W op = .ok W1) :
    W1.Inv (n + 1) ∧ CountStep W.sharedRefs W1.sharedRefs ∧
      ∀ q, q ≠ 0 → W.sharedRefs q = 0 → W.weakRefs q = 0 → W1.weakRefs q = 0 := by
  have hv1 : v = Variant.weak := by
    rcases hv with h | h
    · exact h
    · rw [h, Variant.sharedFromThis_eq]
  subst hv1
  rcases World.step_weak hW hn op with ⟨W2, e, hi, hc, hz⟩ | ⟨e, _⟩
  · rw [hstep] at e
    cases e
    exact ⟨hi, hc, hz⟩
  · rw [hstep] at e
    cases e

theorem World.run_inv {v : Variant} (hv : v = Variant.weak ∨ v = Variant.sharedFromThis)
    (ops : List Op) {n : Nat} {W W1 : World} (hW : W.Inv n)
    (hn : n + ops.length < SIZE_MOD) (hrun : World.run v W ops = .ok W1) :
    W1.Inv (n + ops.length) := by
  induction ops generalizing n W with
  | nil =>
    simp only [World.run, pure, Except.pure, Except.ok.injEq] at hrun
    subst hrun
    simpa using hW
  | cons op ops ih =>
    simp only [World.run] at hrun
    simp only [List.length_cons] at hn ⊢
    cases hstep : World.step v W op with
    | error e => rw [hstep] at hrun; cases hrun
    | ok W2 =>
      rw [hstep] at hrun
      have h2 := (World.step_inv hv hW (by omega) hstep).1
      have := ih h2 (by omega) hrun
      have e : n + (ops.length + 1) = n + 1 + ops.length := by omega
      rw [e]
      exact this

theorem World.ofMakeShared_inv : World.ofMakeShared.Inv 1 := by
  refine ⟨⟨?_, ?_⟩, ?_, ?_, ?_⟩
  · intro p b hp hc
    by_cases e : p = 1
    · subst e
      simp only [World.ofMakeShared, MakeShared, Heap.alloc, Heap.empty, if_true,
        Option.some.injEq] at hc
      subst hc
      simp [BlockInv, ControlBlock.newWithObject, World.sharedRefs, World.weakRefs, refCount,
        World.ofMakeShared, MakeShared, Heap.alloc, Heap.empty, SharedPtr.ofBlock]
    · simp [World.ofMakeShared, MakeShared, Heap.alloc, Heap.empty, e] at hc
  · intro p hp hc
    by_cases e : p = 1
    · subst e
      simp [World.ofMakeShared, MakeShared, Heap.alloc, Heap.empty] at hc
    · have e2 : ¬ 1 = p := fun h => e h.symm
      simp [World.sharedRefs, World.weakRefs, refCount, World.ofMakeShared, MakeShared,
        Heap.alloc, Heap.empty, SharedPtr.ofBlock, e2]
  · intro s hs
    simp only [World.ofMakeShared, MakeShared, List.mem_singleton, Option.some.injEq] at hs
    subst hs
    simp [SharedPtr.Paired, SharedPtr.ofBlock, Heap.alloc, Heap.empty,
      ControlBlock.newWithObject, ControlBlock.Get]
  · intro w hw
    simp [World.ofMakeShared] at hw
  · simp [World.ofMakeShared]

theorem World.ofPtr_inv (uninit ptr : Nat) (hptr : ptr ≠ 0) : (World.ofPtr uninit ptr).Inv 1 := by
  refine ⟨⟨?_, ?_⟩, ?_, ?_, ?_⟩
  · intro p b hp hc
    by_cases e : p = 1
    · subst e
      simp only [World.ofPtr, SharedPtr.ofPtr, hptr, ne_eq, not_false_eq_true, if_true,
        Heap.alloc, Heap.empty, Option.some.injEq] at hc
      subst hc
      simp [BlockInv, ControlBlock.newWithPtr, World.sharedRefs, World.weakRefs, refCount,
        World.ofPtr, SharedPtr.ofPtr, Heap.alloc, Heap.empty, hptr]
    · simp [World.ofPtr, SharedPtr.ofPtr, Heap.alloc, Heap.empty, e, hptr] at hc
  · intro p hp hc
    by_cases e : p = 1
    · subst e
      simp [World.ofPtr, SharedPtr.ofPtr, Heap.alloc, Heap.empty, hptr] at hc
    · have e2 : ¬ 1 = p := fun h => e h.symm
      simp [World.sharedRefs, World.weakRefs, refCount, World.ofPtr, SharedPtr.ofPtr,
        Heap.alloc, Heap.empty, hptr, e2]
  · intro s hs
    simp only [World.ofPtr, SharedPtr.ofPtr, hptr, ne_eq, not_false_eq_true, if_true,
      List.mem_singleton, Option.some.injEq] at hs
    subst hs
    simp [SharedPtr.Paired, Heap.alloc, Heap.empty, hptr]
  · intro w hw
    simp [World.ofPtr] at hw
  · simp [World.ofPtr]

/-! ## Release of a `SharedPtr` -/

theorem ControlBlock.releaseStrong_fields (b : ControlBlock) (hobj : b.object_ ≠ 0)
    (h1 : 1 ≤ b.strong_counter_) (h2 : b.strong_counter_ < SIZE_MOD) (hf : b.freed = false) :
    b.releaseStrong.strong_counter_ = b.strong_counter_ - 1 ∧
      b.releaseStrong.weak_counter_ = b.weak_counter_ ∧
      b.releaseStrong.destroyed =
        b.destroyed + (if b.releaseStrong.strong_counter_ = 0 then 1 else 0) ∧
      (b.releaseStrong.freed = true ↔
        b.releaseStrong.strong_counter_ = 0 ∧ b.releaseStrong.weak_counter_ = 0) ∧
      b.releaseStrong.kind = b.kind ∧ b.releaseStrong.object_ = b.object_ := by
  unfold ControlBlock.releaseStrong
  rw [ControlBlock.DecrementStrong_eq b hobj h1 h2]
  by_cases hc : b.strong_counter_ - 1 = 0 ∧ b.weak_counter_ = 0
  · rw [if_pos hc]
    have e : b.strong_counter_ = 1 := by omega
    simp [hc.1, hc.2, e]
  · rw [if_neg hc]
    refine ⟨rfl, rfl, ?_, ?_, rfl, rfl⟩
    · by_cases e : b.strong_counter_ = 1
      · simp [e]
      · have : ¬ b.strong_counter_ - 1 = 0 := by omega
        simp [e, this]
    · simp only [hf]
      constructor
      · intro h; cases h
      · intro h; exact absurd h hc

theorem SharedPtr.dtor_live (h : Heap) (self : SharedPtr) (b : ControlBlock)
    (hne : self.toBool = true) (hb : h.deref self.block_ = .ok b) :
    SharedPtr.dtor h self = .ok (h.store self.block_ b.releaseStrong) ∧
      SharedPtr.Reset h self = .ok (h.store self.block_ b.releaseStrong, SharedPtr.null) := by
  have e : SharedPtr.dtor h self = .ok (h.store self.block_ b.releaseStrong) := by
    simp only [SharedPtr.dtor, hne, if_true]
    exact Heap.releaseStrong_ok h _ b hb
  refine ⟨e, ?_⟩
  rw [SharedPtr.Reset_eq, e]
  simp [hne]

theorem SharedPtr.dtor_empty (h : Heap) (self : SharedPtr) (hne : self.toBool = false) :
    SharedPtr.dtor h self = .ok h ∧ SharedPtr.Reset h self = .ok (h, self) := by
  simp [SharedPtr.dtor, SharedPtr.Reset, hne, pure, Except.pure]

/-- C1: releasing a non-empty `SharedPtr` whose block is live, by `~SharedPtr()` or by `Reset()`,
takes exactly one from the strong counter of its block and leaves the weak counter and every
other block alone; the managed object is destroyed exactly when the strong counter is then `0`,
the block is freed exactly when both counters are then `0`, and `Reset()` leaves the handle
with both pointers null.  Releasing an empty handle changes neither the heap nor the handle. -/
theorem C1_release_protocol (h : Heap) (self : SharedPtr) :
    (self.toBool = false →
      SharedPtr.dtor h self = .ok h ∧ SharedPtr.Reset h self = .ok (h, self)) ∧
    (∀ b, self.toBool = true → h.deref self.block_ = .ok b → 1 ≤ b.strong_counter_ →
      b.strong_counter_ < SIZE_MOD → b.object_ ≠ 0 →
      ∃ h1 b1, SharedPtr.dtor h self = .ok h1 ∧
        SharedPtr.Reset h self = .ok (h1, { object_ptr_ := 0, block_ := 0 }) ∧
        h1.cells self.block_ = some b1 ∧ (∀ q, q ≠ self.block_ → h1.cells q = h.cells q) ∧
        b1.strong_counter_ = b.strong_counter_ - 1 ∧ b1.weak_counter_ = b.weak_counter_ ∧
        b1.destroyed = b.destroyed + (if b1.strong_counter_ = 0 then 1 else 0) ∧
        (b1.freed = true ↔ b1.strong_counter_ = 0 ∧ b1.weak_counter_ = 0)) := by
  refine ⟨SharedPtr.dtor_empty h self, ?_⟩
  intro b hne hb h1 h2 hobj
  have hf := ((Heap.deref_ok_iff _ _ _).1 hb).2.2
  obtain ⟨e1, e2⟩ := SharedPtr.dtor_live h self b hne hb
  obtain ⟨f1, f2, f3, f4, _, _⟩ := ControlBlock.releaseStrong_fields b hobj h1 h2 hf
  refine ⟨_, b.releaseStrong, e1, e2, ?_, ?_, f1, f2, f3, f4⟩
  · simp [Heap.store]
  · intro q hq
    simp [Heap.store, hq]

/-- C1, at the last handle of a fresh `MakeShared` block that a `WeakPtr` still observes: the
object is destroyed and the block survives. -/
theorem C1_release_protocol_witness :
    ∃ h1 b1,
      SharedPtr.dtor (Heap.empty.store 1 { ControlBlock.newWithObject 1 with weak_counter_ := 1 })
        { object_ptr_ := 1, block_ := 1 } = .ok h1 ∧
      SharedPtr.Reset (Heap.empty.store 1 { ControlBlock.newWithObject 1 with weak_counter_ := 1 })
        { object_ptr_ := 1, block_ := 1 } = .ok (h1, { object_ptr_ := 0, block_ := 0 }) ∧
      h1.cells 1 = some b1 ∧
      (∀ q, q ≠ 1 → h1.cells q =
        (Heap.empty.store 1 { ControlBlock.newWithObject 1 with weak_counter_ := 1 }).cells q) ∧
      b1.strong_counter_ = 1 - 1 ∧ b1.weak_counter_ = 1 ∧
      b1.destroyed = 0 + (if b1.strong_counter_ = 0 then 1 else 0) ∧
      (b1.freed = true ↔ b1.strong_counter_ = 0 ∧ b1.weak_counter_ = 0) :=
  (C1_release_protocol
      (Heap.empty.store 1 { ControlBlock.newWithObject 1 with weak_counter_ := 1 })
      { object_ptr_ := 1, block_ := 1 }).2
    { ControlBlock.newWithObject 1 with weak_counter_ := 1 } rfl rfl (by decide) (by decide)
    (by decide)

/-! ## Programs: the claims on sequences of operations -/

theorem World.Initial.inv {W : World} (hW : W.Initial) : W.Inv 1 := by
  rcases hW with h | ⟨u, p, hp, h⟩
  · rw [h]; exact World.ofMakeShared_inv
  · rw [h]; exact World.ofPtr_inv u p hp

theorem World.step_progress {v : Variant} (hv : v = Variant.weak ∨ v = Variant.sharedFromThis)
    {n : Nat} {W : World} (hW : W.Inv n) (hn : n + 1 < SIZE_MOD) (op : Op)
    (hop : ¬ op.demotesNull W) : ∃ W1, World.step v W op = .ok W1 := by
  have hv1 : v = Variant.weak := by
    rcases hv with h | h
    · exact h
    · rw [h, Variant.sharedFromThis_eq]
  subst hv1
  rcases World.step_weak hW hn op with ⟨W1, e, _⟩ | ⟨_, i, s, e, hs, hb⟩
  · exact ⟨W1, e⟩
  · subst e
    exact absurd ⟨s, hs, hb⟩ hop

theorem World.run_onShared {v : Variant} (hv : v = Variant.weak ∨ v = Variant.sharedFromThis)
    (ops : List Op) {n : Nat} {W : World} (hW : W.Inv n) (hn : n + ops.length < SIZE_MOD)
    (hops : ∀ op ∈ ops, op.onShared = true) : ∃ W1, World.run v W ops = .ok W1 := by
  induction ops generalizing n W with
  | nil => exact ⟨W, rfl⟩
  | cons op ops ih =>
    simp only [List.length_cons] at hn
    have hop : ¬ op.demotesNull W := by
      have := hops op (List.mem_cons_self _ _)
      cases op <;> simp [Op.onShared] at this <;> simp [Op.demotesNull]
    obtain ⟨W1, e⟩ := World.step_progress hv hW (by omega) op hop
    obtain ⟨W2, e2⟩ := ih (World.step_inv hv hW (by omega) e).1 (by omega)
      (fun o ho => hops o (List.mem_cons_of_mem _ ho))
    exact ⟨W2, by simp only [World.run, e, e2]⟩

theorem World.step_destroyed {v : Variant} (hv : v = Variant.weak ∨ v = Variant.sharedFromThis)
    {n : Nat} {W W1 : World} (hW : W.Inv n) (hn : n + 1 < SIZE_MOD) {op : Op}
    (hstep : World.step v W op = .ok W1) {p : Nat} {b b1 : ControlBlock} (hp : p ≠ 0)
    (hb : W.heap.cells p = some b) (hb1 : W1.heap.cells p = some b1) :
    b1.destroyed =
        b.destroyed + (if b.strong_counter_ = 1 ∧ b1.strong_counter_ = 0 then 1 else 0) ∧
      (b.strong_counter_ = 0 → b1.strong_counter_ = 0) ∧
      (b.freed = true → b1.freed = true) := by
  obtain ⟨hi1, hc, hz⟩ := World.step_inv hv hW hn hstep
  obtain ⟨e1, e2, e3, e4, _⟩ := hW.1.1 p b hp hb
  obtain ⟨f1, f2, f3, f4, _⟩ := hi1.1.1 p b1 hp hb1
  obtain ⟨c1, c2⟩ := hc p hp
  have hz1 := hz p hp
  rw [e1, f1, e4, f4]
  refine ⟨?_, c1, ?_⟩
  · split_ifs <;> omega
  · intro hf
    obtain ⟨z1, z2⟩ := e3.1 hf
    exact f3.2 ⟨c1 z1, hz1 z1 z2⟩

/-- C2: in every program over `SharedPtr` and `WeakPtr` variables that starts from one handle
made by `MakeShared` or adopted from a non-null pointer (`weak/shared.h`), at every point the
managed object of each block has been destroyed once if the strong counter is `0` and never if
it is positive; a statement destroys the object exactly when it takes the strong counter from
`1` to `0`, after which the counter stays `0`; and every statement other than the
construction of a `WeakPtr` from an empty `SharedPtr` runs to its end. -/
theorem C2_object_destroyed_once (W0 : World) (hW0 : W0.Initial) (ops : List Op) (W : World)
    (hlen : ops.length + 2 < SIZE_MOD) (hrun : World.run Variant.weak W0 ops = .ok W) :
    (∀ p b, p ≠ 0 → W.heap.cells p = some b →
      b.strong_counter_ = W.sharedRefs p ∧
        b.destroyed = (if b.strong_counter_ = 0 then 1 else 0)) ∧
    (∀ op W1, World.step Variant.weak W op = .ok W1 →
      ∀ p b b1, p ≠ 0 → W.heap.cells p = some b → W1.heap.cells p = some b1 →
        b1.destroyed =
            b.destroyed + (if b.strong_counter_ = 1 ∧ b1.strong_counter_ = 0 then 1 else 0) ∧
          (b.strong_counter_ = 0 → b1.strong_counter_ = 0)) ∧
    (∀ op, ¬ op.demotesNull W → ∃ W1, World.step Variant.weak W op = .ok W1) := by
  have hW : W.Inv (1 + ops.length) := World.run_inv (Or.inl rfl) ops hW0.inv (by omega) hrun
  refine ⟨?_, ?_, ?_⟩
  · intro p b hp hb
    obtain ⟨e1, _, _, e4, _⟩ := hW.1.1 p b hp hb
    exact ⟨e1, by rw [e1, e4]⟩
  · intro op W1 hstep p b b1 hp hb hb1
    have := World.step_destroyed (Or.inl rfl) hW (by omega) hstep hp hb hb1
    exact ⟨this.1, this.2.1⟩
  · intro op hop
    exact World.step_progress (Or.inl rfl) hW (by omega) op hop

/-- C2, on `p = MakeShared; q = p; w = WeakPtr(p); p.Reset(); r = w.Lock(); ~q; r = move(p)`:
the last statement takes the strong counter from `1` to `0` and destroys the object, while the
block survives for `w`. -/
theorem C2_object_destroyed_once_witness :
    ∃ W, World.run Variant.weak World.ofMakeShared
        [.sCopy 0, .wOfShared 0, .sReset 0, .wLock 0, .sDestroy 1, .sMoveAssign 2 0] = .ok W ∧
      W.heap.cells 1 =
        some { kind := .withObject, strong_counter_ := 0, weak_counter_ := 1, object_ := 1,
               destroyed := 1, freed := false } ∧
      ∀ p b, p ≠ 0 → W.heap.cells p = some b →
        b.strong_counter_ = W.sharedRefs p ∧
          b.destroyed = (if b.strong_counter_ = 0 then 1 else 0) :=
  ⟨_, rfl, by decide,
    (C2_object_destroyed_once World.ofMakeShared (Or.inl rfl)
      [.sCopy 0, .wOfShared 0, .sReset 0, .wLock 0, .sDestroy 1, .sMoveAssign 2 0] _
      (by decide) rfl).1⟩

theorem World.Inv.useCount {n : Nat} {W : World} (hW : W.Inv n) {i : Nat} {s : SharedPtr}
    (hs : slot W.shared i = some s) :
    SharedPtr.UseCount W.heap s = .ok (if s.toBool then W.sharedRefs s.block_ else 0) := by
  cases hb : s.toBool
  · simp [SharedPtr.UseCount, hb, pure, Except.pure]
  · have hpair := hW.2.1 s (slot_mem hs)
    have hne : s.block_ ≠ 0 := by
      intro h0
      have := hpair.2 h0
      simp [SharedPtr.toBool, this] at hb
    have hp : 1 ≤ W.sharedRefs s.block_ := refCount_pos SharedPtr.block_ hs
    simp only [SharedPtr.UseCount, hb, if_true]
    exact hW.1.useStrong hne (by omega)

/-- C3: every program made of copy and move constructions, copy and move assignments,
`Reset()` and destructions of `SharedPtr` variables, started from one handle made by
`MakeShared` or adopted from a non-null pointer, runs to its end, and then `UseCount()` of
every live non-empty handle is the number of live `SharedPtr` variables that hold the same
block (and `UseCount()` of an empty handle is `0`). -/
theorem C3_use_count_is_live_handles (W0 : World) (hW0 : W0.Initial) (ops : List Op)
    (hops : ∀ op ∈ ops, op.onShared = true) (hlen : ops.length + 1 < SIZE_MOD) :
    ∃ W, World.run Variant.weak W0 ops = .ok W ∧
      ∀ i s, slot W.shared i = some s →
        (s.toBool = true → SharedPtr.UseCount W.heap s = .ok (W.sharedRefs s.block_)) ∧
        (s.toBool = false → SharedPtr.UseCount W.heap s = .ok 0) := by
  obtain ⟨W, hrun⟩ := World.run_onShared (Or.inl rfl) ops hW0.inv (by omega) hops
  have hW : W.Inv (1 + ops.length) := World.run_inv (Or.inl rfl) ops hW0.inv (by omega) hrun
  refine ⟨W, hrun, ?_⟩
  intro i s hs
  have := hW.useCount hs
  constructor
  · intro hb; rw [this, hb]; rfl
  · intro hb; rw [this, hb]; rfl

/-- C3, on `p = SharedPtr(ptr); q = p; r = move(p); s = r; t = r; q = s; ~s`: three live
handles hold the block and each reports `UseCount() == 3`, while the moved-from `p` reports
`0`. -/
theorem C3_use_count_is_live_handles_witness :
    ∃ W, World.run Variant.weak (World.ofPtr 0 7)
        [.sCopy 0, .sMove 0, .sCopy 2, .sCopy 2, .sCopyAssign 1 3, .sDestroy 3] = .ok W ∧
      W.shared = [some { object_ptr_ := 0, block_ := 0 }, some { object_ptr_ := 7, block_ := 1 },
        some { object_ptr_ := 7, block_ := 1 }, none, some { object_ptr_ := 7, block_ := 1 }] ∧
      W.sharedRefs 1 = 3 ∧
      ∀ i s, slot W.shared i = some s →
        (s.toBool = true → SharedPtr.UseCount W.heap s = .ok (W.sharedRefs s.block_)) ∧
        (s.toBool = false → SharedPtr.UseCount W.heap s = .ok 0) := by
  obtain ⟨W, hrun, h⟩ := C3_use_count_is_live_handles (World.ofPtr 0 7)
    (Or.inr ⟨0, 7, by decide, rfl⟩)
    [.sCopy 0, .sMove 0, .sCopy 2, .sCopy 2, .sCopyAssign 1 3, .sDestroy 3]
    (by decide) (by decide)
  refine ⟨W, hrun, ?_, ?_, h⟩
  · have h2 : (match World.run Variant.weak (World.ofPtr 0 7)
        [.sCopy 0, .sMove 0, .sCopy 2, .sCopy 2, .sCopyAssign 1 3, .sDestroy 3] with
      | .ok W => W.shared
      | .error _ => []) = [some { object_ptr_ := 0, block_ := 0 },
        some { object_ptr_ := 7, block_ := 1 }, some { object_ptr_ := 7, block_ := 1 }, none,
        some { object_ptr_ := 7, block_ := 1 }] := by decide
    rw [hrun] at h2
    exact h2
  · have h2 : (match World.run Variant.weak (World.ofPtr 0 7)
        [.sCopy 0, .sMove 0, .sCopy 2, .sCopy 2, .sCopyAssign 1 3, .sDestroy 3] with
      | .ok W => W.sharedRefs 1
      | .error _ => 0) = 3 := by decide
    rw [hrun] at h2
    exact h2

/-- C4: in every program over `SharedPtr` and `WeakPtr` variables (`shared-from-this/shared.h`
and `weak.h`) that starts from one handle made by `MakeShared` or adopted from a non-null
pointer, at every point the weak counter of each block is the number of live `WeakPtr`
variables that hold it, the strong counter is the number of live `SharedPtr` variables that hold
it, and the block has been freed exactly when both counters are `0`; a freed block stays
freed; and every statement other than the construction of a `WeakPtr` from an empty
`SharedPtr` runs to its end, so that no block is deleted twice. -/
theorem C4_weak_count_and_block_lifetime (W0 : World) (hW0 : W0.Initial) (ops : List Op)
    (W : World) (hlen : ops.length + 2 < SIZE_MOD)
    (hrun : World.run Variant.sharedFromThis W0 ops = .ok W) :
    (∀ p b, p ≠ 0 → W.heap.cells p = some b →
      b.weak_counter_ = W.weakRefs p ∧ b.strong_counter_ = W.sharedRefs p ∧
        (b.freed = true ↔ b.strong_counter_ = 0 ∧ b.weak_counter_ = 0)) ∧
    (∀ op W1, World.step Variant.sharedFromThis W op = .ok W1 →
      ∀ p b b1, p ≠ 0 → W.heap.cells p = some b → W1.heap.cells p = some b1 →
        b.freed = true → b1.freed = true) ∧
    (∀ op, ¬ op.demotesNull W → ∃ W1, World.step Variant.sharedFromThis W op = .ok W1) := by
  have hW : W.Inv (1 + ops.length) := World.run_inv (Or.inr rfl) ops hW0.inv (by omega) hrun
  refine ⟨?_, ?_, ?_⟩
  · intro p b hp hb
    obtain ⟨e1, e2, e3, _, _⟩ := hW.1.1 p b hp hb
    exact ⟨e2, e1, by rw [e1, e2]; exact e3⟩
  · intro op W1 hstep p b b1 hp hb hb1
    exact (World.step_destroyed (Or.inr rfl) hW (by omega) hstep hp hb hb1).2.2
  · intro op hop
    exact World.step_progress (Or.inr rfl) hW (by omega) op hop

/-- C4, on the scenario of the specification: `MakeShared`, copy, destroy the copy, take a
`WeakPtr`, destroy the last `SharedPtr` (the block survives with weak count `1`), destroy the
`WeakPtr` (the block is freed). -/
theorem C4_weak_count_and_block_lifetime_witness :
    (∃ W, World.run Variant.sharedFromThis World.ofMakeShared
        [.sCopy 0, .sDestroy 1, .wOfShared 0, .sDestroy 0] = .ok W ∧
      W.heap.cells 1 =
        some { kind := .withObject, strong_counter_ := 0, weak_counter_ := 1, object_ := 1,
               destroyed := 1, freed := false } ∧
      ∀ p b, p ≠ 0 → W.heap.cells p = some b →
        b.weak_counter_ = W.weakRefs p ∧ b.strong_counter_ = W.sharedRefs p ∧
          (b.freed = true ↔ b.strong_counter_ = 0 ∧ b.weak_counter_ = 0)) ∧
    (∃ W, World.run Variant.sharedFromThis World.ofMakeShared
        [.sCopy 0, .sDestroy 1, .wOfShared 0, .sDestroy 0, .wDestroy 0] = .ok W ∧
      W.heap.cells 1 =
        some { kind := .withObject, strong_counter_ := 0, weak_counter_ := 0, object_ := 1,
               destroyed := 1, freed := true }) :=
  ⟨⟨_, rfl, by decide,
    (C4_weak_count_and_block_lifetime World.ofMakeShared (Or.inl rfl)
      [.sCopy 0, .sDestroy 1, .wOfShared 0, .sDestroy 0] _ (by decide) rfl).1⟩,
    ⟨_, rfl, by decide⟩⟩

/-! ## Promotion of a `WeakPtr` -/

theorem Heap.UseStrongCount_ok {h : Heap} {p : Nat} {b : ControlBlock}
    (hb : h.deref p = .ok b) : h.UseStrongCount p = .ok b.strong_counter_ := by
  simp [Heap.UseStrongCount, hb, ControlBlock.UseStrongCount]

theorem WeakPtr.Expired_null (h : Heap) (w : WeakPtr) (hw : w.block_ = 0) :
    WeakPtr.Expired h w = .ok true := by
  simp [WeakPtr.Expired, hw, pure, Except.pure]

theorem WeakPtr.Expired_live (h : Heap) (w : WeakPtr) (b : ControlBlock)
    (hb : h.deref w.block_ = .ok b) :
    WeakPtr.Expired h w = .ok (b.strong_counter_ == 0) := by
  have hp := ((Heap.deref_ok_iff _ _ _).1 hb).1
  simp [WeakPtr.Expired, hp, Heap.UseStrongCount_ok hb, bind, Except.bind, pure, Except.pure]

theorem SharedPtr.ofWeak_ok (h : Heap) (w : WeakPtr) (b : ControlBlock)
    (hb : h.deref w.block_ = .ok b) (hs : b.strong_counter_ ≠ 0) :
    SharedPtr.ofWeak h w =
      .ok (h.store w.block_ b.IncrementStrong,
        { object_ptr_ := w.object_ptr_, block_ := w.block_ }) := by
  simp [SharedPtr.ofWeak, WeakPtr.Expired_live h w b hb, hs, Heap.IncrementStrong,
    Heap.call_ok h _ b _ hb, bind, Except.bind, pure, Except.pure]

/-- C5: `Lock()` on a `WeakPtr` without a block, or whose live block has strong counter `0`,
returns the empty `SharedPtr` and leaves the heap as it is; on a `WeakPtr` whose live block
has a positive strong counter it returns a `SharedPtr` with the object pointer and the block
pointer of the `WeakPtr`, the strong counter (and `UseCount()`) is one more than before, and
the weak counter and all other blocks are unchanged. -/
theorem C5_lock (h : Heap) (w : WeakPtr) :
    (w.block_ = 0 → WeakPtr.Lock h w = .ok (h, { object_ptr_ := 0, block_ := 0 })) ∧
    (∀ b, h.deref w.block_ = .ok b → b.strong_counter_ = 0 →
      WeakPtr.Lock h w = .ok (h, { object_ptr_ := 0, block_ := 0 })) ∧
    (∀ b, h.deref w.block_ = .ok b → b.strong_counter_ ≠ 0 →
      b.strong_counter_ + 1 < SIZE_MOD →
      ∃ h1 b1, WeakPtr.Lock h w =
          .ok (h1, { object_ptr_ := w.object_ptr_, block_ := w.block_ }) ∧
        h1.cells w.block_ = some b1 ∧ (∀ q, q ≠ w.block_ → h1.cells q = h.cells q) ∧
        b1.strong_counter_ = b.strong_counter_ + 1 ∧ b1.weak_counter_ = b.weak_counter_ ∧
        WeakPtr.UseCount h w = .ok b.strong_counter_ ∧
        WeakPtr.UseCount h1 w = .ok (b.strong_counter_ + 1)) := by
  refine ⟨?_, ?_, ?_⟩
  · intro hw
    simp [WeakPtr.Lock, WeakPtr.Expired_null h w hw, bind, Except.bind, pure, Except.pure,
      SharedPtr.null]
  · intro b hb hs
    simp [WeakPtr.Lock, WeakPtr.Expired_live h w b hb, hs, bind, Except.bind, pure,
      Except.pure, SharedPtr.null]
  · intro b hb hs hlt
    have hp := (Heap.deref_ok_iff _ _ _).1 hb
    have hb1 : (h.store w.block_ b.IncrementStrong).deref w.block_ = .ok b.IncrementStrong :=
      Heap.deref_store h _ _ hp.1 hp.2.2
    have hinc : b.IncrementStrong.strong_counter_ = b.strong_counter_ + 1 := by
      simp only [ControlBlock.IncrementStrong, inc_size _ hlt]
    refine ⟨h.store w.block_ b.IncrementStrong, b.IncrementStrong, ?_, ?_, ?_, hinc, rfl,
      ?_, ?_⟩
    · simp [WeakPtr.Lock, WeakPtr.Expired_live h w b hb, hs, SharedPtr.ofWeak_ok h w b hb hs,
        bind, Except.bind]
    · simp [Heap.store]
    · intro q hq; simp [Heap.store, hq]
    · simp [WeakPtr.UseCount, WeakPtr.Expired_live h w b hb, hs, Heap.UseStrongCount_ok hb,
        bind, Except.bind]
    · have hs1 : b.IncrementStrong.strong_counter_ ≠ 0 := by rw [hinc]; omega
      simp [WeakPtr.UseCount, WeakPtr.Expired_live _ w _ hb1, hs1, Heap.UseStrongCount_ok hb1,
        bind, Except.bind, hinc]

/-- C5, on a block with two strong and one weak reference. -/
theorem C5_lock_witness :
    ∃ h1 b1,
      WeakPtr.Lock (Heap.empty.store 1 { ControlBlock.newWithPtr 7 with
          strong_counter_ := 2, weak_counter_ := 1 }) { object_ptr_ := 7, block_ := 1 } =
        .ok (h1, { object_ptr_ := 7, block_ := 1 }) ∧
      h1.cells 1 = some b1 ∧
      (∀ q, q ≠ 1 → h1.cells q = (Heap.empty.store 1 { ControlBlock.newWithPtr 7 with
          strong_counter_ := 2, weak_counter_ := 1 }).cells q) ∧
      b1.strong_counter_ = 2 + 1 ∧ b1.weak_counter_ = 1 ∧
      WeakPtr.UseCount (Heap.empty.store 1 { ControlBlock.newWithPtr 7 with
          strong_counter_ := 2, weak_counter_ := 1 }) { object_ptr_ := 7, block_ := 1 } =
        .ok 2 ∧
      WeakPtr.UseCount h1 { object_ptr_ := 7, block_ := 1 } = .ok (2 + 1) :=
  (C5_lock (Heap.empty.store 1 { ControlBlock.newWithPtr 7 with
      strong_counter_ := 2, weak_counter_ := 1 }) { object_ptr_ := 7, block_ := 1 }).2.2
    { ControlBlock.newWithPtr 7 with strong_counter_ := 2, weak_counter_ := 1 } rfl
    (by decide) (by decide)

/-- C6: `SharedPtr(const WeakPtr&)` throws `BadWeakPtr` exactly when `Expired()` answers
`true`, and it then returns no heap: the exception leaves before any counter is written.
When the `WeakPtr` has a live block with a positive strong counter the construction succeeds,
the new handle has the object pointer and the block pointer of the `WeakPtr`, the strong
counter is one more than before and the weak counter and all other blocks are unchanged. -/
theorem C6_promote (h : Heap) (w : WeakPtr) :
    (SharedPtr.ofWeak h w = .error .BadWeakPtr ↔ WeakPtr.Expired h w = .ok true) ∧
    (w.block_ = 0 → SharedPtr.ofWeak h w = .error .BadWeakPtr) ∧
    (∀ b, h.deref w.block_ = .ok b → b.strong_counter_ = 0 →
      SharedPtr.ofWeak h w = .error .BadWeakPtr) ∧
    (∀ b, h.deref w.block_ = .ok b → b.strong_counter_ ≠ 0 →
      b.strong_counter_ + 1 < SIZE_MOD →
      ∃ h1 b1, SharedPtr.ofWeak h w =
          .ok (h1, { object_ptr_ := w.object_ptr_, block_ := w.block_ }) ∧
        h1.cells w.block_ = some b1 ∧ (∀ q, q ≠ w.block_ → h1.cells q = h.cells q) ∧
        b1.strong_counter_ = b.strong_counter_ + 1 ∧ b1.weak_counter_ = b.weak_counter_) := by
  refine ⟨?_, ?_, ?_, ?_⟩
  · cases he : WeakPtr.Expired h w with
    | error e =>
      have hne : e ≠ .BadWeakPtr := by
        intro h0
        subst h0
        unfold WeakPtr.Expired at he
        by_cases hp : w.block_ = 0
        · simp [hp, pure, Except.pure] at he
        · simp only [ne_eq, hp, not_false_eq_true, if_true, bind, Except.bind,
            Heap.UseStrongCount, Heap.deref, if_false] at he
          cases hc : h.cells w.block_ with
          | none => simp [hc] at he
          | some c =>
            cases hf : c.freed <;> simp [hc, hf, pure, Except.pure] at he
      simp [SharedPtr.ofWeak, he, bind, Except.bind, hne]
    | ok r =>
      cases r with
      | true => simp [SharedPtr.ofWeak, he, bind, Except.bind, throw, throwThe,
          MonadExceptOf.throw]
      | false =>
        simp only [SharedPtr.ofWeak, he, bind, Except.bind, Bool.false_eq_true, if_false,
          Except.ok.injEq, iff_false]
        unfold Heap.IncrementStrong Heap.call Heap.deref
        by_cases hp : w.block_ = 0
        · simp [hp]
        · cases hc : h.cells w.block_ with
          | none => simp [hp]
          | some c =>
            cases hf : c.freed <;> simp [hp, hf, pure, Except.pure]
  · intro hw
    simp [SharedPtr.ofWeak, WeakPtr.Expired_null h w hw, bind, Except.bind, throw, throwThe,
      MonadExceptOf.throw]
  · intro b hb hs
    simp [SharedPtr.ofWeak, WeakPtr.Expired_live h w b hb, hs, bind, Except.bind, throw,
      throwThe, MonadExceptOf.throw]
  · intro b hb hs hlt
    have hinc : b.IncrementStrong.strong_counter_ = b.strong_counter_ + 1 := by
      simp only [ControlBlock.IncrementStrong, inc_size _ hlt]
    refine ⟨h.store w.block_ b.IncrementStrong, b.IncrementStrong,
      SharedPtr.ofWeak_ok h w b hb hs, ?_, ?_, hinc, rfl⟩
    · simp [Heap.store]
    · intro q hq; simp [Heap.store, hq]

/-- C6, on a block with one strong and one weak reference. -/
theorem C6_promote_witness :
    ∃ h1 b1,
      SharedPtr.ofWeak (Heap.empty.store 1 { ControlBlock.newWithPtr 7 with weak_counter_ := 1 })
          { object_ptr_ := 7, block_ := 1 } = .ok (h1, { object_ptr_ := 7, block_ := 1 }) ∧
      h1.cells 1 = some b1 ∧
      (∀ q, q ≠ 1 → h1.cells q =
        (Heap.empty.store 1 { ControlBlock.newWithPtr 7 with weak_counter_ := 1 }).cells q) ∧
      b1.strong_counter_ = 1 + 1 ∧ b1.weak_counter_ = 1 :=
  (C6_promote (Heap.empty.store 1 { ControlBlock.newWithPtr 7 with weak_counter_ := 1 })
      { object_ptr_ := 7, block_ := 1 }).2.2.2
    { ControlBlock.newWithPtr 7 with weak_counter_ := 1 } rfl (by decide) (by decide)

/-- C7: `Expired()` answers `true` exactly when the `WeakPtr` has no block or the strong counter
of its block is `0`; it answers for every `WeakPtr` without a block and for every `WeakPtr`
whose block is live. -/
theorem C7_expired (h : Heap) (w : WeakPtr) :
    (WeakPtr.Expired h w = .ok true ↔
      w.block_ = 0 ∨ ∃ b, h.deref w.block_ = .ok b ∧ b.strong_counter_ = 0) ∧
    (w.block_ = 0 → WeakPtr.Expired h w = .ok true) ∧
    (∀ b, h.deref w.block_ = .ok b →
      WeakPtr.Expired h w = .ok (decide (b.strong_counter_ = 0))) := by
  have h3 : ∀ b, h.deref w.block_ = .ok b →
      WeakPtr.Expired h w = .ok (decide (b.strong_counter_ = 0)) := by
    intro b hb
    rw [WeakPtr.Expired_live h w b hb]
    by_cases hs : b.strong_counter_ = 0 <;> simp [hs]
  refine ⟨?_, WeakPtr.Expired_null h w, h3⟩
  constructor
  · intro he
    by_cases hp : w.block_ = 0
    · exact Or.inl hp
    · right
      cases hd : h.deref w.block_ with
      | error e =>
        simp [WeakPtr.Expired, hp, Heap.UseStrongCount, hd, bind, Except.bind] at he
      | ok b =>
        rw [h3 b hd] at he
        refine ⟨b, rfl, ?_⟩
        simpa using he
  · intro hc
    rcases hc with hp | ⟨b, hb, hs⟩
    · exact WeakPtr.Expired_null h w hp
    · rw [h3 b hb]; simp [hs]

/-- C7, on a block whose last `SharedPtr` is gone and on a block that is still owned. -/
theorem C7_expired_witness :
    WeakPtr.Expired (Heap.empty.store 1 { ControlBlock.newWithPtr 7 with
        strong_counter_ := 0, weak_counter_ := 1, destroyed := 1 })
      { object_ptr_ := 7, block_ := 1 } = .ok (decide ((0 : Nat) = 0)) ∧
    WeakPtr.Expired (Heap.empty.store 1 { ControlBlock.newWithPtr 7 with weak_counter_ := 1 })
      { object_ptr_ := 7, block_ := 1 } = .ok (decide ((1 : Nat) = 0)) :=
  ⟨(C7_expired (Heap.empty.store 1 { ControlBlock.newWithPtr 7 with
        strong_counter_ := 0, weak_counter_ := 1, destroyed := 1 })
      { object_ptr_ := 7, block_ := 1 }).2.2 _ rfl,
    (C7_expired (Heap.empty.store 1 { ControlBlock.newWithPtr 7 with weak_counter_ := 1 })
      { object_ptr_ := 7, block_ := 1 }).2.2 _ rfl⟩

/-! ## Copy and move of a `SharedPtr` -/

/-- C8: copy construction from a non-empty `SharedPtr` whose block is live gives a handle with
the same object pointer and block pointer and adds exactly one to the strong counter of that
block, leaving its weak counter and all other blocks alone (the source is read only); copy
construction from an empty `SharedPtr` gives the handle with both pointers null and leaves the
heap as it is. -/
theorem C8_copy_construct (h : Heap) (other : SharedPtr) :
    (other.toBool = false →
      SharedPtr.copy h other = .ok (h, { object_ptr_ := 0, block_ := 0 })) ∧
    (∀ b, other.toBool = true → h.deref other.block_ = .ok b →
      b.strong_counter_ + 1 < SIZE_MOD →
      ∃ h1 b1, SharedPtr.copy h other =
          .ok (h1, { object_ptr_ := other.object_ptr_, block_ := other.block_ }) ∧
        h1.cells other.block_ = some b1 ∧ (∀ q, q ≠ other.block_ → h1.cells q = h.cells q) ∧
        b1.strong_counter_ = b.strong_counter_ + 1 ∧ b1.weak_counter_ = b.weak_counter_ ∧
        b1.destroyed = b.destroyed ∧ b1.freed = b.freed) := by
  constructor
  · intro hne
    simp [SharedPtr.copy, hne, pure, Except.pure]
  · intro b hne hb hlt
    have hinc : b.IncrementStrong.strong_counter_ = b.strong_counter_ + 1 := by
      simp only [ControlBlock.IncrementStrong, inc_size _ hlt]
    refine ⟨h.store other.block_ b.IncrementStrong, b.IncrementStrong, ?_, ?_, ?_, hinc, rfl,
      rfl, rfl⟩
    · simp [SharedPtr.copy, hne, Heap.IncrementStrong, Heap.call_ok h _ b _ hb, bind,
        Except.bind, pure, Except.pure]
    · simp [Heap.store]
    · intro q hq; simp [Heap.store, hq]

/-- C8, on the handle returned by `MakeShared`. -/
theorem C8_copy_construct_witness :
    ∃ h1 b1, SharedPtr.copy (MakeShared Heap.empty).1 (MakeShared Heap.empty).2 =
        .ok (h1, { object_ptr_ := 1, block_ := 1 }) ∧
      h1.cells 1 = some b1 ∧ (∀ q, q ≠ 1 → h1.cells q = (MakeShared Heap.empty).1.cells q) ∧
      b1.strong_counter_ = 1 + 1 ∧ b1.weak_counter_ = 0 ∧ b1.destroyed = 0 ∧
      b1.freed = false :=
  (C8_copy_construct (MakeShared Heap.empty).1 (MakeShared Heap.empty).2).2
    (ControlBlock.newWithObject 1) rfl rfl (by decide)

/-- C9: move construction, by `SharedPtr(SharedPtr&&)` of either variant and by the converting
`SharedPtr(SharedPtr<Y>&&)`, gives the new handle the object pointer and the block pointer of
the source, leaves the source with both pointers null, and returns the heap it was given: no
counter of any block changes. -/
theorem C9_move_construct (h : Heap) (other : SharedPtr) :
    SharedPtr.move h other =
        .ok (h, { object_ptr_ := other.object_ptr_, block_ := other.block_ },
          { object_ptr_ := 0, block_ := 0 }) ∧
      SharedFromThis.move h other =
        .ok (h, { object_ptr_ := other.object_ptr_, block_ := other.block_ },
          { object_ptr_ := 0, block_ := 0 }) ∧
      SharedPtr.moveConv other =
        ({ object_ptr_ := other.object_ptr_, block_ := other.block_ },
          { object_ptr_ := 0, block_ := 0 }) :=
  ⟨rfl, rfl, rfl⟩

/-! ## Assignment to a `SharedPtr` -/

theorem Heap.deref_store_ne (h : Heap) {p q : Nat} (c : ControlBlock) (hq : q ≠ p) :
    (h.store p c).deref q = h.deref q := by
  simp [Heap.deref, Heap.store, hq]

/-- C10: assignment to a non-empty `SharedPtr` whose block is live, from a source that holds
another block.  Copy assignment and move assignment first release the destination exactly as
`~SharedPtr()` does (strong counter of the old block one less, weak counter unchanged, object
destroyed iff the strong counter is then `0`, block freed iff both are then `0`).  Copy
assignment then gives the destination the pointers of the source and adds exactly one to the
strong counter of the source block, or nothing when the source is empty; move assignment gives
the destination the pointers of the source, leaves the counters of the source block as they
were and leaves the source with both pointers null. -/
theorem C10_assign_releases_then_adopts (h : Heap) (self other : SharedPtr) (bd : ControlBlock)
    (hself : self.toBool = true) (hd : h.deref self.block_ = .ok bd)
    (h1 : 1 ≤ bd.strong_counter_) (h2 : bd.strong_counter_ < SIZE_MOD)
    (hobj : bd.object_ ≠ 0) (hne : self.block_ ≠ other.block_) :
    ∃ hr bd1, SharedPtr.dtor h self = .ok hr ∧ hr.cells self.block_ = some bd1 ∧
      (∀ q, q ≠ self.block_ → hr.cells q = h.cells q) ∧
      bd1.strong_counter_ = bd.strong_counter_ - 1 ∧ bd1.weak_counter_ = bd.weak_counter_ ∧
      bd1.destroyed = bd.destroyed + (if bd1.strong_counter_ = 0 then 1 else 0) ∧
      (bd1.freed = true ↔ bd1.strong_counter_ = 0 ∧ bd1.weak_counter_ = 0) ∧
      (other.toBool = false →
        SharedPtr.copyAssign h self other false =
          .ok (hr, { object_ptr_ := other.object_ptr_, block_ := other.block_ })) ∧
      (∀ bs, other.toBool = true → h.deref other.block_ = .ok bs →
        bs.strong_counter_ + 1 < SIZE_MOD →
        ∃ h3 bs1, SharedPtr.copyAssign h self other false =
            .ok (h3, { object_ptr_ := other.object_ptr_, block_ := other.block_ }) ∧
          h3.cells self.block_ = some bd1 ∧ h3.cells other.block_ = some bs1 ∧
          (∀ q, q ≠ self.block_ → q ≠ other.block_ → h3.cells q = h.cells q) ∧
          bs1.strong_counter_ = bs.strong_counter_ + 1 ∧
          bs1.weak_counter_ = bs.weak_counter_) ∧
      SharedPtr.moveAssign h self other false =
        .ok (hr, { object_ptr_ := other.object_ptr_, block_ := other.block_ },
          { object_ptr_ := 0, block_ := 0 }) ∧
      SharedPtr.moveAssignConv h self other =
        .ok (hr, { object_ptr_ := other.object_ptr_, block_ := other.block_ },
          { object_ptr_ := 0, block_ := 0 }) := by
  have hf := ((Heap.deref_ok_iff _ _ _).1 hd).2.2
  obtain ⟨e1, e2⟩ := SharedPtr.dtor_live h self bd hself hd
  obtain ⟨f1, f2, f3, f4, _, _⟩ := ControlBlock.releaseStrong_fields bd hobj h1 h2 hf
  refine ⟨h.store self.block_ bd.releaseStrong, bd.releaseStrong, e1, ?_, ?_, f1, f2, f3, f4,
    ?_, ?_, ?_, ?_⟩
  · simp [Heap.store]
  · intro q hq; simp [Heap.store, hq]
  · intro ho
    rw [SharedPtr.copyAssign_eq h self other hne, e1]
    simp [ho]
  · intro bs ho hb hlt
    have hb2 : (h.store self.block_ bd.releaseStrong).deref other.block_ = .ok bs := by
      rw [Heap.deref_store_ne h _ (Ne.symm hne)]; exact hb
    have hinc : bs.IncrementStrong.strong_counter_ = bs.strong_counter_ + 1 := by
      simp only [ControlBlock.IncrementStrong, inc_size _ hlt]
    refine ⟨(h.store self.block_ bd.releaseStrong).store other.block_ bs.IncrementStrong,
      bs.IncrementStrong, ?_, ?_, ?_, ?_, hinc, rfl⟩
    · rw [SharedPtr.copyAssign_eq h self other hne, e1]
      simp [ho, Heap.IncrementStrong, Heap.call_ok _ _ bs _ hb2]
    · simp [Heap.store, hne]
    · simp [Heap.store]
    · intro q hq1 hq2; simp [Heap.store, hq1, hq2]
  · have e3 : SharedPtr.Reset h { object_ptr_ := self.object_ptr_, block_ := self.block_ } =
        .ok (h.store self.block_ bd.releaseStrong, SharedPtr.null) := e2
    simp only [SharedPtr.moveAssign, Bool.false_eq_true, if_false, SharedPtr.Swap, e3, bind,
      Except.bind, pure, Except.pure, SharedPtr.null]
  · simp only [SharedPtr.moveAssignConv, e2, bind, Except.bind, pure, Except.pure]

/-- C10, with a destination that is the last owner of block `1` (observed by one `WeakPtr`) and
a source that owns block `2`. -/
theorem C10_assign_releases_then_adopts_witness :
    ∃ hr bd1,
      SharedPtr.dtor
          ((Heap.empty.store 1 { ControlBlock.newWithPtr 7 with weak_counter_ := 1 }).store 2
            (ControlBlock.newWithPtr 9)) { object_ptr_ := 7, block_ := 1 } = .ok hr ∧
      hr.cells 1 = some bd1 ∧ bd1.strong_counter_ = 1 - 1 ∧ bd1.weak_counter_ = 1 ∧
      bd1.destroyed = 0 + (if bd1.strong_counter_ = 0 then 1 else 0) ∧
      (bd1.freed = true ↔ bd1.strong_counter_ = 0 ∧ bd1.weak_counter_ = 0) ∧
      (∃ h3 bs1,
        SharedPtr.copyAssign
            ((Heap.empty.store 1 { ControlBlock.newWithPtr 7 with weak_counter_ := 1 }).store 2
              (ControlBlock.newWithPtr 9)) { object_ptr_ := 7, block_ := 1 }
            { object_ptr_ := 9, block_ := 2 } false =
          .ok (h3, { object_ptr_ := 9, block_ := 2 }) ∧
        h3.cells 1 = some bd1 ∧ h3.cells 2 = some bs1 ∧ bs1.strong_counter_ = 1 + 1 ∧
        bs1.weak_counter_ = 0) ∧
      SharedPtr.moveAssign
          ((Heap.empty.store 1 { ControlBlock.newWithPtr 7 with weak_counter_ := 1 }).store 2
            (ControlBlock.newWithPtr 9)) { object_ptr_ := 7, block_ := 1 }
          { object_ptr_ := 9, block_ := 2 } false =
        .ok (hr, { object_ptr_ := 9, block_ := 2 }, { object_ptr_ := 0, block_ := 0 }) := by
  obtain ⟨hr, bd1, e1, e2, _, e4, e5, e6, e7, _, e9, e10, _⟩ :=
    C10_assign_releases_then_adopts
      ((Heap.empty.store 1 { ControlBlock.newWithPtr 7 with weak_counter_ := 1 }).store 2
        (ControlBlock.newWithPtr 9)) { object_ptr_ := 7, block_ := 1 }
      { object_ptr_ := 9, block_ := 2 } { ControlBlock.newWithPtr 7 with weak_counter_ := 1 }
      rfl rfl (by decide) (by decide) (by decide) (by decide)
  obtain ⟨h3, bs1, g1, g2, g3, _, g5, g6⟩ := e9 (ControlBlock.newWithPtr 9) rfl rfl (by decide)
  exact ⟨hr, bd1, e1, e2, e4, e5, e6, e7, ⟨h3, bs1, g1, g2, g3, g5, g6⟩, e10⟩


/-! ## Assignment from a handle of the same block -/

/-- C11 as stated fails: `p = MakeShared; a = SharedPtr(p, 8); p = a` is a copy assignment
between two handles of one block, and it changes the object pointer of `p` from `1` to `8`. -/
theorem C11_same_block_assign_counterexample :
    ∃ h2 a r,
      SharedPtr.aliasing (MakeShared Heap.empty).1 (MakeShared Heap.empty).2 8 = .ok (h2, a) ∧
      (MakeShared Heap.empty).2.block_ = a.block_ ∧
      (MakeShared Heap.empty).2.object_ptr_ = 1 ∧
      SharedPtr.copyAssign h2 (MakeShared Heap.empty).2 a false = .ok r ∧
      r.2.object_ptr_ = 8 ∧ r.2.object_ptr_ ≠ (MakeShared Heap.empty).2.object_ptr_ :=
  ⟨_, _, _, rfl, rfl, rfl, rfl, rfl, by decide⟩

/-- C11, amended: copy assignment from a source that holds the same block returns the heap it
was given (no counter of any block changes) and leaves the block pointer of the destination as
it was, but gives the destination the object pointer of the source; self-assignment returns
the heap and the handle unchanged.  Both variants. -/
theorem C11_same_block_assign (h : Heap) (self other : SharedPtr)
    (hb : self.block_ = other.block_) :
    SharedPtr.copyAssign h self other false =
        .ok (h, { object_ptr_ := other.object_ptr_, block_ := self.block_ }) ∧
      SharedFromThis.copyAssign h self other false =
        .ok (h, { object_ptr_ := other.object_ptr_, block_ := self.block_ }) ∧
      SharedPtr.copyAssign h self self true = .ok (h, self) ∧
      SharedFromThis.copyAssign h self self true = .ok (h, self) := by
  refine ⟨?_, ?_, rfl, rfl⟩
  · simp [SharedPtr.copyAssign, hb, pure, Except.pure]
  · simp [SharedFromThis.copyAssign, hb, pure, Except.pure]

/-- C11, amended, on the handle of `MakeShared` and an aliasing handle made from it. -/
theorem C11_same_block_assign_witness :
    SharedPtr.copyAssign (Heap.empty.store 1 { ControlBlock.newWithObject 1 with
          strong_counter_ := 2 }) { object_ptr_ := 1, block_ := 1 }
        { object_ptr_ := 8, block_ := 1 } false =
      .ok (Heap.empty.store 1 { ControlBlock.newWithObject 1 with strong_counter_ := 2 },
        { object_ptr_ := 8, block_ := 1 }) :=
  (C11_same_block_assign (Heap.empty.store 1 { ControlBlock.newWithObject 1 with
      strong_counter_ := 2 }) { object_ptr_ := 1, block_ := 1 }
    { object_ptr_ := 8, block_ := 1 } rfl).1

/-! ## The aliasing constructor -/

/-- C12: the aliasing constructor on a non-empty source whose block is live gives the handle
`(ptr, block of the source)` for every `ptr`, adds exactly one to the strong counter of that
block and leaves its weak counter and all other blocks alone; on an empty source it gives the
handle with both pointers null, whatever `ptr` is, and returns the heap it was given. -/
theorem C12_aliasing_construct (h : Heap) (other : SharedPtr) (ptr : Nat) :
    (other.toBool = false →
      SharedPtr.aliasing h other ptr = .ok (h, { object_ptr_ := 0, block_ := 0 })) ∧
    (∀ b, other.toBool = true → h.deref other.block_ = .ok b →
      b.strong_counter_ + 1 < SIZE_MOD →
      ∃ h1 b1, SharedPtr.aliasing h other ptr =
          .ok (h1, { object_ptr_ := ptr, block_ := other.block_ }) ∧
        h1.cells other.block_ = some b1 ∧ (∀ q, q ≠ other.block_ → h1.cells q = h.cells q) ∧
        b1.strong_counter_ = b.strong_counter_ + 1 ∧ b1.weak_counter_ = b.weak_counter_ ∧
        b1.destroyed = b.destroyed ∧ b1.freed = b.freed) := by
  constructor
  · intro hne
    simp [SharedPtr.aliasing, hne, pure, Except.pure]
  · intro b hne hb hlt
    have hinc : b.IncrementStrong.strong_counter_ = b.strong_counter_ + 1 := by
      simp only [ControlBlock.IncrementStrong, inc_size _ hlt]
    refine ⟨h.store other.block_ b.IncrementStrong, b.IncrementStrong, ?_, ?_, ?_, hinc, rfl,
      rfl, rfl⟩
    · simp [SharedPtr.aliasing, hne, Heap.IncrementStrong, Heap.call_ok h _ b _ hb, bind,
        Except.bind, pure, Except.pure]
    · simp [Heap.store]
    · intro q hq; simp [Heap.store, hq]

/-- C12, on the handle returned by `MakeShared` and the pointer `8`. -/
theorem C12_aliasing_construct_witness :
    ∃ h1 b1, SharedPtr.aliasing (MakeShared Heap.empty).1 (MakeShared Heap.empty).2 8 =
        .ok (h1, { object_ptr_ := 8, block_ := 1 }) ∧
      h1.cells 1 = some b1 ∧ (∀ q, q ≠ 1 → h1.cells q = (MakeShared Heap.empty).1.cells q) ∧
      b1.strong_counter_ = 1 + 1 ∧ b1.weak_counter_ = 0 ∧ b1.destroyed = 0 ∧
      b1.freed = false :=
  (C12_aliasing_construct (MakeShared Heap.empty).1 (MakeShared Heap.empty).2 8).2
    (ControlBlock.newWithObject 1) rfl rfl (by decide)

/-! ## Creation of a handle -/

/-- C14 fails on the code: `explicit SharedPtr(T* ptr)` with `ptr == nullptr` writes
`object_ptr_` only.  No block is created and `UseCount()` is `0`, but `block_` keeps the
indeterminate value `uninit` of the member, so the handle is the default-constructed one only
when that value happens to be null; a `WeakPtr` made from it dereferences that value. -/
theorem C14_null_pointer_leaves_block_unset (h : Heap) (uninit : Nat) :
    SharedPtr.ofPtr h uninit 0 = (h, { object_ptr_ := 0, block_ := uninit }) ∧
      SharedPtr.UseCount h (SharedPtr.ofPtr h uninit 0).2 = .ok 0 ∧
      ((SharedPtr.ofPtr h uninit 0).2 = SharedPtr.null ↔ uninit = 0) ∧
      (SharedPtr.ofPtr Heap.empty 5 0).2.block_ = 5 ∧
      WeakPtr.ofShared Heap.empty (SharedPtr.ofPtr Heap.empty 5 0).2 = .error .danglingDeref := by
  refine ⟨rfl, rfl, ?_, rfl, rfl⟩
  simp [SharedPtr.ofPtr, SharedPtr.null]

/-- C15: in a heap whose next address is not null, `MakeShared` returns a non-empty handle
whose object pointer is `Get()` of the new `ControlBlockWithObject`, and `SharedPtr(ptr)` for a
non-null `ptr` returns a handle with `Get() == ptr` on a new `ControlBlockWithPtr`; in both
cases the new block has strong counter `1` and weak counter `0`, and `UseCount()` is `1`. -/
theorem C15_new_block_counts (h : Heap) (hbrk : h.brk ≠ 0) :
    (∃ b, (MakeShared h).1.deref (MakeShared h).2.block_ = .ok b ∧
      b.kind = .withObject ∧ b.strong_counter_ = 1 ∧ b.weak_counter_ = 0 ∧
      (MakeShared h).2.toBool = true ∧ (MakeShared h).2.Get = b.Get ∧
      SharedPtr.UseCount (MakeShared h).1 (MakeShared h).2 = .ok 1 ∧
      (MakeShared h).1.UseWeakCount (MakeShared h).2.block_ = .ok 0) ∧
    (∀ uninit ptr, ptr ≠ 0 →
      ∃ b, (SharedPtr.ofPtr h uninit ptr).1.deref (SharedPtr.ofPtr h uninit ptr).2.block_ = .ok b ∧
        b.kind = .withPtr ∧ b.object_ = ptr ∧ b.strong_counter_ = 1 ∧ b.weak_counter_ = 0 ∧
        (SharedPtr.ofPtr h uninit ptr).2.Get = ptr ∧
        SharedPtr.UseCount (SharedPtr.ofPtr h uninit ptr).1 (SharedPtr.ofPtr h uninit ptr).2 =
          .ok 1 ∧
        (SharedPtr.ofPtr h uninit ptr).1.UseWeakCount (SharedPtr.ofPtr h uninit ptr).2.block_ =
          .ok 0) := by
  constructor
  · have hd : (MakeShared h).1.deref (MakeShared h).2.block_ =
        .ok (ControlBlock.newWithObject h.brk) := by
      simp [MakeShared, Heap.alloc, Heap.deref, SharedPtr.ofBlock, hbrk,
        ControlBlock.newWithObject]
    refine ⟨ControlBlock.newWithObject h.brk, hd, rfl, rfl, rfl, ?_, rfl, ?_, ?_⟩
    · simp [MakeShared, SharedPtr.toBool, SharedPtr.ofBlock, ControlBlock.newWithObject,
        ControlBlock.Get, Heap.alloc, hbrk]
    · have ht : (MakeShared h).2.toBool = true := by
        simp [MakeShared, SharedPtr.toBool, SharedPtr.ofBlock, ControlBlock.newWithObject,
          ControlBlock.Get, Heap.alloc, hbrk]
      simp only [SharedPtr.UseCount, ht, if_true, Heap.UseStrongCount, hd]
      rfl
    · simp only [Heap.UseWeakCount, hd]
      rfl
  · intro uninit ptr hptr
    have hd : (SharedPtr.ofPtr h uninit ptr).1.deref (SharedPtr.ofPtr h uninit ptr).2.block_ =
        .ok (ControlBlock.newWithPtr ptr) := by
      simp [SharedPtr.ofPtr, hptr, Heap.alloc, Heap.deref, hbrk, ControlBlock.newWithPtr]
    refine ⟨ControlBlock.newWithPtr ptr, hd, rfl, rfl, rfl, rfl, ?_, ?_, ?_⟩
    · simp [SharedPtr.ofPtr, hptr, SharedPtr.Get]
    · have ht : (SharedPtr.ofPtr h uninit ptr).2.toBool = true := by
        simp [SharedPtr.ofPtr, hptr, SharedPtr.toBool]
      simp only [SharedPtr.UseCount, ht, if_true, Heap.UseStrongCount, hd]
      rfl
    · simp only [Heap.UseWeakCount, hd]
      rfl

/-- C15, in the empty heap. -/
theorem C15_new_block_counts_witness :
    SharedPtr.UseCount (MakeShared Heap.empty).1 (MakeShared Heap.empty).2 = .ok 1 ∧
      (MakeShared Heap.empty).1.UseWeakCount (MakeShared Heap.empty).2.block_ = .ok 0 ∧
      (MakeShared Heap.empty).2 = { object_ptr_ := 1, block_ := 1 } ∧
      ∃ b, (SharedPtr.ofPtr Heap.empty 0 7).1.deref (SharedPtr.ofPtr Heap.empty 0 7).2.block_ =
          .ok b ∧
        b.kind = .withPtr ∧ b.object_ = 7 ∧ b.strong_counter_ = 1 ∧ b.weak_counter_ = 0 ∧
        (SharedPtr.ofPtr Heap.empty 0 7).2.Get = 7 ∧
        SharedPtr.UseCount (SharedPtr.ofPtr Heap.empty 0 7).1 (SharedPtr.ofPtr Heap.empty 0 7).2 =
          .ok 1 ∧
        (SharedPtr.ofPtr Heap.empty 0 7).1.UseWeakCount
          (SharedPtr.ofPtr Heap.empty 0 7).2.block_ = .ok 0 :=
  ⟨rfl, rfl, rfl, (C15_new_block_counts Heap.empty (by decide)).2 0 7 (by decide)⟩

/-- C16 fails on the code: `p = MakeShared; p.Reset((T*) nullptr)` allocates a
`ControlBlockWithPtr` for the null pointer, so `p` ends with a null object pointer and a
non-null block pointer, `UseCount()` answers `0` while the new block counts one owner, and
`~SharedPtr()` then leaves that block alone.  The aliasing constructor with a null pointer on
a non-empty source and `SharedPtr((T*) nullptr)` over a non-null indeterminate `block_` also
return a handle with a null object pointer and a non-null block pointer. -/
theorem C16_pair_invariant_broken :
    (∃ h1, SharedPtr.ResetPtr (MakeShared Heap.empty).1 (MakeShared Heap.empty).2 0 =
        .ok (h1, { object_ptr_ := 0, block_ := 2 }) ∧
      h1.cells 2 = some (ControlBlock.newWithPtr 0) ∧
      SharedPtr.UseCount h1 { object_ptr_ := 0, block_ := 2 } = .ok 0 ∧
      ∃ h2, SharedPtr.dtor h1 { object_ptr_ := 0, block_ := 2 } = .ok h2 ∧
        h2.cells 2 = some (ControlBlock.newWithPtr 0)) ∧
    ¬ SharedPtr.Paired { object_ptr_ := 0, block_ := 2 } ∧
    (∃ h1, SharedPtr.aliasing (MakeShared Heap.empty).1 (MakeShared Heap.empty).2 0 =
        .ok (h1, { object_ptr_ := 0, block_ := 1 })) ∧
    ¬ SharedPtr.Paired { object_ptr_ := 0, block_ := 1 } ∧
    (SharedPtr.ofPtr Heap.empty 5 0).2 = { object_ptr_ := 0, block_ := 5 } ∧
    ¬ SharedPtr.Paired { object_ptr_ := 0, block_ := 5 } :=
  ⟨⟨_, rfl, by decide, rfl, _, rfl, by decide⟩, by simp [SharedPtr.Paired], ⟨_, rfl⟩,
    by simp [SharedPtr.Paired], rfl, by simp [SharedPtr.Paired]⟩

/-! ## No resurrection of the strong counter -/

/-- C17 fails on the code: `WeakPtr::IncBlockStrong()` increments without a test.  After
`p = SharedPtr(ptr); w = WeakPtr(p); ~p` the block has strong counter `0` and the object has
been destroyed, `w` is expired and `Lock()` returns the empty handle; `w.IncBlockStrong()` then
takes the strong counter from `0` to `1`, after which `w` is no longer expired and `Lock()`
returns a non-empty handle to the destroyed object. -/
theorem C17_inc_block_strong_resurrects :
    ∃ W h1 h2,
      World.run Variant.sharedFromThis (World.ofPtr 0 7) [.wOfShared 0, .sDestroy 0] = .ok W ∧
      slot W.weak 0 = some { object_ptr_ := 7, block_ := 1 } ∧
      W.heap.cells 1 =
        some { kind := .withPtr, strong_counter_ := 0, weak_counter_ := 1, object_ := 7,
               destroyed := 1, freed := false } ∧
      WeakPtr.Expired W.heap { object_ptr_ := 7, block_ := 1 } = .ok true ∧
      WeakPtr.IncBlockStrong W.heap { object_ptr_ := 7, block_ := 1 } = .ok h1 ∧
      h1.cells 1 =
        some { kind := .withPtr, strong_counter_ := 1, weak_counter_ := 1, object_ := 7,
               destroyed := 1, freed := false } ∧
      WeakPtr.Expired h1 { object_ptr_ := 7, block_ := 1 } = .ok false ∧
      WeakPtr.Lock h1 { object_ptr_ := 7, block_ := 1 } =
        .ok (h2, { object_ptr_ := 7, block_ := 1 }) ∧
      h2.cells 1 =
        some { kind := .withPtr, strong_counter_ := 2, weak_counter_ := 1, object_ := 7,
               destroyed := 1, freed := false } :=
  ⟨_, _, _, rfl, by decide, by decide, rfl, rfl, by decide, rfl, rfl, by decide⟩

/-! ## Construction and release of a `WeakPtr` -/

/-- C18: `WeakPtr(const SharedPtr&)` on a `SharedPtr` whose block is live copies both pointers
and adds exactly one to the weak counter; `WeakPtr(const WeakPtr&)` on a source whose block is
live does the same, and on a source without a block gives the empty `WeakPtr`;
`WeakPtr(WeakPtr&&)` takes both pointers, leaves the source with both pointers null and
returns the heap it was given.  None of them changes a strong counter or another block. -/
theorem C18_weak_construct (h : Heap) :
    (∀ (s : SharedPtr) b, h.deref s.block_ = .ok b → b.weak_counter_ + 1 < SIZE_MOD →
      ∃ h1 b1, WeakPtr.ofShared h s =
          .ok (h1, { object_ptr_ := s.object_ptr_, block_ := s.block_ }) ∧
        h1.cells s.block_ = some b1 ∧ (∀ q, q ≠ s.block_ → h1.cells q = h.cells q) ∧
        b1.weak_counter_ = b.weak_counter_ + 1 ∧ b1.strong_counter_ = b.strong_counter_ ∧
        b1.destroyed = b.destroyed ∧ b1.freed = b.freed) ∧
    (∀ (w : WeakPtr) b, h.deref w.block_ = .ok b → b.weak_counter_ + 1 < SIZE_MOD →
      ∃ h1 b1, WeakPtr.copy h w =
          .ok (h1, { object_ptr_ := w.object_ptr_, block_ := w.block_ }) ∧
        h1.cells w.block_ = some b1 ∧ (∀ q, q ≠ w.block_ → h1.cells q = h.cells q) ∧
        b1.weak_counter_ = b.weak_counter_ + 1 ∧ b1.strong_counter_ = b.strong_counter_ ∧
        b1.destroyed = b.destroyed ∧ b1.freed = b.freed) ∧
    (∀ w : WeakPtr, w.block_ = 0 →
      WeakPtr.copy h w = .ok (h, { object_ptr_ := 0, block_ := 0 })) ∧
    (∀ w : WeakPtr, WeakPtr.move h w =
      .ok (h, { object_ptr_ := w.object_ptr_, block_ := w.block_ },
        { object_ptr_ := 0, block_ := 0 })) := by
  refine ⟨?_, ?_, ?_, fun _ => rfl⟩
  · intro s b hb hlt
    have hinc : b.IncrementWeak.weak_counter_ = b.weak_counter_ + 1 := by
      simp only [ControlBlock.IncrementWeak, inc_size _ hlt]
    refine ⟨h.store s.block_ b.IncrementWeak, b.IncrementWeak, ?_, ?_, ?_, hinc, rfl, rfl,
      rfl⟩
    · simp [WeakPtr.ofShared, Heap.IncrementWeak, Heap.call_ok h _ b _ hb, bind, Except.bind,
        pure, Except.pure]
    · simp [Heap.store]
    · intro q hq; simp [Heap.store, hq]
  · intro w b hb hlt
    have hp := ((Heap.deref_ok_iff _ _ _).1 hb).1
    have hinc : b.IncrementWeak.weak_counter_ = b.weak_counter_ + 1 := by
      simp only [ControlBlock.IncrementWeak, inc_size _ hlt]
    refine ⟨h.store w.block_ b.IncrementWeak, b.IncrementWeak, ?_, ?_, ?_, hinc, rfl, rfl,
      rfl⟩
    · simp [WeakPtr.copy, hp, Heap.IncrementWeak, Heap.call_ok h _ b _ hb, bind, Except.bind,
        pure, Except.pure]
    · simp [Heap.store]
    · intro q hq; simp [Heap.store, hq]
  · intro w hw
    simp [WeakPtr.copy, hw, pure, Except.pure]

/-- C18, on the handle returned by `MakeShared`. -/
theorem C18_weak_construct_witness :
    ∃ h1 b1, WeakPtr.ofShared (MakeShared Heap.empty).1 (MakeShared Heap.empty).2 =
        .ok (h1, { object_ptr_ := 1, block_ := 1 }) ∧
      h1.cells 1 = some b1 ∧ (∀ q, q ≠ 1 → h1.cells q = (MakeShared Heap.empty).1.cells q) ∧
      b1.weak_counter_ = 0 + 1 ∧ b1.strong_counter_ = 1 ∧ b1.destroyed = 0 ∧
      b1.freed = false :=
  (C18_weak_construct (MakeShared Heap.empty).1).1 (MakeShared Heap.empty).2
    (ControlBlock.newWithObject 1) rfl (by decide)

theorem ControlBlock.releaseWeak_fields (b : ControlBlock) (h1 : 1 ≤ b.weak_counter_)
    (h2 : b.weak_counter_ < SIZE_MOD) (hf : b.freed = false) :
    b.releaseWeak.weak_counter_ = b.weak_counter_ - 1 ∧
      b.releaseWeak.strong_counter_ = b.strong_counter_ ∧
      b.releaseWeak.destroyed = b.destroyed ∧
      (b.releaseWeak.freed = true ↔
        b.releaseWeak.strong_counter_ = 0 ∧ b.releaseWeak.weak_counter_ = 0) ∧
      b.releaseWeak.kind = b.kind ∧ b.releaseWeak.object_ = b.object_ := by
  unfold ControlBlock.releaseWeak ControlBlock.DecrementWeak
  simp only [dec_size _ h1 h2]
  by_cases hc : b.strong_counter_ = 0 ∧ b.weak_counter_ - 1 = 0
  · rw [if_pos hc]
    simp [hc.1, hc.2]
  · rw [if_neg hc]
    refine ⟨rfl, rfl, rfl, ?_, rfl, rfl⟩
    simp only [hf]
    constructor
    · intro h; cases h
    · intro h; exact absurd h hc

theorem WeakPtr.wDtor_live (h : Heap) (w : WeakPtr) (b : ControlBlock)
    (hb : h.deref w.block_ = .ok b) :
    WeakPtr.dtor h w = .ok (h.store w.block_ b.releaseWeak) ∧
      WeakPtr.Reset h w = .ok (h.store w.block_ b.releaseWeak, WeakPtr.null) := by
  have hp := ((Heap.deref_ok_iff _ _ _).1 hb).1
  have e : WeakPtr.dtor h w = .ok (h.store w.block_ b.releaseWeak) := by
    simp only [WeakPtr.dtor, ne_eq, hp, not_false_eq_true, if_true]
    exact Heap.releaseWeak_ok h _ b hb
  refine ⟨e, ?_⟩
  rw [WeakPtr.wReset_eq, e]
  simp [hp]

/-- C19: releasing a `WeakPtr` whose block is live, by `~WeakPtr()`, by `Reset()` or by an
assignment from a `WeakPtr` that holds another block, takes exactly one from the weak counter
of the block, leaves its strong counter and its destructor count alone, and frees the block
exactly when both counters are then `0`.  `Reset()` leaves the `WeakPtr` with both pointers
null.  Copy assignment then takes the pointers of the source and adds one to the weak counter
of the source block (nothing for a source without a block); move assignment takes the
pointers of the source, leaves the source block alone and the source with both pointers
null. -/
theorem C19_weak_release (h : Heap) (self other : WeakPtr) (bd : ControlBlock)
    (hd : h.deref self.block_ = .ok bd) (h1 : 1 ≤ bd.weak_counter_)
    (h2 : bd.weak_counter_ < SIZE_MOD) (hne : self.block_ ≠ other.block_) :
    ∃ hr bd1, WeakPtr.dtor h self = .ok hr ∧
      WeakPtr.Reset h self = .ok (hr, { object_ptr_ := 0, block_ := 0 }) ∧
      hr.cells self.block_ = some bd1 ∧ (∀ q, q ≠ self.block_ → hr.cells q = h.cells q) ∧
      bd1.weak_counter_ = bd.weak_counter_ - 1 ∧ bd1.strong_counter_ = bd.strong_counter_ ∧
      bd1.destroyed = bd.destroyed ∧
      (bd1.freed = true ↔ bd1.strong_counter_ = 0 ∧ bd1.weak_counter_ = 0) ∧
      (other.block_ = 0 →
        WeakPtr.copyAssign h self other false =
          .ok (hr, { object_ptr_ := other.object_ptr_, block_ := other.block_ })) ∧
      (∀ bs, h.deref other.block_ = .ok bs → bs.weak_counter_ + 1 < SIZE_MOD →
        ∃ h3 bs1, WeakPtr.copyAssign h self other false =
            .ok (h3, { object_ptr_ := other.object_ptr_, block_ := other.block_ }) ∧
          h3.cells self.block_ = some bd1 ∧ h3.cells other.block_ = some bs1 ∧
          (∀ q, q ≠ self.block_ → q ≠ other.block_ → h3.cells q = h.cells q) ∧
          bs1.weak_counter_ = bs.weak_counter_ + 1 ∧
          bs1.strong_counter_ = bs.strong_counter_ ∧ bs1.destroyed = bs.destroyed) ∧
      WeakPtr.moveAssign h self other false =
        .ok (hr, { object_ptr_ := other.object_ptr_, block_ := other.block_ },
          { object_ptr_ := 0, block_ := 0 }) := by
  have hf := ((Heap.deref_ok_iff _ _ _).1 hd).2.2
  obtain ⟨e1, e2⟩ := WeakPtr.wDtor_live h self bd hd
  obtain ⟨f1, f2, f3, f4, _, _⟩ := ControlBlock.releaseWeak_fields bd h1 h2 hf
  refine ⟨h.store self.block_ bd.releaseWeak, bd.releaseWeak, e1, e2, ?_, ?_, f1, f2, f3, f4,
    ?_, ?_, ?_⟩
  · simp [Heap.store]
  · intro q hq; simp [Heap.store, hq]
  · intro ho
    rw [WeakPtr.wCopyAssign_eq h self other hne, e1]
    simp [ho]
  · intro bs hb hlt
    have hp := ((Heap.deref_ok_iff _ _ _).1 hb).1
    have hb2 : (h.store self.block_ bd.releaseWeak).deref other.block_ = .ok bs := by
      rw [Heap.deref_store_ne h _ (Ne.symm hne)]; exact hb
    have hinc : bs.IncrementWeak.weak_counter_ = bs.weak_counter_ + 1 := by
      simp only [ControlBlock.IncrementWeak, inc_size _ hlt]
    refine ⟨(h.store self.block_ bd.releaseWeak).store other.block_ bs.IncrementWeak,
      bs.IncrementWeak, ?_, ?_, ?_, ?_, hinc, rfl, rfl⟩
    · rw [WeakPtr.wCopyAssign_eq h self other hne, e1]
      simp [hp, Heap.IncrementWeak, Heap.call_ok _ _ bs _ hb2]
    · simp [Heap.store, hne]
    · simp [Heap.store]
    · intro q hq1 hq2; simp [Heap.store, hq1, hq2]
  · have e3 : WeakPtr.Reset h { object_ptr_ := self.object_ptr_, block_ := self.block_ } =
        .ok (h.store self.block_ bd.releaseWeak, WeakPtr.null) := e2
    simp only [WeakPtr.moveAssign, Bool.false_eq_true, if_false, WeakPtr.Swap, e3, bind,
      Except.bind, pure, Except.pure, WeakPtr.null]

/-- C19, on the last `WeakPtr` of a block whose object is already destroyed (the block is
freed) with a source that observes block `2`. -/
theorem C19_weak_release_witness :
    ∃ hr bd1,
      WeakPtr.dtor
          ((Heap.empty.store 1 { ControlBlock.newWithPtr 7 with
              strong_counter_ := 0, weak_counter_ := 1, destroyed := 1 }).store 2
            { ControlBlock.newWithPtr 9 with weak_counter_ := 1 })
          { object_ptr_ := 7, block_ := 1 } = .ok hr ∧
      hr.cells 1 = some bd1 ∧ bd1.weak_counter_ = 1 - 1 ∧ bd1.strong_counter_ = 0 ∧
      bd1.destroyed = 1 ∧
      (bd1.freed = true ↔ bd1.strong_counter_ = 0 ∧ bd1.weak_counter_ = 0) ∧
      (∃ h3 bs1,
        WeakPtr.copyAssign
            ((Heap.empty.store 1 { ControlBlock.newWithPtr 7 with
                strong_counter_ := 0, weak_counter_ := 1, destroyed := 1 }).store 2
              { ControlBlock.newWithPtr 9 with weak_counter_ := 1 })
            { object_ptr_ := 7, block_ := 1 } { object_ptr_ := 9, block_ := 2 } false =
          .ok (h3, { object_ptr_ := 9, block_ := 2 }) ∧
        h3.cells 1 = some bd1 ∧ h3.cells 2 = some bs1 ∧ bs1.weak_counter_ = 1 + 1 ∧
        bs1.strong_counter_ = 1) := by
  obtain ⟨hr, bd1, e1, _, e3, _, e5, e6, e7, e8, _, e10, _⟩ :=
    C19_weak_release
      ((Heap.empty.store 1 { ControlBlock.newWithPtr 7 with
          strong_counter_ := 0, weak_counter_ := 1, destroyed := 1 }).store 2
        { ControlBlock.newWithPtr 9 with weak_counter_ := 1 })
      { object_ptr_ := 7, block_ := 1 } { object_ptr_ := 9, block_ := 2 }
      { ControlBlock.newWithPtr 7 with strong_counter_ := 0, weak_counter_ := 1, destroyed := 1 }
      rfl (by decide) (by decide) (by decide)
  obtain ⟨h3, bs1, g1, g2, g3, _, g5, g6, _⟩ :=
    e10 { ControlBlock.newWithPtr 9 with weak_counter_ := 1 } rfl (by decide)
  exact ⟨hr, bd1, e1, e3, e5, e6, e7, e8, ⟨h3, bs1, g1, g2, g3, g5, g6⟩⟩

/-- C20 fails on the code: `WeakPtr(const SharedPtr<Y>&)` calls `block_->IncrementWeak()`
without a null test, so on the empty `SharedPtr` (and on every `SharedPtr` whose block pointer
is null) it dereferences a null pointer, in every heap; the copy constructor of `WeakPtr`, which
tests `other.block_ != nullptr`, returns the empty `WeakPtr` on the same pointers. -/
theorem C20_weak_from_empty_shared_faults (h : Heap) :
    WeakPtr.ofShared h SharedPtr.null = .error .nullDeref ∧
      WeakPtr.ofShared h { object_ptr_ := 0, block_ := 0 } = .error .nullDeref ∧
      WeakPtr.copy h { object_ptr_ := 0, block_ := 0 } =
        .ok (h, { object_ptr_ := 0, block_ := 0 }) :=
  ⟨WeakPtr.ofShared_null h rfl, WeakPtr.ofShared_null h rfl, rfl⟩

/-! ## Programs with aliasing handles -/

theorem slot_append_left {α : Type} {l : List (Option α)} {i : Nat} {a : α}
    (h : slot l i = some a) (o : Option α) : slot (l ++ [o]) i = some a := by
  have hi := slot_lt h
  simp only [slot] at h ⊢
  rw [List.getElem?_append_left hi]
  exact h

theorem slot_append_length {α : Type} (l : List (Option α)) (o : Option α) :
    slot (l ++ [o]) l.length = o := by
  simp [slot]

theorem slot_set_self {α : Type} {l : List (Option α)} {i : Nat} (hi : i < l.length)
    (o : Option α) : slot (l.set i o) i = o := by
  simp [slot, hi]

theorem SharedPtr.aliasing_spec {h : Heap} {fs fw : Nat → Nat} (hi : HeapInv h fs fw)
    {s : SharedPtr} (hs : s.Paired) (h1 : s.block_ ≠ 0 → 1 ≤ fs s.block_)
    (h2 : fs s.block_ + 1 < SIZE_MOD) (ptr : Nat) :
    ∃ h1, SharedPtr.aliasing h s ptr =
        .ok (h1, if s.toBool then { object_ptr_ := ptr, block_ := s.block_ } else SharedPtr.null) ∧
      HeapInv h1 (bump fs s.block_) fw := by
  by_cases hb : s.block_ = 0
  · have e := SharedPtr.eq_null_of_block hs hb
    subst e
    exact ⟨h, rfl, hi.bump_zero⟩
  · obtain ⟨h1, e1, i1⟩ := hi.addStrong hb (h1 hb) h2
    refine ⟨h1, ?_, i1⟩
    simp [SharedPtr.aliasing, SharedPtr.toBool_of_block hs hb, e1, bind, Except.bind, pure,
      Except.pure]

theorem World.step_sAlias {n : Nat} {W : World} (hW : W.Inv n) (hn : n + 1 < SIZE_MOD)
    (i ptr : Nat) (hptr : ptr ≠ 0) :
    StepOk n W (World.stepA Variant.weak W (.sAlias i ptr)) ∧
      ∀ s, slot W.shared i = some s → s.toBool = true →
        ∃ h1, World.stepA Variant.weak W (.sAlias i ptr) =
          .ok { W with heap := h1,
                       shared := W.shared ++ [some { object_ptr_ := ptr, block_ := s.block_ }] } := by
  cases hsl : slot W.shared i with
  | none =>
    refine ⟨⟨W, by simp [World.stepA, hsl, pure, Except.pure], hW.mono, CountStep.refl _,
      fun _ _ _ h => h⟩, ?_⟩
    intro s hs
    cases hs
  | some s =>
    have hs := hW.2.1 s (slot_mem hsl)
    have hp : 1 ≤ W.sharedRefs s.block_ := refCount_pos SharedPtr.block_ hsl
    have hb := hW.sharedBound s.block_
    obtain ⟨h1, e1, i1⟩ := SharedPtr.aliasing_spec hW.1 hs (fun _ => hp) (by omega) ptr
    have hstep : World.stepA Variant.weak W (.sAlias i ptr) =
        .ok { W with heap := h1,
                     shared := W.shared ++
                       [some (if s.toBool then { object_ptr_ := ptr, block_ := s.block_ }
                         else SharedPtr.null)] } := by
      simp [World.stepA, hsl, e1, bind, Except.bind, pure, Except.pure]
    have hblk : (if s.toBool then ({ object_ptr_ := ptr, block_ := s.block_ } : SharedPtr)
        else SharedPtr.null).block_ = s.block_ := by
      cases ht : s.toBool
      · have : s.object_ptr_ = 0 := by simpa [SharedPtr.toBool] using ht
        simp [SharedPtr.null, (hs.1 this)]
      · simp
    have hpair : (if s.toBool then ({ object_ptr_ := ptr, block_ := s.block_ } : SharedPtr)
        else SharedPtr.null).Paired := by
      cases ht : s.toBool
      · exact SharedPtr.null_paired
      · have hne : s.object_ptr_ ≠ 0 := by simpa [SharedPtr.toBool] using ht
        simp only [if_true, SharedPtr.Paired]
        constructor
        · intro h0; exact absurd h0 hptr
        · intro h0; exact absurd (hs.2 h0) hne
    have hc : ∀ q, refCount SharedPtr.block_
        (W.shared ++ [some (if s.toBool then { object_ptr_ := ptr, block_ := s.block_ }
          else SharedPtr.null)]) q = bump W.sharedRefs s.block_ q := by
      intro q
      rw [refCount_append_one, hblk]
      rfl
    refine ⟨⟨_, hstep, ⟨?_, ?_, hW.2.2.1, ?_⟩, ?_, fun _ _ _ h => h⟩, ?_⟩
    · exact i1.congr fun q _ => ⟨hc q, rfl⟩
    · exact paired_append hW.2.1 hpair
    · have := hW.2.2.2
      simp only [List.length_append, List.length_singleton]; omega
    · exact CountStep.of_bump (fun _ => hp) fun q _ => hc q
    · intro s1 hs1 ht
      cases hs1
      refine ⟨h1, ?_⟩
      rw [hstep]
      simp [ht]

theorem World.stepA_inv {v : Variant} (hv : v = Variant.weak ∨ v = Variant.sharedFromThis)
    {n : Nat} {W W1 : World} (hW : W.Inv n) (hn : n + 1 < SIZE_MOD) {op : AOp}
    (hop : op.aliasNonNull = true) (hstep : World.stepA v W op = .ok W1) :
    W1.Inv (n + 1) ∧ CountStep W.sharedRefs W1.sharedRefs := by
  cases op with
  | base o =>
    have := World.step_inv hv hW hn (show World.step v W o = .ok W1 from hstep)
    exact ⟨this.1, this.2.1⟩
  | sAlias i ptr =>
    have hptr : ptr ≠ 0 := by simpa [AOp.aliasNonNull] using hop
    have hstep2 : World.stepA Variant.weak W (.sAlias i ptr) = .ok W1 := hstep
    obtain ⟨⟨W2, e, hi, hc, _⟩, _⟩ := World.step_sAlias hW hn i ptr hptr
    rw [hstep2] at e
    cases e
    exact ⟨hi, hc⟩

theorem World.runA_inv {v : Variant} (hv : v = Variant.weak ∨ v = Variant.sharedFromThis)
    (ops : List AOp) {n : Nat} {W W1 : World} (hW : W.Inv n)
    (hn : n + ops.length < SIZE_MOD) (hops : ∀ op ∈ ops, op.aliasNonNull = true)
    (hrun : World.runA v W ops = .ok W1) : W1.Inv (n + ops.length) := by
  induction ops generalizing n W with
  | nil =>
    simp only [World.runA, pure, Except.pure, Except.ok.injEq] at hrun
    subst hrun
    simpa using hW
  | cons op ops ih =>
    simp only [World.runA] at hrun
    simp only [List.length_cons] at hn ⊢
    cases hstep : World.stepA v W op with
    | error e => rw [hstep] at hrun; cases hrun
    | ok W2 =>
      rw [hstep] at hrun
      have h2 := (World.stepA_inv hv hW (by omega) (hops op (List.mem_cons_self _ _)) hstep).1
      have := ih h2 (by omega) (fun o ho => hops o (List.mem_cons_of_mem _ ho)) hrun
      have e : n + (ops.length + 1) = n + 1 + ops.length := by omega
      rw [e]
      exact this

theorem World.step_sDestroy_eq {n : Nat} {W : World} (hW : W.Inv n) (hn : n + 1 < SIZE_MOD)
    {i : Nat} {s : SharedPtr} (hsl : slot W.shared i = some s) :
    ∃ h1, World.step Variant.weak W (.sDestroy i) =
      .ok { W with heap := h1, shared := W.shared.set i none } := by
  have hs := hW.2.1 s (slot_mem hsl)
  have hp : 1 ≤ W.sharedRefs s.block_ := refCount_pos SharedPtr.block_ hsl
  have hb := hW.sharedBound s.block_
  obtain ⟨h1, e1, _⟩ := SharedPtr.dtor_spec hW.1 hs (fun _ => hp) (by omega)
  exact ⟨h1, by simp [World.step, hsl, Variant.weak, e1, bind, Except.bind, pure, Except.pure]⟩

/-- C13: in every program over `SharedPtr` and `WeakPtr` variables that may build aliasing
handles from pointers to sub-objects (non-null pointers), started from one handle made by
`MakeShared` or adopted from a non-null pointer, the strong counter of a block is the number
of live handles that hold it, aliasing handles included, and the managed object has been
destroyed once if that number is `0` and never otherwise.  In particular, building an
aliasing handle from a live non-empty handle and then destroying that handle leaves the
aliasing handle alive on the same block, with the object not destroyed by these two statements
and the strong counter back at its former positive value. -/
theorem C13_aliasing_keeps_object_alive (W0 : World) (hW0 : W0.Initial) (ops : List AOp)
    (hops : ∀ op ∈ ops, op.aliasNonNull = true) (W : World)
    (hlen : ops.length + 3 < SIZE_MOD) (hrun : World.runA Variant.weak W0 ops = .ok W) :
    (∀ p b, p ≠ 0 → W.heap.cells p = some b →
      b.strong_counter_ = W.sharedRefs p ∧
        b.destroyed = (if W.sharedRefs p = 0 then 1 else 0)) ∧
    (∀ i s ptr, slot W.shared i = some s → s.toBool = true → ptr ≠ 0 →
      ∃ W2 b, World.runA Variant.weak W [.sAlias i ptr, .base (.sDestroy i)] = .ok W2 ∧
        slot W2.shared i = none ∧
        slot W2.shared W.shared.length = some { object_ptr_ := ptr, block_ := s.block_ } ∧
        W2.sharedRefs s.block_ = W.sharedRefs s.block_ ∧
        W2.heap.cells s.block_ = some b ∧ b.destroyed = 0 ∧ 1 ≤ b.strong_counter_ ∧
        b.strong_counter_ = W.sharedRefs s.block_) := by
  have hW : W.Inv (1 + ops.length) :=
    World.runA_inv (Or.inl rfl) ops hW0.inv (by omega) hops hrun
  refine ⟨?_, ?_⟩
  · intro p b hp hb
    obtain ⟨e1, _, _, e4, _⟩ := hW.1.1 p b hp hb
    exact ⟨e1, e4⟩
  · intro i s ptr hsl ht hptr
    have hpair := hW.2.1 s (slot_mem hsl)
    have hbne : s.block_ ≠ 0 := by
      intro h0
      have := hpair.2 h0
      simp [SharedPtr.toBool, this] at ht
    obtain ⟨⟨W1, e1, hW1, _⟩, hex⟩ := World.step_sAlias hW (by omega) i ptr hptr
    obtain ⟨h1, e1x⟩ := hex s hsl ht
    rw [e1x] at e1
    cases e1
    have hsl1 : slot (W.shared ++ [some ({ object_ptr_ := ptr, block_ := s.block_ } : SharedPtr)])
        i = some s := slot_append_left hsl _
    obtain ⟨h2, e2⟩ := World.step_sDestroy_eq hW1 (by omega) hsl1
    have hW2 := (World.step_inv (Or.inl rfl) hW1 (by omega) e2).1
    have hil : i < W.shared.length := slot_lt hsl
    have hslA : slot
        ((W.shared ++ [some ({ object_ptr_ := ptr, block_ := s.block_ } : SharedPtr)]).set i none)
        W.shared.length = some { object_ptr_ := ptr, block_ := s.block_ } := by
      rw [slot_set_ne _ (by omega : i ≠ W.shared.length)]
      exact slot_append_length _ _
    have hcnt : refCount SharedPtr.block_
        ((W.shared ++ [some ({ object_ptr_ := ptr, block_ := s.block_ } : SharedPtr)]).set i none)
        s.block_ = W.sharedRefs s.block_ := by
      rw [refCount_set_none _ hsl1]
      simp only [drop, if_true, refCount_append_one, bump]
      rfl
    have hpos : 1 ≤ refCount SharedPtr.block_
        ((W.shared ++ [some ({ object_ptr_ := ptr, block_ := s.block_ } : SharedPtr)]).set i none)
        s.block_ := by
      have := refCount_pos SharedPtr.block_ hslA
      exact this
    obtain ⟨b, hd, hb⟩ := hW2.1.live hbne (Nat.le_trans hpos (Nat.le_add_right _ _))
    have hcell := ((Heap.deref_ok_iff _ _ _).1 hd).2.1
    obtain ⟨f1, _, _, f4, _⟩ := hb
    have f1x : b.strong_counter_ = refCount SharedPtr.block_
        ((W.shared ++ [some ({ object_ptr_ := ptr, block_ := s.block_ } : SharedPtr)]).set i none)
        s.block_ := f1
    have f4x : b.destroyed = if refCount SharedPtr.block_
        ((W.shared ++ [some ({ object_ptr_ := ptr, block_ := s.block_ } : SharedPtr)]).set i none)
        s.block_ = 0 then 1 else 0 := f4
    refine ⟨{ W with heap := h2,
                     shared := (W.shared ++
                       [some ({ object_ptr_ := ptr, block_ := s.block_ } : SharedPtr)]).set i
                         none },
      b, ?_, ?_, hslA, hcnt, hcell, ?_, ?_, ?_⟩
    · simp only [World.runA, e1x]
      have e2x : World.stepA Variant.weak
          { W with heap := h1,
                   shared := W.shared ++ [some { object_ptr_ := ptr, block_ := s.block_ }] }
          (.base (.sDestroy i)) = _ := e2
      rw [e2x]
      rfl
    · exact slot_set_self (by simp only [List.length_append, List.length_singleton]; omega) _
    · rw [f4x]
      have : ¬ refCount SharedPtr.block_
          ((W.shared ++ [some ({ object_ptr_ := ptr, block_ := s.block_ } : SharedPtr)]).set i
            none) s.block_ = 0 := by omega
      simp [this]
    · rw [f1x]; exact hpos
    · rw [f1x, hcnt]

/-- C13, on `p = MakeShared; q = p; a = SharedPtr(p, 8); ~p; ~q`: the object is alive while
only the aliasing handle `a` is left, and `~a` then destroys it (and frees the block); and the
general statement after `q = p; a = SharedPtr(p, 8)`. -/
theorem C13_aliasing_keeps_object_alive_witness :
    (∃ W, World.runA Variant.weak World.ofMakeShared
        [.base (.sCopy 0), .sAlias 0 8, .base (.sDestroy 0), .base (.sDestroy 1)] = .ok W ∧
      W.shared = [none, none, some { object_ptr_ := 8, block_ := 1 }] ∧
      W.heap.cells 1 =
        some { kind := .withObject, strong_counter_ := 1, weak_counter_ := 0, object_ := 1,
               destroyed := 0, freed := false }) ∧
    (∃ W, World.runA Variant.weak World.ofMakeShared
        [.base (.sCopy 0), .sAlias 0 8, .base (.sDestroy 0), .base (.sDestroy 1),
          .base (.sDestroy 2)] = .ok W ∧
      W.heap.cells 1 =
        some { kind := .withObject, strong_counter_ := 0, weak_counter_ := 0, object_ := 1,
               destroyed := 1, freed := true }) ∧
    ∃ W, World.runA Variant.weak World.ofMakeShared [.base (.sCopy 0), .sAlias 0 8] = .ok W ∧
      ∀ p b, p ≠ 0 → W.heap.cells p = some b →
        b.strong_counter_ = W.sharedRefs p ∧
          b.destroyed = (if W.sharedRefs p = 0 then 1 else 0) :=
  ⟨⟨_, rfl, by decide, by decide⟩, ⟨_, rfl, by decide⟩,
    ⟨_, rfl, (C13_aliasing_keeps_object_alive World.ofMakeShared (Or.inl rfl)
      [.base (.sCopy 0), .sAlias 0 8] (by decide) _ (by decide) rfl).1⟩⟩

/-! ## The self-aware mixin -/

theorem Store.self_ok (S : Store) (e : Nat) (w : WeakPtr) (he : e ≠ 0)
    (hw : S.weak_this_ e = some w) : S.self e = .ok w := by
  simp [Store.self, he, hw]

/-- The assignment `weak_this_ = sp`: the weak counter of the block of `sp` goes up, the
former value of `weak_this_` is released as by `~WeakPtr()`, and `weak_this_` holds the two
pointers of `sp`. -/
theorem EnableSharedFromThis.SetWeak_eq (S : Store) (e : Nat) (sp : SharedPtr) (w : WeakPtr)
    (b : ControlBlock) (he : e ≠ 0) (hw : S.weak_this_ e = some w)
    (hb : S.heap.deref sp.block_ = .ok b) :
    EnableSharedFromThis.SetWeak S e sp =
      match WeakPtr.dtor (S.heap.store sp.block_ b.IncrementWeak) w with
      | .ok h => .ok { heap := h, weak_this_ := fun q =>
          if q = e then some { object_ptr_ := sp.object_ptr_, block_ := sp.block_ }
          else S.weak_this_ q }
      | .error x => .error x := by
  simp only [EnableSharedFromThis.SetWeak, Store.self_ok S e w he hw, WeakPtr.ofShared,
    Heap.IncrementWeak, Heap.call_ok _ _ b _ hb, bind, Except.bind, pure, Except.pure,
    WeakPtr.moveAssign, Bool.false_eq_true, if_false, WeakPtr.Swap, WeakPtr.wReset_eq]
  cases hd : WeakPtr.dtor (S.heap.store sp.block_ b.IncrementWeak) w with
  | error x => rfl
  | ok h =>
    simp only
    by_cases hz : w.block_ = 0
    · simp [WeakPtr.dtor, hz, pure, Except.pure]
    · simp [WeakPtr.dtor, hz, pure, Except.pure, WeakPtr.null]

theorem SharedFromThis.MakeShared_eq (S : Store) (hb : S.heap.brk ≠ 0) :
    SharedFromThis.MakeShared S =
      .ok ({ heap := (S.heap.alloc ControlBlock.newWithObject).1.store S.heap.brk
                { ControlBlock.newWithObject S.heap.brk with weak_counter_ := 1 },
             weak_this_ := fun q =>
               if q = S.heap.brk then some { object_ptr_ := S.heap.brk, block_ := S.heap.brk }
               else S.weak_this_ q },
           { object_ptr_ := S.heap.brk, block_ := S.heap.brk }) := by
  have hd : (S.heap.alloc ControlBlock.newWithObject).1.deref S.heap.brk =
      .ok (ControlBlock.newWithObject S.heap.brk) := by
    simp [Heap.deref, Heap.alloc, hb, ControlBlock.newWithObject]
  have hw : (1 + 0) % SIZE_MOD = 1 := by unfold SIZE_MOD; omega
  unfold SharedFromThis.MakeShared SharedFromThis.ofBlock SharedPtr.InitWeakThis
  simp only [bind, Except.bind, pure, Except.pure]
  rw [EnableSharedFromThis.SetWeak_eq _ _ _ WeakPtr.null (ControlBlock.newWithObject S.heap.brk)
    (by simpa [ControlBlock.newWithObject, ControlBlock.Get, Heap.alloc] using hb)
    (by simp [Store.construct, ControlBlock.newWithObject, ControlBlock.Get, Heap.alloc])
    (by simpa [SharedPtr.ofBlock, Heap.alloc] using hd)]
  simp [WeakPtr.dtor, WeakPtr.null, pure, Except.pure, SharedPtr.ofBlock, Store.construct,
    ControlBlock.newWithObject, ControlBlock.Get, Heap.alloc, ControlBlock.IncrementWeak, hw]
  funext q
  by_cases hq : q = S.heap.brk <;> simp [hq]

theorem EnableSharedFromThis.SharedFromThis_ok (S : Store) (e : Nat) (w : WeakPtr)
    (b : ControlBlock) (he : e ≠ 0) (hw : S.weak_this_ e = some w)
    (hb : S.heap.deref w.block_ = .ok b) (hs : b.strong_counter_ ≠ 0) :
    EnableSharedFromThis.SharedFromThis S e =
      .ok ({ S with heap := S.heap.store w.block_ b.IncrementStrong },
        { object_ptr_ := w.object_ptr_, block_ := w.block_ }) := by
  simp only [EnableSharedFromThis.SharedFromThis, Store.self_ok S e w he hw,
    SharedPtr.ofWeak_ok _ _ _ hb hs, bind, Except.bind, pure, Except.pure]

/-- C21: for every store whose next block address is not null, `MakeShared<T>` of a type that
derives from `EnableSharedFromThis` succeeds with a handle whose `UseCount()` is `1` (binding
`weak_this_` added one weak and no strong reference), and `SharedFromThis()` called on the
new object right away succeeds with a handle `r` such that `r.Get() == sp.Get()` and
`r.UseCount() == 2 == sp.UseCount()`; the weak counter is `1`, the object has not been destroyed
and the block is not freed. -/
theorem C21_shared_from_this_after_make_shared (S : Store) (hb : S.heap.brk ≠ 0) :
    ∃ S1 sp S2 r, SharedFromThis.MakeShared S = .ok (S1, sp) ∧
      EnableSharedFromThis.SharedFromThis S1 sp.Get = .ok (S2, r) ∧
      sp.Get ≠ 0 ∧ r.Get = sp.Get ∧ r.block_ = sp.block_ ∧
      SharedPtr.UseCount S1.heap sp = .ok 1 ∧
      SharedPtr.UseCount S2.heap r = .ok 2 ∧ SharedPtr.UseCount S2.heap sp = .ok 2 ∧
      S2.heap.cells sp.block_ =
        some { kind := .withObject, strong_counter_ := 2, weak_counter_ := 1,
               object_ := sp.Get, destroyed := 0, freed := false } := by
  have hs : (1 + 1) % SIZE_MOD = 2 := by unfold SIZE_MOD; omega
  have hd : ((S.heap.alloc ControlBlock.newWithObject).1.store S.heap.brk
      { ControlBlock.newWithObject S.heap.brk with weak_counter_ := 1 }).deref S.heap.brk =
      .ok { ControlBlock.newWithObject S.heap.brk with weak_counter_ := 1 } :=
    Heap.deref_store _ _ _ hb rfl
  refine ⟨_, _, _, _, SharedFromThis.MakeShared_eq S hb,
    EnableSharedFromThis.SharedFromThis_ok _ _
      { object_ptr_ := S.heap.brk, block_ := S.heap.brk } _ hb (by simp [SharedPtr.Get]) hd
      (by simp [ControlBlock.newWithObject]), hb, rfl, rfl, ?_, ?_, ?_, ?_⟩
  · simp [SharedPtr.UseCount, SharedPtr.toBool, hb, Heap.UseStrongCount, Heap.deref, Heap.store,
      ControlBlock.newWithObject, ControlBlock.UseStrongCount]
  · simp [SharedPtr.UseCount, SharedPtr.toBool, hb, Heap.UseStrongCount, Heap.deref, Heap.store,
      ControlBlock.IncrementStrong, ControlBlock.newWithObject, ControlBlock.UseStrongCount, hs]
  · simp [SharedPtr.UseCount, SharedPtr.toBool, hb, Heap.UseStrongCount, Heap.deref, Heap.store,
      ControlBlock.IncrementStrong, ControlBlock.newWithObject, ControlBlock.UseStrongCount, hs]
  · simp [Heap.store, ControlBlock.IncrementStrong, ControlBlock.newWithObject, hs,
      SharedPtr.Get]

/-- C21, in the empty store. -/
theorem C21_shared_from_this_after_make_shared_witness :
    Store.empty.heap.brk ≠ 0 ∧
    ∃ S1 sp S2 r, SharedFromThis.MakeShared Store.empty = .ok (S1, sp) ∧
      EnableSharedFromThis.SharedFromThis S1 sp.Get = .ok (S2, r) ∧
      sp.Get ≠ 0 ∧ r.Get = sp.Get ∧ r.block_ = sp.block_ ∧
      SharedPtr.UseCount S1.heap sp = .ok 1 ∧
      SharedPtr.UseCount S2.heap r = .ok 2 ∧ SharedPtr.UseCount S2.heap sp = .ok 2 ∧
      S2.heap.cells sp.block_ =
        some { kind := .withObject, strong_counter_ := 2, weak_counter_ := 1,
               object_ := sp.Get, destroyed := 0, freed := false } :=
  ⟨by decide, C21_shared_from_this_after_make_shared Store.empty (by decide)⟩

theorem SharedPtr.ofWeak_bad_iff (h : Heap) (w : WeakPtr) :
    SharedPtr.ofWeak h w = .error .BadWeakPtr ↔ WeakPtr.Expired h w = .ok true := by
  cases he : WeakPtr.Expired h w with
  | error e =>
    have hne : e ≠ .BadWeakPtr := by
      intro h0
      subst h0
      unfold WeakPtr.Expired at he
      by_cases hp : w.block_ = 0
      · simp [hp, pure, Except.pure] at he
      · simp only [ne_eq, hp, not_false_eq_true, if_true, bind, Except.bind,
          Heap.UseStrongCount, Heap.deref, if_false] at he
        cases hc : h.cells w.block_ with
        | none => simp [hc] at he
        | some c =>
          cases hf : c.freed <;> simp [hc, hf, pure, Except.pure] at he
    simp [SharedPtr.ofWeak, he, bind, Except.bind, hne]
  | ok r =>
    cases r with
    | true => simp [SharedPtr.ofWeak, he, bind, Except.bind, throw, throwThe,
        MonadExceptOf.throw]
    | false =>
      simp only [SharedPtr.ofWeak, he, bind, Except.bind, Bool.false_eq_true, if_false,
        Except.ok.injEq, iff_false]
      unfold Heap.IncrementStrong Heap.call Heap.deref
      by_cases hp : w.block_ = 0
      · simp [hp]
      · cases hc : h.cells w.block_ with
        | none => simp [hp]
        | some c =>
          cases hf : c.freed <;> simp [hp, hf, pure, Except.pure]

theorem EnableSharedFromThis.SharedFromThis_bad_iff (S : Store) (e : Nat) (w : WeakPtr)
    (he : e ≠ 0) (hw : S.weak_this_ e = some w) :
    EnableSharedFromThis.SharedFromThis S e = .error .BadWeakPtr ↔
      SharedPtr.ofWeak S.heap w = .error .BadWeakPtr := by
  simp only [EnableSharedFromThis.SharedFromThis, Store.self_ok S e w he hw, bind, Except.bind]
  cases SharedPtr.ofWeak S.heap w with
  | error x => simp
  | ok r => simp [pure, Except.pure]

/-- C22: `SharedFromThis()` on a live object whose member `weak_this_` is `w` throws
`BadWeakPtr` exactly when `w.Expired()` answers `true`, and it then returns no store: the
exception leaves before any counter is written.  It throws when `w` has no block, as on an
object that has just been constructed and that no `SharedPtr` has adopted, and when the strong
counter of the live block of `w` is `0`.  When that counter is positive the call succeeds with
a handle that has the two pointers of `w`; the strong counter is one more than before, and the
weak counter, the destructor count, all other blocks and every `weak_this_` are unchanged. -/
theorem C22_shared_from_this_throws_iff_expired (S : Store) (e : Nat) (w : WeakPtr)
    (he : e ≠ 0) (hw : S.weak_this_ e = some w) :
    (EnableSharedFromThis.SharedFromThis S e = .error .BadWeakPtr ↔
      WeakPtr.Expired S.heap w = .ok true) ∧
    (w.block_ = 0 → EnableSharedFromThis.SharedFromThis S e = .error .BadWeakPtr) ∧
    EnableSharedFromThis.SharedFromThis (S.construct e) e = .error .BadWeakPtr ∧
    (∀ b, S.heap.deref w.block_ = .ok b → b.strong_counter_ = 0 →
      EnableSharedFromThis.SharedFromThis S e = .error .BadWeakPtr) ∧
    (∀ b, S.heap.deref w.block_ = .ok b → b.strong_counter_ ≠ 0 →
      b.strong_counter_ + 1 < SIZE_MOD →
      ∃ S1, EnableSharedFromThis.SharedFromThis S e =
          .ok (S1, { object_ptr_ := w.object_ptr_, block_ := w.block_ }) ∧
        S1.heap.cells w.block_ = some { b with strong_counter_ := b.strong_counter_ + 1 } ∧
        (∀ q, q ≠ w.block_ → S1.heap.cells q = S.heap.cells q) ∧
        S1.weak_this_ = S.weak_this_) := by
  have hiff := (EnableSharedFromThis.SharedFromThis_bad_iff S e w he hw).trans
    (SharedPtr.ofWeak_bad_iff S.heap w)
  refine ⟨hiff, ?_, ?_, ?_, ?_⟩
  · intro hz
    exact hiff.2 (WeakPtr.Expired_null _ _ hz)
  · have hc : (S.construct e).weak_this_ e = some WeakPtr.null := by simp [Store.construct]
    exact ((EnableSharedFromThis.SharedFromThis_bad_iff _ e _ he hc).trans
      (SharedPtr.ofWeak_bad_iff _ _)).2 (WeakPtr.Expired_null _ _ rfl)
  · intro b hb hs
    apply hiff.2
    rw [WeakPtr.Expired_live _ _ b hb]
    simp [hs]
  · intro b hb hs hlt
    refine ⟨_, EnableSharedFromThis.SharedFromThis_ok S e w b he hw hb hs, ?_, ?_, rfl⟩
    · simp [Heap.store, ControlBlock.IncrementStrong, inc_size _ hlt]
    · intro q hq
      simp [Heap.store, hq]

/-- C22, on an object bound by `MakeShared` (one strong, one weak reference) and on an object
that was never bound. -/
theorem C22_shared_from_this_throws_iff_expired_witness :
    (∃ S1, EnableSharedFromThis.SharedFromThis
        { heap := Heap.empty.store 1 { ControlBlock.newWithObject 1 with weak_counter_ := 1 },
          weak_this_ := fun q => if q = 1 then some { object_ptr_ := 1, block_ := 1 } else none }
        1 = .ok (S1, { object_ptr_ := 1, block_ := 1 }) ∧
      S1.heap.cells 1 =
        some { ControlBlock.newWithObject 1 with weak_counter_ := 1, strong_counter_ := 1 + 1 } ∧
      (∀ q, q ≠ 1 → S1.heap.cells q =
        (Heap.empty.store 1 { ControlBlock.newWithObject 1 with weak_counter_ := 1 }).cells q) ∧
      S1.weak_this_ = fun q => if q = 1 then some { object_ptr_ := 1, block_ := 1 } else none) ∧
    EnableSharedFromThis.SharedFromThis (Store.empty.construct 7) 7 = .error .BadWeakPtr :=
  ⟨(C22_shared_from_this_throws_iff_expired
      { heap := Heap.empty.store 1 { ControlBlock.newWithObject 1 with weak_counter_ := 1 },
        weak_this_ := fun q => if q = 1 then some { object_ptr_ := 1, block_ := 1 } else none }
      1 { object_ptr_ := 1, block_ := 1 } (by decide) rfl).2.2.2.2
      { ControlBlock.newWithObject 1 with weak_counter_ := 1 } rfl (by decide) (by decide),
    rfl⟩

/-- C23 fails: an object at address `7` is adopted by `SharedPtr<T> p(raw)` and then again by
`SharedPtr<T> q(raw)`.  After the first construction `weak_this_` refers to the first block,
whose weak counter is `1`; after the second it refers to the second block, and the weak counter
of the first block is `0`. -/
theorem C23_binding_idempotent_counterexample :
    ∃ S1 S2, SharedFromThis.ofPtr (Store.empty.construct 7) 0 7 =
        .ok (S1, { object_ptr_ := 7, block_ := 1 }) ∧
      SharedFromThis.ofPtr S1 0 7 = .ok (S2, { object_ptr_ := 7, block_ := 2 }) ∧
      S1.weak_this_ 7 = some { object_ptr_ := 7, block_ := 1 } ∧
      (S1.heap.cells 1).map ControlBlock.weak_counter_ = some 1 ∧
      S2.weak_this_ 7 = some { object_ptr_ := 7, block_ := 2 } ∧
      S2.weak_this_ 7 ≠ S1.weak_this_ 7 ∧
      (S2.heap.cells 1).map ControlBlock.weak_counter_ = some 0 ∧
      (S2.heap.cells 1).map ControlBlock.weak_counter_ ≠
        (S1.heap.cells 1).map ControlBlock.weak_counter_ :=
  ⟨_, _, rfl, rfl, by decide, by decide, by decide, by decide, by decide, by decide⟩

theorem SharedFromThis.ofPtr_eq (S : Store) (uninit ptr : Nat) (w : WeakPtr) (hp : ptr ≠ 0)
    (hb : S.heap.brk ≠ 0) (hw : S.weak_this_ ptr = some w) :
    SharedFromThis.ofPtr S uninit ptr =
      match WeakPtr.dtor ((S.heap.alloc fun _ => ControlBlock.newWithPtr ptr).1.store S.heap.brk
          { ControlBlock.newWithPtr ptr with weak_counter_ := 1 }) w with
      | .ok h => .ok ({ heap := h, weak_this_ := fun q =>
          if q = ptr then some { object_ptr_ := ptr, block_ := S.heap.brk }
          else S.weak_this_ q }, { object_ptr_ := ptr, block_ := S.heap.brk })
      | .error x => .error x := by
  have hd : (S.heap.alloc fun _ => ControlBlock.newWithPtr ptr).1.deref S.heap.brk =
      .ok (ControlBlock.newWithPtr ptr) := by
    simp [Heap.deref, Heap.alloc, hb, ControlBlock.newWithPtr]
  have hi : (1 + 0) % SIZE_MOD = 1 := by unfold SIZE_MOD; omega
  have hinc : (ControlBlock.newWithPtr ptr).IncrementWeak =
      { ControlBlock.newWithPtr ptr with weak_counter_ := 1 } := by
    simp [ControlBlock.IncrementWeak, ControlBlock.newWithPtr, hi]
  unfold SharedFromThis.ofPtr SharedPtr.InitWeakThis
  simp only [SharedPtr.ofPtr, ne_eq, hp, not_false_eq_true, if_true, bind, Except.bind]
  rw [EnableSharedFromThis.SetWeak_eq
    { heap := (S.heap.alloc fun _ => ControlBlock.newWithPtr ptr).1, weak_this_ := S.weak_this_ }
    _ _ w (ControlBlock.newWithPtr ptr) hp hw (by simpa [Heap.alloc] using hd), hinc]
  have e2 : (S.heap.alloc fun _ => ControlBlock.newWithPtr ptr).2 = S.heap.brk := rfl
  simp only [e2]
  cases WeakPtr.dtor _ w with
  | error x => rfl
  | ok h => rfl

/-- C23, amended: a `SharedPtr` built from a raw pointer to a live object always assigns the
`weak_this_` of the object.  The handle gets a new block with strong counter `1`, and
`weak_this_` refers to that block, whose weak counter is `1`.  When `weak_this_` was bound to
a live block before, that block loses one weak reference: its weak counter falls by one, its
strong counter and destructor count stay, and it is freed exactly when both counters are then
`0`.  All other blocks and every other `weak_this_` are unchanged. -/
theorem C23_raw_pointer_construction_rebinds (S : Store) (uninit ptr : Nat) (w : WeakPtr)
    (b : ControlBlock) (hp : ptr ≠ 0) (hbrk : S.heap.brk ≠ 0)
    (hw : S.weak_this_ ptr = some w) (hne : w.block_ ≠ S.heap.brk)
    (hb : S.heap.deref w.block_ = .ok b) (h1 : 1 ≤ b.weak_counter_)
    (h2 : b.weak_counter_ < SIZE_MOD) :
    ∃ S1 b1, SharedFromThis.ofPtr S uninit ptr =
        .ok (S1, { object_ptr_ := ptr, block_ := S.heap.brk }) ∧
      S1.weak_this_ ptr = some { object_ptr_ := ptr, block_ := S.heap.brk } ∧
      S1.weak_this_ ptr ≠ S.weak_this_ ptr ∧
      S1.heap.cells S.heap.brk = some { ControlBlock.newWithPtr ptr with weak_counter_ := 1 } ∧
      S1.heap.cells w.block_ = some b1 ∧
      b1.weak_counter_ = b.weak_counter_ - 1 ∧ b1.strong_counter_ = b.strong_counter_ ∧
      b1.destroyed = b.destroyed ∧
      (b1.freed = true ↔ b.strong_counter_ = 0 ∧ b.weak_counter_ = 1) ∧
      (∀ q, q ≠ S.heap.brk → q ≠ w.block_ → S1.heap.cells q = S.heap.cells q) ∧
      (∀ q, q ≠ ptr → S1.weak_this_ q = S.weak_this_ q) := by
  have hd := (Heap.deref_ok_iff _ _ _).1 hb
  have hb1 : ((S.heap.alloc fun _ => ControlBlock.newWithPtr ptr).1.store S.heap.brk
      { ControlBlock.newWithPtr ptr with weak_counter_ := 1 }).deref w.block_ = .ok b := by
    rw [Heap.deref_ok_iff]
    refine ⟨hd.1, ?_, hd.2.2⟩
    simp [Heap.store, Heap.alloc, hne, hd.2.1]
  have hf := ControlBlock.releaseWeak_fields b h1 h2 hd.2.2
  have e := SharedFromThis.ofPtr_eq S uninit ptr w hp hbrk hw
  rw [(WeakPtr.wDtor_live _ w b hb1).1] at e
  refine ⟨_, b.releaseWeak, e, ?_, ?_, ?_, ?_, hf.1, hf.2.1, hf.2.2.1, ?_, ?_, ?_⟩
  · simp
  · simp only [hw, if_true, ne_eq, Option.some.injEq]
    intro h
    exact hne (by rw [← h])
  · simp [Heap.store, Heap.alloc, Ne.symm hne]
  · simp [Heap.store]
  · rw [hf.2.2.2.1, hf.1, hf.2.1]
    constructor
    · rintro ⟨a, c⟩; exact ⟨a, by omega⟩
    · rintro ⟨a, c⟩; exact ⟨a, by omega⟩
  · intro q hq1 hq2
    simp [Heap.store, Heap.alloc, hq1, hq2]
  · intro q hq
    simp [hq]

/-- C23 amended, on the object of the counterexample after its first adoption. -/
theorem C23_raw_pointer_construction_rebinds_witness :
    ∃ S1 b1, SharedFromThis.ofPtr
        { heap := { cells := fun q =>
                      if q = 1 then some { ControlBlock.newWithPtr 7 with weak_counter_ := 1 }
                      else none,
                    brk := 2 },
          weak_this_ := fun q => if q = 7 then some { object_ptr_ := 7, block_ := 1 } else none }
        0 7 = .ok (S1, { object_ptr_ := 7, block_ := 2 }) ∧
      S1.weak_this_ 7 = some { object_ptr_ := 7, block_ := 2 } ∧
      S1.weak_this_ 7 ≠ some { object_ptr_ := 7, block_ := 1 } ∧
      S1.heap.cells 2 = some { ControlBlock.newWithPtr 7 with weak_counter_ := 1 } ∧
      S1.heap.cells 1 = some b1 ∧
      b1.weak_counter_ = 1 - 1 ∧ b1.strong_counter_ = 1 ∧ b1.destroyed = 0 ∧
      (b1.freed = true ↔ (1 : Nat) = 0 ∧ (1 : Nat) = 1) :=
  have h := C23_raw_pointer_construction_rebinds
    { heap := { cells := fun q =>
                  if q = 1 then some { ControlBlock.newWithPtr 7 with weak_counter_ := 1 }
                  else none,
                brk := 2 },
      weak_this_ := fun q => if q = 7 then some { object_ptr_ := 7, block_ := 1 } else none }
    0 7 { object_ptr_ := 7, block_ := 1 } { ControlBlock.newWithPtr 7 with weak_counter_ := 1 }
    (by decide) (by decide) rfl (by decide) rfl (by decide) (by decide)
  match h with
  | ⟨S1, b1, e1, e2, e3, e4, e5, e6, e7, e8, e9, _, _⟩ => ⟨S1, b1, e1, e2, e3, e4, e5, e6, e7, e8, e9⟩

theorem Store.DeleteObject_bound (S : Store) (p : Nat) (b : ControlBlock) (w : WeakPtr)
    (hb : S.heap.deref p = .ok b) (ho : b.object_ ≠ 0)
    (hw : S.weak_this_ b.object_ = some w) (hwb : w.block_ = p) :
    Store.DeleteObject S p =
      .ok { heap := S.heap.store p (SharedFromThis.DeleteObject b).releaseWeak,
            weak_this_ := fun q => if q = b.object_ then none else S.weak_this_ q } ∧
    WeakPtr.dtor (S.heap.store p (SharedFromThis.DeleteObject b)) w =
      .ok (S.heap.store p (SharedFromThis.DeleteObject b).releaseWeak) := by
  have hd := (Heap.deref_ok_iff _ _ _).1 hb
  have hf : (SharedFromThis.DeleteObject b).freed = false := by
    unfold SharedFromThis.DeleteObject
    rw [(ControlBlock.destroyObject_fields b).2.2]
    exact hd.2.2
  have hb1 : (S.heap.store p (SharedFromThis.DeleteObject b)).deref w.block_ =
      .ok (SharedFromThis.DeleteObject b) := by
    rw [hwb]
    exact Heap.deref_store _ _ _ hd.1 hf
  have e := (WeakPtr.wDtor_live _ w _ hb1).1
  rw [hwb, Heap.store_store] at e
  refine ⟨?_, e⟩
  simp only [Store.DeleteObject, hb, bind, Except.bind, ho, if_false,
    Store.self_ok S _ w ho hw, e, pure, Except.pure]

theorem Store.release_last (S : Store) (p : Nat) (b : ControlBlock)
    (hb : S.heap.deref p = .ok b) (hs : b.strong_counter_ = 1) (h1 : 1 ≤ b.weak_counter_) :
    Store.release S p =
      Store.DeleteObject { S with heap := S.heap.store p (SharedFromThis.DecrementStrong b) } p := by
  have hd := (Heap.deref_ok_iff _ _ _).1 hb
  have hz : (SharedFromThis.DecrementStrong b).strong_counter_ = 0 := by
    simp only [SharedFromThis.DecrementStrong, hs]
    unfold SIZE_MOD
    omega
  have hwc : (SharedFromThis.DecrementStrong b).weak_counter_ ≠ 0 := by
    simp only [SharedFromThis.DecrementStrong]
    omega
  have hf : (SharedFromThis.DecrementStrong b).freed = false := hd.2.2
  simp only [Store.release, Heap.call_ok _ _ b _ hb, bind, Except.bind, Heap.UseStrongCount,
    Heap.UseWeakCount, Heap.deref_store _ _ _ hd.1 hf, ControlBlock.UseStrongCount,
    ControlBlock.UseWeakCount, hz, hwc, if_true, pure, Except.pure, decide_False,
    Bool.false_eq_true, if_false]

/-- C24: a block whose managed object derives from `EnableSharedFromThis` and whose
`weak_this_` refers to that block has strong counter `1` and weak counter `n ≥ 1`.  The
destructor of the last `SharedPtr` succeeds.  It decrements the strong counter to `0` (the
block is not freed by that), takes the branch that calls `DeleteObject()` alone, and its
result is the result of that call: the destructor of the object runs once, `~WeakPtr()` of
`weak_this_` takes the weak counter to `n - 1` and frees the block exactly when `n = 1`, and
the handle performs no `delete` after it (a `delete` of the freed block would be a fault).
When `n ≥ 2` the block is not freed, and `~WeakPtr()` of another `WeakPtr` to the block takes
the weak counter to `n - 2` and frees the block exactly when `n = 2`, without another run of
the destructor of the object. -/
theorem C24_self_aware_last_release (S : Store) (sp : SharedPtr) (w : WeakPtr)
    (b : ControlBlock) (hsp : sp.object_ptr_ ≠ 0) (hb : S.heap.deref sp.block_ = .ok b)
    (hs : b.strong_counter_ = 1) (ho : b.object_ ≠ 0)
    (hw : S.weak_this_ b.object_ = some w) (hwb : w.block_ = sp.block_)
    (h1 : 1 ≤ b.weak_counter_) (h2 : b.weak_counter_ < SIZE_MOD) :
    ∃ h1 S1 b1,
      S.heap.call sp.block_ SharedFromThis.DecrementStrong = .ok h1 ∧
      h1.cells sp.block_ = some { b with strong_counter_ := 0 } ∧
      Store.dtor S sp = Store.DeleteObject { S with heap := h1 } sp.block_ ∧
      Store.dtor S sp = .ok S1 ∧
      WeakPtr.dtor (h1.store sp.block_ { b with strong_counter_ := 0,
                                                destroyed := b.destroyed + 1 }) w =
        .ok S1.heap ∧
      S1.heap.cells sp.block_ = some b1 ∧
      b1.strong_counter_ = 0 ∧ b1.weak_counter_ = b.weak_counter_ - 1 ∧
      b1.destroyed = b.destroyed + 1 ∧ (b1.freed = true ↔ b.weak_counter_ = 1) ∧
      S1.weak_this_ b.object_ = none ∧
      (∀ q, q ≠ sp.block_ → S1.heap.cells q = S.heap.cells q) ∧
      (∀ q, q ≠ b.object_ → S1.weak_this_ q = S.weak_this_ q) ∧
      (b.weak_counter_ = 1 → S1.heap.delete sp.block_ = .error .danglingDeref) ∧
      (2 ≤ b.weak_counter_ → ∀ wk : WeakPtr, wk.block_ = sp.block_ →
        ∃ h2 b2, WeakPtr.dtor S1.heap wk = .ok h2 ∧ h2.cells sp.block_ = some b2 ∧
          b2.strong_counter_ = 0 ∧ b2.weak_counter_ = b.weak_counter_ - 2 ∧
          b2.destroyed = b.destroyed + 1 ∧ (b2.freed = true ↔ b.weak_counter_ = 2)) := by
  have hd := (Heap.deref_ok_iff _ _ _).1 hb
  have hdec : SharedFromThis.DecrementStrong b = { b with strong_counter_ := 0 } := by
    simp only [SharedFromThis.DecrementStrong, hs]
    congr 1
  have hdel : SharedFromThis.DeleteObject { b with strong_counter_ := 0 } =
      { b with strong_counter_ := 0, destroyed := b.destroyed + 1 } := by
    exact ControlBlock.destroyObject_eq _ ho
  have hd1 : (S.heap.store sp.block_ { b with strong_counter_ := 0 }).deref sp.block_ =
      .ok { b with strong_counter_ := 0 } := Heap.deref_store _ _ _ hd.1 hd.2.2
  obtain ⟨e1, e2⟩ := Store.DeleteObject_bound
    { S with heap := S.heap.store sp.block_ { b with strong_counter_ := 0 } } sp.block_
    { b with strong_counter_ := 0 } w hd1 ho hw hwb
  rw [hdel] at e1 e2
  have hf := ControlBlock.releaseWeak_fields
    { b with strong_counter_ := 0, destroyed := b.destroyed + 1 } h1 h2 hd.2.2
  have hdt : Store.dtor S sp =
      Store.DeleteObject { S with heap := S.heap.store sp.block_ { b with strong_counter_ := 0 } }
        sp.block_ := by
    simp only [Store.dtor, SharedPtr.toBool, bne_iff_ne, ne_eq, hsp, not_false_eq_true, if_true]
    rw [Store.release_last S _ b hb hs h1, hdec]
  refine ⟨_, _, _, by rw [Heap.call_ok _ _ b _ hb, hdec], by simp [Heap.store], hdt,
    hdt.trans e1, e2, by simp [Heap.store], hf.2.1, hf.1, hf.2.2.1, ?_, by simp, ?_, ?_, ?_, ?_⟩
  · rw [hf.2.2.2.1, hf.1, hf.2.1]
    constructor
    · rintro ⟨_, c⟩; have c2 : b.weak_counter_ - 1 = 0 := c; omega
    · intro c; exact ⟨rfl, by show b.weak_counter_ - 1 = 0; omega⟩
  · intro q hq
    simp [Heap.store, hq]
  · intro q hq
    simp [hq]
  · intro c
    have hfr : ({ b with strong_counter_ := 0, destroyed := b.destroyed + 1 } : ControlBlock).releaseWeak.freed = true := by
      rw [hf.2.2.2.1, hf.1, hf.2.1]
      exact ⟨rfl, by show b.weak_counter_ - 1 = 0; omega⟩
    simp [Heap.delete, Heap.call, Heap.deref, Heap.store, hd.1, hfr, Heap.store_store]
  · intro c wk hwk
    have hnf : ({ b with strong_counter_ := 0, destroyed := b.destroyed + 1 } : ControlBlock).releaseWeak.freed = false := by
      cases hx : ({ b with strong_counter_ := 0, destroyed := b.destroyed + 1 } : ControlBlock).releaseWeak.freed
      · rfl
      · rw [hf.2.2.2.1, hf.1] at hx
        have c2 : b.weak_counter_ - 1 = 0 := hx.2
        omega
    have hd2 : ((S.heap.store sp.block_ { b with strong_counter_ := 0 }).store sp.block_
        ({ b with strong_counter_ := 0, destroyed := b.destroyed + 1 } : ControlBlock).releaseWeak).deref wk.block_ =
        .ok ({ b with strong_counter_ := 0, destroyed := b.destroyed + 1 } : ControlBlock).releaseWeak := by
      rw [hwk]
      exact Heap.deref_store _ _ _ hd.1 hnf
    have hg := ControlBlock.releaseWeak_fields _ (by rw [hf.1]; show 1 ≤ b.weak_counter_ - 1; omega)
      (by rw [hf.1]; show b.weak_counter_ - 1 < SIZE_MOD; omega) hnf
    refine ⟨_, ControlBlock.releaseWeak (ControlBlock.releaseWeak
        { b with strong_counter_ := 0, destroyed := b.destroyed + 1 }),
      (WeakPtr.wDtor_live _ wk _ hd2).1, by rw [hwk]; simp [Heap.store], ?_, ?_, ?_, ?_⟩
    · rw [hg.2.1, hf.2.1]
    · rw [hg.1, hf.1]
      show b.weak_counter_ - 1 - 1 = b.weak_counter_ - 2
      omega
    · rw [hg.2.2.1, hf.2.2.1]
    · rw [hg.2.2.2.1, hg.1, hg.2.1, hf.1, hf.2.1]
      constructor
      · rintro ⟨_, c3⟩; have c4 : b.weak_counter_ - 1 - 1 = 0 := c3; omega
      · intro c3; exact ⟨rfl, by show b.weak_counter_ - 1 - 1 = 0; omega⟩

/-- C24, on the store that `MakeShared` leaves behind: one block at address `1` with one
strong reference and the weak reference of `weak_this_`. -/
theorem C24_self_aware_last_release_witness :
    ∃ S1 b1, Store.dtor
        { heap := Heap.empty.store 1 { ControlBlock.newWithObject 1 with weak_counter_ := 1 },
          weak_this_ := fun q => if q = 1 then some { object_ptr_ := 1, block_ := 1 } else none }
        { object_ptr_ := 1, block_ := 1 } = .ok S1 ∧
      S1.heap.cells 1 = some b1 ∧ b1.strong_counter_ = 0 ∧ b1.weak_counter_ = 1 - 1 ∧
      b1.destroyed = 0 + 1 ∧ (b1.freed = true ↔ (1 : Nat) = 1) ∧ S1.weak_this_ 1 = none :=
  have h := C24_self_aware_last_release
    { heap := Heap.empty.store 1 { ControlBlock.newWithObject 1 with weak_counter_ := 1 },
      weak_this_ := fun q => if q = 1 then some { object_ptr_ := 1, block_ := 1 } else none }
    { object_ptr_ := 1, block_ := 1 } { object_ptr_ := 1, block_ := 1 }
    { ControlBlock.newWithObject 1 with weak_counter_ := 1 }
    (by decide) rfl rfl (by decide) rfl rfl (by decide) (by decide)
  match h with
  | ⟨_, S1, b1, _, _, _, e1, _, e2, e3, e4, e5, e6, e7, _⟩ =>
    ⟨S1, b1, e1, e2, e3, e4, e5, e6, e7⟩

/-! ## Equality -/

/-- C25: `operator==` on two `SharedPtr`s answers `true` exactly when `Get()` of the two is the
same pointer; the block pointers are not read.  Two handles with the same block answer `true`
exactly when their object pointers are equal, two handles with the same object pointer answer
`true` whatever their blocks, and two empty handles answer `true`.  A handle made by
`MakeShared` and an aliasing handle built from it with another pointer share the block and
compare unequal. -/
theorem C25_equality_compares_object_pointers (left right : SharedPtr) (p q b c : Nat) :
    (SharedPtr.operatorEq left right = true ↔ left.Get = right.Get) ∧
    SharedPtr.operatorEq { object_ptr_ := p, block_ := b } { object_ptr_ := q, block_ := b } =
      decide (p = q) ∧
    SharedPtr.operatorEq { object_ptr_ := p, block_ := b } { object_ptr_ := p, block_ := c } =
      true ∧
    SharedPtr.operatorEq { object_ptr_ := 0, block_ := b } { object_ptr_ := 0, block_ := c } =
      true ∧
    SharedPtr.operatorEq SharedPtr.null SharedPtr.null = true ∧
    (∃ h al, SharedPtr.aliasing (MakeShared Heap.empty).1 (MakeShared Heap.empty).2 42 =
        .ok (h, al) ∧ al.block_ = (MakeShared Heap.empty).2.block_ ∧
      al.Get ≠ (MakeShared Heap.empty).2.Get ∧
      SharedPtr.operatorEq (MakeShared Heap.empty).2 al = false) := by
  refine ⟨?_, ?_, ?_, ?_, ?_, ⟨_, _, rfl, rfl, by decide, by decide⟩⟩
  · simp [SharedPtr.operatorEq]
  · by_cases h : p = q <;> simp [SharedPtr.operatorEq, SharedPtr.Get, h]
  · simp [SharedPtr.operatorEq, SharedPtr.Get]
  · simp [SharedPtr.operatorEq, SharedPtr.Get]
  · simp [SharedPtr.operatorEq, SharedPtr.Get, SharedPtr.null]

/-! ## The intrusive counter -/

/-- C26 fails on the copy constructor `IntrusivePtr(const IntrusivePtr&)`, which compares the
member `object_ptr_` with the source before assigning it.  `a` is made by `MakeIntrusive`; a
copy `t` of `a` is built in fresh storage (`RefCount` 2) and destroyed (`RefCount` 1), and its
storage keeps the pointer; a copy `b` of `a` is then built in that storage.  The constructor
finds the two pointers equal and does not call `IncRef`: `a` and `b` both hold the object and
`RefCount()` is `1`.  Destroying `b` destroys the object that `a` still holds. -/
theorem C26_copy_into_reused_storage_is_not_counted :
    ∃ H0 a H1 t H2 H3 b H4,
      MakeIntrusive Objects.empty = .ok (H0, a) ∧ IntrusivePtr.UseCount H0 a = .ok 1 ∧
      IntrusivePtr.copy H0 0 a = .ok (H1, t) ∧ IntrusivePtr.UseCount H1 a = .ok 2 ∧
      IntrusivePtr.dtor H1 t = .ok H2 ∧ IntrusivePtr.UseCount H2 a = .ok 1 ∧
      IntrusivePtr.copy H2 t.object_ptr_ a = .ok (H3, b) ∧
      a.Get ≠ 0 ∧ b.Get = a.Get ∧
      IntrusivePtr.UseCount H3 a = .ok 1 ∧ IntrusivePtr.UseCount H3 b = .ok 1 ∧
      IntrusivePtr.dtor H3 b = .ok H4 ∧
      H4.cells a.Get = some { counter_ := { count_ := 0 }, destroyed := 1 } ∧
      IntrusivePtr.UseCount H4 a = .error .danglingDeref :=
  ⟨_, _, _, _, _, _, _, _, rfl, rfl, rfl, rfl, rfl, rfl, rfl, by decide, rfl, rfl, rfl, rfl,
    by decide, rfl⟩

theorem RefCounted.DecRef_last (o : RefCounted) (h : o.RefCount ≤ 1) :
    o.DecRef = { counter_ := { count_ := 0 }, destroyed := o.destroyed + 1 } := by
  unfold RefCounted.RefCount SimpleCounter.RefCount at h
  have hc : o.counter_.count_ = 0 ∨ o.counter_.count_ = 1 := by omega
  have hd : (SIZE_MOD - 1 + 1) % SIZE_MOD = 0 := by unfold SIZE_MOD; omega
  rcases hc with hc | hc
  · simp [RefCounted.DecRef, RefCounted.Destroy, SimpleCounter.RefCount, hc]
    rw [← hc]
  · simp [RefCounted.DecRef, RefCounted.Destroy, SimpleCounter.RefCount, SimpleCounter.DecRef,
      hc, hd]

theorem RefCounted.DecRef_more (o : RefCounted) (h1 : 2 ≤ o.RefCount)
    (h2 : o.RefCount < SIZE_MOD) :
    o.DecRef = { counter_ := { count_ := o.RefCount - 1 }, destroyed := o.destroyed } := by
  unfold RefCounted.RefCount SimpleCounter.RefCount at h1 h2
  have hn : ¬ o.counter_.count_ < 2 := by omega
  simp [RefCounted.DecRef, SimpleCounter.RefCount, SimpleCounter.DecRef, hn,
    dec_size _ (by omega) h2, RefCounted.RefCount]

theorem Objects.objCall_ok (H : Objects) (p : Nat) (o : RefCounted) (f : RefCounted → RefCounted)
    (ho : H.deref p = .ok o) : H.call p f = .ok (H.store p (f o)) := by
  simp [Objects.call, ho]

/-- C27: `RefCounted::DecRef()` with the counter at `0` or `1` before the call leaves the
counter at `0` and calls `Deleter::Destroy` once; with the counter at `n ≥ 2` it leaves the
counter at `n - 1` and does not call `Destroy`.  So `Destroy` is called exactly when the
counter was at most `1`.  Called through a pointer to a live object, `DecRef()` returns. -/
theorem C27_dec_ref_destroys_last (o : RefCounted) (H : Objects) (p : Nat) :
    (o.RefCount ≤ 1 → o.DecRef.RefCount = 0 ∧ o.DecRef.destroyed = o.destroyed + 1) ∧
    (2 ≤ o.RefCount → o.RefCount < SIZE_MOD →
      o.DecRef.RefCount = o.RefCount - 1 ∧ o.DecRef.destroyed = o.destroyed) ∧
    (o.DecRef.destroyed = o.destroyed + 1 ↔ o.RefCount ≤ 1) ∧
    (H.deref p = .ok o → H.DecRef p = .ok (H.store p o.DecRef)) := by
  refine ⟨?_, ?_, ?_, ?_⟩
  · intro h
    rw [RefCounted.DecRef_last o h]
    exact ⟨rfl, rfl⟩
  · intro h1 h2
    rw [RefCounted.DecRef_more o h1 h2]
    exact ⟨rfl, rfl⟩
  · by_cases h : o.RefCount ≤ 1
    · rw [RefCounted.DecRef_last o h]
      simp [h]
    · have hn : ¬ o.counter_.count_ < 2 := by
        unfold RefCounted.RefCount SimpleCounter.RefCount at h
        omega
      simp [RefCounted.DecRef, SimpleCounter.RefCount, hn, h]
  · intro ho
    exact Objects.objCall_ok H p o _ ho

/-- C27, with the counter at `1`, at `0`, at `3`, and on the object that `MakeIntrusive`
leaves in an empty heap. -/
theorem C27_dec_ref_destroys_last_witness :
    (({ counter_ := { count_ := 1 }, destroyed := 0 } : RefCounted).DecRef.RefCount = 0 ∧
      ({ counter_ := { count_ := 1 }, destroyed := 0 } : RefCounted).DecRef.destroyed = 0 + 1) ∧
    (({ counter_ := { count_ := 0 }, destroyed := 0 } : RefCounted).DecRef.RefCount = 0 ∧
      ({ counter_ := { count_ := 0 }, destroyed := 0 } : RefCounted).DecRef.destroyed = 0 + 1) ∧
    (({ counter_ := { count_ := 3 }, destroyed := 0 } : RefCounted).DecRef.RefCount = 3 - 1 ∧
      ({ counter_ := { count_ := 3 }, destroyed := 0 } : RefCounted).DecRef.destroyed = 0) ∧
    (Objects.empty.store 1 { counter_ := { count_ := 1 }, destroyed := 0 }).DecRef 1 =
      .ok ((Objects.empty.store 1 { counter_ := { count_ := 1 }, destroyed := 0 }).store 1
        ({ counter_ := { count_ := 1 }, destroyed := 0 } : RefCounted).DecRef) :=
  ⟨(C27_dec_ref_destroys_last { counter_ := { count_ := 1 }, destroyed := 0 }
      Objects.empty 0).1 (by decide),
    (C27_dec_ref_destroys_last { counter_ := { count_ := 0 }, destroyed := 0 }
      Objects.empty 0).1 (by decide),
    (C27_dec_ref_destroys_last { counter_ := { count_ := 3 }, destroyed := 0 }
      Objects.empty 0).2.1 (by decide) (by decide),
    (C27_dec_ref_destroys_last { counter_ := { count_ := 1 }, destroyed := 0 }
      (Objects.empty.store 1 { counter_ := { count_ := 1 }, destroyed := 0 }) 1).2.2.2 rfl⟩

/-- C28 fails when `Reset(ptr)` is given the pointer the handle already holds as the only
reference.  `p` is made by `MakeIntrusive`, so `RefCount()` is `1`.  `p.Reset(p.Get())` first
calls `DecRef()` on the held object, which takes the counter to `0` and destroys the object;
the `IncRef()` that follows goes through a pointer to the destroyed object. -/
theorem C28_reset_to_held_pointer_destroys :
    ∃ H0 p H1, MakeIntrusive Objects.empty = .ok (H0, p) ∧ p.Get ≠ 0 ∧
      IntrusivePtr.UseCount H0 p = .ok 1 ∧
      H0.DecRef p.Get = .ok H1 ∧
      H1.cells p.Get = some { counter_ := { count_ := 0 }, destroyed := 1 } ∧
      H1.IncRef p.Get = .error .danglingDeref ∧
      IntrusivePtr.ResetPtr H0 p p.Get = .error .danglingDeref :=
  ⟨_, _, _, rfl, by decide, rfl, rfl, by decide, rfl, rfl⟩

/-! ## The exclusive handle -/

/-- C29 fails on an empty `UniquePtr` with the deleter `7`: the destructor, `Reset()` and, in
the primary template, `operator=(nullptr)` each call the deleter once, with `nullptr`.  The
same holds for a handle emptied by `Release()` and for a moved-from handle, and the move
constructor itself calls the deleter of the moved-from handle with `nullptr`.  In the array and
`void` specialisations the destructor and `Reset()` do the same, while `operator=(nullptr)`
tests the pointer and makes no call: the templates do not agree. -/
theorem C29_deleter_called_with_null :
    UniquePtr.dtor [] (UniquePtr.ofPtr 7 0) = [{ deleter := 7, arg := 0, held := 0 }] ∧
    UniquePtr.Reset [] (UniquePtr.ofPtr 7 0) 0 =
      ([{ deleter := 7, arg := 0, held := 0 }], UniquePtr.ofPtr 7 0) ∧
    UniquePtr.assignNull [] (UniquePtr.ofPtr 7 0) =
      ([{ deleter := 7, arg := 0, held := 0 }], UniquePtr.ofPtr 7 0) ∧
    UniquePtr.dtor [] (UniquePtr.Release [] (UniquePtr.ofPtr 7 5)).2.1 =
      [{ deleter := 7, arg := 0, held := 0 }] ∧
    UniquePtr.move [] 7 (UniquePtr.ofPtr 7 5) =
      ([{ deleter := 7, arg := 0, held := 0 }], UniquePtr.ofPtr 7 5, UniquePtr.ofPtr 7 0) ∧
    UniquePtr.dtor [] (UniquePtr.move [] 7 (UniquePtr.ofPtr 7 5)).2.2 =
      [{ deleter := 7, arg := 0, held := 0 }] ∧
    UniquePtrVoid.dtor [] { pair_ := { first_ := 0, second_ := 7 } } =
      [{ deleter := 7, arg := 0, held := 0 }] ∧
    UniquePtrArray.dtor [] { pair_ := { first_ := 0, second_ := 7 } } =
      [{ deleter := 7, arg := 0, held := 0 }] ∧
    (UniquePtrVoid.Reset [] { pair_ := { first_ := 0, second_ := 7 } } 0).1 =
      [{ deleter := 7, arg := 0, held := 0 }] ∧
    (UniquePtrArray.Reset [] { pair_ := { first_ := 0, second_ := 7 } } 0).1 =
      [{ deleter := 7, arg := 0, held := 0 }] ∧
    (UniquePtrVoid.assignNull [] { pair_ := { first_ := 0, second_ := 7 } }).1 = [] ∧
    (UniquePtrArray.assignNull [] { pair_ := { first_ := 0, second_ := 7 } }).1 = [] :=
  ⟨rfl, rfl, rfl, rfl, rfl, rfl, rfl, rfl, rfl, rfl, rfl, rfl⟩

/-- C30 fails for two distinct handles that hold the same pointer.  With `a` and `b` both empty
(deleters `1` and `2`), `a = std::move(b)` swaps the pairs and runs `b.Reset()`, which calls
the deleter `1` once with `nullptr`: the pointer of the call is the pointer `a` had and also
the transferred pointer, the one `b` had and `a` has afterwards.  The same happens with both
handles holding `5`. -/
theorem C30_call_on_transferred_pointer_counterexample :
    UniquePtr.moveAssign [] (UniquePtr.ofPtrDeleter 0 1) (UniquePtr.ofPtrDeleter 0 2) false =
      ([{ deleter := 1, arg := 0, held := 0 }], UniquePtr.ofPtrDeleter 0 2,
        UniquePtr.ofPtrDeleter 0 1) ∧
    (∃ c ∈ (UniquePtr.moveAssign [] (UniquePtr.ofPtrDeleter 0 1)
        (UniquePtr.ofPtrDeleter 0 2) false).1,
      c.arg = (UniquePtr.ofPtrDeleter 0 2).Get ∧
      c.arg = (UniquePtr.moveAssign [] (UniquePtr.ofPtrDeleter 0 1)
        (UniquePtr.ofPtrDeleter 0 2) false).2.1.Get) ∧
    UniquePtr.moveAssign [] (UniquePtr.ofPtrDeleter 5 1) (UniquePtr.ofPtrDeleter 5 2) false =
      ([{ deleter := 1, arg := 5, held := 0 }], UniquePtr.ofPtrDeleter 5 2,
        UniquePtr.ofPtrDeleter 0 1) ∧
    (∃ c ∈ (UniquePtr.moveAssign [] (UniquePtr.ofPtrDeleter 5 1)
        (UniquePtr.ofPtrDeleter 5 2) false).1,
      c.arg = (UniquePtr.ofPtrDeleter 5 2).Get ∧
      c.arg = (UniquePtr.moveAssign [] (UniquePtr.ofPtrDeleter 5 1)
        (UniquePtr.ofPtrDeleter 5 2) false).2.1.Get) :=
  ⟨rfl, ⟨{ deleter := 1, arg := 0, held := 0 }, by decide, rfl, rfl⟩,
    rfl, ⟨{ deleter := 1, arg := 5, held := 0 }, by decide, rfl, rfl⟩⟩

/-- C30, amended: move assignment `a = std::move(b)` between two distinct handles leaves `a`
with the pointer and the deleter that `b` had and `b` with `nullptr`; it makes exactly one
deleter call, by the deleter that `a` had, on the pointer that `a` had, after `nullptr` has
been stored in `b`; when the two pointers differ, that call is not on the transferred pointer.
Self-move-assignment returns at once: no call, both members unchanged.  `Release()` returns
the held pointer, leaves `Get() == nullptr` and the deleter in place, and makes no call.
`Reset(p)` leaves `Get() == p` and makes exactly one deleter call, on the pointer held before,
at a time when `Get()` is already `p`. -/
theorem C30_ownership_transfer {D : Type} (log : List (DeleterCall D)) (a b : UniquePtr D)
    (p : Nat) :
    (UniquePtr.moveAssign log a b false).2.1.Get = b.Get ∧
    (UniquePtr.moveAssign log a b false).2.1.GetDeleter = b.GetDeleter ∧
    (UniquePtr.moveAssign log a b false).2.2.Get = 0 ∧
    (UniquePtr.moveAssign log a b false).1 =
      log ++ [{ deleter := a.GetDeleter, arg := a.Get, held := 0 }] ∧
    (a.Get ≠ b.Get → ∀ c, (UniquePtr.moveAssign log a b false).1 = log ++ [c] →
      c.arg = a.Get ∧ c.arg ≠ b.Get) ∧
    UniquePtr.moveAssign log a a true = (log, a, a) ∧
    (UniquePtr.Release log a).2.2 = a.Get ∧ (UniquePtr.Release log a).2.1.Get = 0 ∧
    (UniquePtr.Release log a).2.1.GetDeleter = a.GetDeleter ∧
    (UniquePtr.Release log a).1 = log ∧
    (UniquePtr.Reset log a p).2.Get = p ∧
    (UniquePtr.Reset log a p).2.GetDeleter = a.GetDeleter ∧
    (UniquePtr.Reset log a p).1 =
      log ++ [{ deleter := a.GetDeleter, arg := a.Get, held := p }] := by
  refine ⟨rfl, rfl, rfl, rfl, ?_, rfl, rfl, rfl, rfl, rfl, rfl, rfl, rfl⟩
  intro hne c hc
  have h1 : (UniquePtr.moveAssign log a b false).1 =
      log ++ [{ deleter := a.GetDeleter, arg := a.Get, held := 0 }] := rfl
  rw [h1] at hc
  have h2 := List.append_cancel_left hc
  simp only [List.cons.injEq, and_true] at h2
  subst h2
  exact ⟨rfl, hne⟩

/-- C30, with `a` holding `5` (deleter `1`) and `b` holding `9` (deleter `2`). -/
theorem C30_ownership_transfer_witness :
    (UniquePtr.ofPtrDeleter 5 1).Get ≠ (UniquePtr.ofPtrDeleter 9 2).Get ∧
    UniquePtr.moveAssign [] (UniquePtr.ofPtrDeleter 5 1) (UniquePtr.ofPtrDeleter 9 2) false =
      ([{ deleter := 1, arg := 5, held := 0 }], UniquePtr.ofPtrDeleter 9 2,
        UniquePtr.ofPtrDeleter 0 1) ∧
    (∀ c, (UniquePtr.moveAssign [] (UniquePtr.ofPtrDeleter 5 1)
        (UniquePtr.ofPtrDeleter 9 2) false).1 = [] ++ [c] →
      c.arg = (UniquePtr.ofPtrDeleter 5 1).Get ∧ c.arg ≠ (UniquePtr.ofPtrDeleter 9 2).Get) :=
  ⟨by decide, by decide,
    (C30_ownership_transfer [] (UniquePtr.ofPtrDeleter 5 1) (UniquePtr.ofPtrDeleter 9 2)
      0).2.2.2.2.1 (by decide)⟩

/-! ## Programs over `IntrusivePtr` variables

Apart from the copy constructor that runs in storage which already holds the pointer of its
source, every statement keeps the counter of an object equal to the number of variables that
hold it. -/

theorem ObjInv.objCongr {H : Objects} {f g : Nat → Nat} (hi : ObjInv H f)
    (hg : ∀ q, q ≠ 0 → g q = f q) : ObjInv H g := by
  intro p hp h1
  rw [hg p hp] at h1 ⊢
  exact hi p hp h1

theorem ObjInv.objLive {H : Objects} {f : Nat → Nat} (hi : ObjInv H f) {p : Nat} (hp : p ≠ 0)
    (h1 : 1 ≤ f p) : H.deref p = .ok { counter_ := { count_ := f p }, destroyed := 0 } := by
  simp [Objects.deref, hp, hi p hp h1]

theorem ObjInv.inc {H : Objects} {f : Nat → Nat} (hi : ObjInv H f) {p : Nat} (hp : p ≠ 0)
    (h1 : 1 ≤ f p) (h2 : f p + 1 < SIZE_MOD) :
    ∃ H1, H.IncRef p = .ok H1 ∧ ObjInv H1 (bump f p) := by
  refine ⟨_, Objects.objCall_ok H p _ _ (hi.objLive hp h1), ?_⟩
  intro q hq hq1
  by_cases e : q = p
  · subst e
    simp [Objects.store, RefCounted.IncRef, SimpleCounter.IncRef, inc_size _ h2, bump]
  · have hf : bump f p q = f q := by simp [bump, e]
    rw [hf] at hq1 ⊢
    simp [Objects.store, e, hi q hq hq1]

theorem ObjInv.dec {H : Objects} {f : Nat → Nat} (hi : ObjInv H f) {p : Nat} (hp : p ≠ 0)
    (h1 : 1 ≤ f p) (h2 : f p < SIZE_MOD) :
    ∃ H1, H.DecRef p = .ok H1 ∧ ObjInv H1 (drop f p) := by
  refine ⟨_, Objects.objCall_ok H p _ _ (hi.objLive hp h1), ?_⟩
  intro q hq hq1
  by_cases e : q = p
  · subst e
    have hd : drop f q q = f q - 1 := by simp [drop]
    rw [hd] at hq1 ⊢
    have hm := RefCounted.DecRef_more { counter_ := { count_ := f q }, destroyed := 0 }
      (by show 2 ≤ f q; omega) h2
    simp only [Objects.store, if_true, hm]
    rfl
  · have hf : drop f p q = f q := by simp [drop, e]
    rw [hf] at hq1 ⊢
    simp [Objects.store, e, hi q hq hq1]

theorem ObjInv.objBumpZero {H : Objects} {f : Nat → Nat} (hi : ObjInv H f) :
    ObjInv H (bump f 0) :=
  hi.objCongr fun _ hq => bump_zero_apply f 0 rfl hq

theorem ObjInv.objDropZero {H : Objects} {f : Nat → Nat} (hi : ObjInv H f) :
    ObjInv H (drop f 0) :=
  hi.objCongr fun q hq => by simp [drop, hq]

theorem IntrusivePtr.ofPtr_spec {H : Objects} {f : Nat → Nat} (hi : ObjInv H f) {ptr : Nat}
    (h1 : ptr ≠ 0 → 1 ≤ f ptr) (h2 : f ptr + 1 < SIZE_MOD) :
    ∃ H1, IntrusivePtr.ofPtr H ptr = .ok (H1, { object_ptr_ := ptr }) ∧
      ObjInv H1 (bump f ptr) := by
  by_cases hp : ptr = 0
  · subst hp
    exact ⟨H, by simp [IntrusivePtr.ofPtr, pure, Except.pure], hi.objBumpZero⟩
  · obtain ⟨H1, e1, i1⟩ := hi.inc hp (h1 hp) h2
    exact ⟨H1, by simp [IntrusivePtr.ofPtr, hp, e1, bind, Except.bind, pure, Except.pure], i1⟩

theorem IntrusivePtr.copyConv_eq (H : Objects) (s : IntrusivePtr) :
    IntrusivePtr.copyConv H s = IntrusivePtr.ofPtr H s.object_ptr_ := rfl

theorem IntrusivePtr.copy_eq (H : Objects) (uninit : Nat) (s : IntrusivePtr)
    (hu : uninit ≠ s.object_ptr_ ∨ s.object_ptr_ = 0) :
    IntrusivePtr.copy H uninit s = IntrusivePtr.ofPtr H s.object_ptr_ := by
  by_cases h : uninit = s.object_ptr_
  · have h0 : s.object_ptr_ = 0 := by
      rcases hu with hu | hu
      · exact absurd h hu
      · exact hu
    simp [IntrusivePtr.copy, IntrusivePtr.ofPtr, h, h0]
  · simp [IntrusivePtr.copy, IntrusivePtr.ofPtr, h]

theorem IntrusivePtr.iDtor_spec {H : Objects} {f : Nat → Nat} (hi : ObjInv H f)
    {s : IntrusivePtr} (h1 : s.object_ptr_ ≠ 0 → 1 ≤ f s.object_ptr_)
    (h2 : f s.object_ptr_ < SIZE_MOD) :
    ∃ H1, IntrusivePtr.dtor H s = .ok H1 ∧
      IntrusivePtr.Reset H s = .ok (H1, { object_ptr_ := 0 }) ∧
      ObjInv H1 (drop f s.object_ptr_) := by
  by_cases hp : s.object_ptr_ = 0
  · refine ⟨H, by simp [IntrusivePtr.dtor, hp, pure, Except.pure], ?_, ?_⟩
    · cases s
      simp only at hp
      subst hp
      simp [IntrusivePtr.Reset, pure, Except.pure]
    · rw [hp]; exact hi.objDropZero
  · obtain ⟨H1, e1, i1⟩ := hi.dec hp (h1 hp) h2
    exact ⟨H1, by simp [IntrusivePtr.dtor, hp, e1],
      by simp [IntrusivePtr.Reset, hp, e1, bind, Except.bind, pure, Except.pure], i1⟩

theorem IntrusivePtr.iCopyAssign_spec {H : Objects} {f : Nat → Nat} (hi : ObjInv H f)
    {s t : IntrusivePtr} (hs : s.object_ptr_ ≠ 0 → 1 ≤ f s.object_ptr_)
    (ht : t.object_ptr_ ≠ 0 → 1 ≤ f t.object_ptr_) (h2 : f s.object_ptr_ < SIZE_MOD)
    (h3 : f t.object_ptr_ + 1 < SIZE_MOD) :
    ∃ H1, IntrusivePtr.copyAssign H s t false = .ok (H1, { object_ptr_ := t.object_ptr_ }) ∧
      ObjInv H1 (bump (drop f s.object_ptr_) t.object_ptr_) := by
  by_cases hst : s.object_ptr_ = t.object_ptr_
  · refine ⟨H, ?_, ?_⟩
    · cases s
      simp only at hst
      subst hst
      simp [IntrusivePtr.copyAssign, pure, Except.pure]
    · rw [hst]
      apply hi.objCongr
      intro q hq
      by_cases hz : t.object_ptr_ = 0
      · simp [bump, drop, hz, hq]
      · exact bump_drop_apply f (ht hz) q
  · obtain ⟨H1, e1, _, i1⟩ := IntrusivePtr.iDtor_spec hi hs h2
    have hd : drop f s.object_ptr_ t.object_ptr_ = f t.object_ptr_ := by
      simp [drop, Ne.symm hst]
    obtain ⟨H2, e2, i2⟩ := IntrusivePtr.ofPtr_spec i1 (by rw [hd]; exact ht)
      (by rw [hd]; exact h3)
    refine ⟨H2, ?_, i2⟩
    have e1b : (if s.object_ptr_ ≠ 0 then H.DecRef s.object_ptr_ else pure H) = .ok H1 := e1
    have e2b : (if t.object_ptr_ ≠ 0 then H1.IncRef t.object_ptr_ else pure H1) = .ok H2 := by
      by_cases hz : t.object_ptr_ = 0
      · simp only [IntrusivePtr.ofPtr, hz, ne_eq, not_true_eq_false, if_false, pure,
          Except.pure, Except.ok.injEq, Prod.mk.injEq] at e2 ⊢
        exact e2.1
      · simp only [IntrusivePtr.ofPtr, ne_eq, hz, not_false_eq_true, if_true, bind,
          Except.bind] at e2 ⊢
        cases hx : H1.IncRef t.object_ptr_ with
        | error x => rw [hx] at e2; cases e2
        | ok H3 =>
          rw [hx] at e2
          simp only [pure, Except.pure, Except.ok.injEq, Prod.mk.injEq] at e2
          rw [e2.1]
    simp only [IntrusivePtr.copyAssign, Bool.false_eq_true, if_false, hst, bind, Except.bind,
      pure, Except.pure]
    by_cases hsz : s.object_ptr_ = 0
    · simp only [hsz, ne_eq, not_true_eq_false, if_false, pure, Except.pure,
        Except.ok.injEq] at e1b ⊢
      subst e1b
      by_cases htz : t.object_ptr_ = 0
      · simp only [htz, ne_eq, not_true_eq_false, if_false, pure, Except.pure,
          Except.ok.injEq] at e2b ⊢
        rw [e2b]
      · simp only [ne_eq, htz, not_false_eq_true, if_true] at e2b ⊢
        rw [e2b]
    · simp only [ne_eq, hsz, not_false_eq_true, if_true] at e1b ⊢
      rw [e1b]
      by_cases htz : t.object_ptr_ = 0
      · simp only [htz, ne_eq, not_true_eq_false, if_false, pure, Except.pure,
          Except.ok.injEq] at e2b ⊢
        rw [e2b]
      · simp only [ne_eq, htz, not_false_eq_true, if_true] at e2b ⊢
        rw [e2b]

theorem IntrusivePtr.iMoveAssign_spec {H : Objects} {f : Nat → Nat} (hi : ObjInv H f)
    {s : IntrusivePtr} (t : IntrusivePtr) (hs : s.object_ptr_ ≠ 0 → 1 ≤ f s.object_ptr_)
    (h2 : f s.object_ptr_ < SIZE_MOD) :
    ∃ H1, IntrusivePtr.moveAssign H s t false =
        .ok (H1, { object_ptr_ := t.object_ptr_ }, { object_ptr_ := 0 }) ∧
      ObjInv H1 (drop f s.object_ptr_) := by
  obtain ⟨H1, _, e1, i1⟩ := IntrusivePtr.iDtor_spec hi hs h2
  refine ⟨H1, ?_, i1⟩
  have e : IntrusivePtr.Reset H { object_ptr_ := s.object_ptr_ } =
      .ok (H1, { object_ptr_ := 0 }) := e1
  simp only [IntrusivePtr.moveAssign, Bool.false_eq_true, if_false, IntrusivePtr.Swap, e, bind,
    Except.bind, pure, Except.pure]

theorem IWorld.Inv.bound {n : Nat} {W : IWorld} (hW : W.Inv n) (p : Nat) : W.live p ≤ n :=
  Nat.le_trans (refCount_le_length _ _ _) hW.2

theorem IWorld.step_construct {a n : Nat} {W : IWorld} (hW : W.Inv n) (hO : W.Over a)
    (hn : n + 1 < SIZE_MOD) {i : Nat} {s : IntrusivePtr} (hsl : slot W.handles i = some s) :
    ∃ H1, IntrusivePtr.ofPtr W.objects s.object_ptr_ = .ok (H1, { object_ptr_ := s.object_ptr_ }) ∧
      IWorld.Inv (n + 1) { objects := H1,
                           handles := W.handles ++ [some { object_ptr_ := s.object_ptr_ }] } ∧
      IWorld.Over a { objects := H1,
                      handles := W.handles ++ [some { object_ptr_ := s.object_ptr_ }] } := by
  have hp : 1 ≤ W.live s.object_ptr_ := refCount_pos IntrusivePtr.object_ptr_ hsl
  have hb := hW.bound s.object_ptr_
  obtain ⟨H1, e1, i1⟩ := IntrusivePtr.ofPtr_spec hW.1 (fun _ => hp) (by omega)
  refine ⟨H1, e1, ⟨?_, ?_⟩, ?_⟩
  · exact i1.objCongr fun q _ => refCount_append_one _ _ _ _
  · have := hW.2
    simp only [List.length_append, List.length_singleton]
    omega
  · exact paired_append hO (hO s (slot_mem hsl))

theorem IWorld.iStep_inv {a n : Nat} {W : IWorld} (hW : W.Inv n) (hO : W.Over a)
    (hn : n + 1 < SIZE_MOD) (op : IOp) (hop : op.avoids a = true) :
    ∃ W1, W.step op = .ok W1 ∧ W1.Inv (n + 1) ∧ W1.Over a := by
  have hmono : W.Inv (n + 1) := ⟨hW.1, Nat.le_succ_of_le hW.2⟩
  cases op with
  | ofPtr i =>
    cases hsl : slot W.handles i with
    | none => exact ⟨W, by simp [IWorld.step, hsl, pure, Except.pure], hmono, hO⟩
    | some s =>
      obtain ⟨H1, e1, i1, o1⟩ := IWorld.step_construct hW hO hn hsl
      exact ⟨_, by simp [IWorld.step, hsl, IntrusivePtr.Get, e1, bind, Except.bind, pure,
        Except.pure], i1, o1⟩
  | copy i uninit =>
    cases hsl : slot W.handles i with
    | none => exact ⟨W, by simp [IWorld.step, hsl, pure, Except.pure], hmono, hO⟩
    | some s =>
      obtain ⟨H1, e1, i1, o1⟩ := IWorld.step_construct hW hO hn hsl
      have hu : uninit ≠ s.object_ptr_ ∨ s.object_ptr_ = 0 := by
        have hua : uninit ≠ a := by simpa [IOp.avoids] using hop
        rcases hO s (slot_mem hsl) with h0 | h0
        · exact Or.inr h0
        · exact Or.inl (by rw [h0]; exact hua)
      exact ⟨_, by simp [IWorld.step, hsl, IntrusivePtr.copy_eq _ _ _ hu, e1, bind, Except.bind,
        pure, Except.pure], i1, o1⟩
  | copyConv i =>
    cases hsl : slot W.handles i with
    | none => exact ⟨W, by simp [IWorld.step, hsl, pure, Except.pure], hmono, hO⟩
    | some s =>
      obtain ⟨H1, e1, i1, o1⟩ := IWorld.step_construct hW hO hn hsl
      exact ⟨_, by simp [IWorld.step, hsl, IntrusivePtr.copyConv_eq, e1, bind, Except.bind,
        pure, Except.pure], i1, o1⟩
  | move i =>
    cases hsl : slot W.handles i with
    | none => exact ⟨W, by simp [IWorld.step, hsl, pure, Except.pure], hmono, hO⟩
    | some s =>
      have hp : 1 ≤ W.live s.object_ptr_ := refCount_pos IntrusivePtr.object_ptr_ hsl
      refine ⟨{ W with handles := (W.handles.set i (some { object_ptr_ := 0 })) ++
                  [some { object_ptr_ := s.object_ptr_ }] },
        by simp [IWorld.step, hsl, IntrusivePtr.move, pure, Except.pure], ⟨?_, ?_⟩, ?_⟩
      · apply hW.1.objCongr
        intro q hq
        show refCount IntrusivePtr.object_ptr_ _ q = _
        rw [refCount_append_one]
        have hpl : 1 ≤ refCount IntrusivePtr.object_ptr_ W.handles s.object_ptr_ := hp
        show bump _ s.object_ptr_ q = refCount IntrusivePtr.object_ptr_ W.handles q
        simp only [bump, refCount_set_some _ hsl, drop, hq, if_false]
        by_cases e : q = s.object_ptr_
        · subst e
          simp only [if_true]
          omega
        · simp only [e, if_false]
      · have := hW.2
        simp only [List.length_append, List.length_set, List.length_singleton]
        omega
      · exact paired_append (paired_set i hO (Or.inl rfl)) (hO s (slot_mem hsl))
  | copyAssign i j =>
    cases hsl : slot W.handles i with
    | none => exact ⟨W, by simp [IWorld.step, hsl, pure, Except.pure], hmono, hO⟩
    | some s =>
      cases htl : slot W.handles j with
      | none => exact ⟨W, by simp [IWorld.step, hsl, htl, pure, Except.pure], hmono, hO⟩
      | some t =>
        have hp : 1 ≤ W.live s.object_ptr_ := refCount_pos IntrusivePtr.object_ptr_ hsl
        have hpt : 1 ≤ W.live t.object_ptr_ := refCount_pos IntrusivePtr.object_ptr_ htl
        have hb := hW.bound s.object_ptr_
        have hbt := hW.bound t.object_ptr_
        by_cases hij : i = j
        · subst hij
          refine ⟨{ W with handles := W.handles.set i (some s) }, ?_, ⟨?_, ?_⟩, ?_⟩
          · simp [IWorld.step, hsl, IntrusivePtr.copyAssign, pure, Except.pure, bind,
              Except.bind]
          · apply hW.1.objCongr
            intro q _
            show refCount IntrusivePtr.object_ptr_ _ q = _
            rw [refCount_set_some _ hsl]
            exact bump_drop_apply _ hp q
          · have := hW.2
            simp only [List.length_set]
            omega
          · exact paired_set i hO (hO s (slot_mem hsl))
        · obtain ⟨H1, e1, i1⟩ := IntrusivePtr.iCopyAssign_spec hW.1 (fun _ => hp)
            (fun _ => hpt) (by omega) (by omega)
          have hbeq : (i == j) = false := by simp [hij]
          refine ⟨{ objects := H1,
                    handles := W.handles.set i (some { object_ptr_ := t.object_ptr_ }) }, ?_,
            ⟨?_, ?_⟩, ?_⟩
          · simp [IWorld.step, hsl, htl, hbeq, e1, bind, Except.bind, pure, Except.pure]
          · exact i1.objCongr fun q _ => refCount_set_some _ hsl _ _
          · have := hW.2
            simp only [List.length_set]
            omega
          · exact paired_set i hO (hO t (slot_mem htl))
  | moveAssign i j =>
    cases hsl : slot W.handles i with
    | none => exact ⟨W, by simp [IWorld.step, hsl, pure, Except.pure], hmono, hO⟩
    | some s =>
      cases htl : slot W.handles j with
      | none => exact ⟨W, by simp [IWorld.step, hsl, htl, pure, Except.pure], hmono, hO⟩
      | some t =>
        have hp : 1 ≤ W.live s.object_ptr_ := refCount_pos IntrusivePtr.object_ptr_ hsl
        have hb := hW.bound s.object_ptr_
        by_cases hij : i = j
        · subst hij
          refine ⟨{ W with handles := W.handles.set i (some s) }, ?_, ⟨?_, ?_⟩, ?_⟩
          · simp [IWorld.step, hsl, IntrusivePtr.moveAssign, pure, Except.pure, bind,
              Except.bind]
          · apply hW.1.objCongr
            intro q _
            show refCount IntrusivePtr.object_ptr_ _ q = _
            rw [refCount_set_some _ hsl]
            exact bump_drop_apply _ hp q
          · have := hW.2
            simp only [List.length_set]
            omega
          · exact paired_set i hO (hO s (slot_mem hsl))
        · obtain ⟨H1, e1, i1⟩ := IntrusivePtr.iMoveAssign_spec hW.1 t (fun _ => hp) (by omega)
          have hbeq : (i == j) = false := by simp [hij]
          have htl2 : slot (W.handles.set i (some ({ object_ptr_ := t.object_ptr_ } :
              IntrusivePtr))) j = some t := by
            rw [slot_set_ne _ hij]; exact htl
          refine ⟨{ objects := H1,
                    handles := (W.handles.set i (some { object_ptr_ := t.object_ptr_ })).set j
                      (some { object_ptr_ := 0 }) }, ?_, ⟨?_, ?_⟩, ?_⟩
          · simp [IWorld.step, hsl, htl, hij, hbeq, e1, bind, Except.bind, pure, Except.pure]
          · apply i1.objCongr
            intro q hq
            show refCount IntrusivePtr.object_ptr_ _ q = _
            rw [refCount_set_some _ htl2]
            show bump (drop (refCount IntrusivePtr.object_ptr_
              (W.handles.set i (some { object_ptr_ := t.object_ptr_ }))) t.object_ptr_) 0 q =
              drop W.live s.object_ptr_ q
            rw [bump_zero_apply _ 0 rfl hq]
            have e : drop (refCount IntrusivePtr.object_ptr_
                (W.handles.set i (some ({ object_ptr_ := t.object_ptr_ } : IntrusivePtr))))
                t.object_ptr_ q =
                drop (bump (drop W.live s.object_ptr_) t.object_ptr_) t.object_ptr_ q := by
              simp only [drop, refCount_set_some _ hsl]
              rfl
            rw [e, drop_bump_apply]
          · have := hW.2
            simp only [List.length_set]
            omega
          · exact paired_set j (paired_set i hO (hO t (slot_mem htl))) (Or.inl rfl)
  | reset i =>
    cases hsl : slot W.handles i with
    | none => exact ⟨W, by simp [IWorld.step, hsl, pure, Except.pure], hmono, hO⟩
    | some s =>
      have hp : 1 ≤ W.live s.object_ptr_ := refCount_pos IntrusivePtr.object_ptr_ hsl
      have hb := hW.bound s.object_ptr_
      obtain ⟨H1, _, e1, i1⟩ := IntrusivePtr.iDtor_spec hW.1 (fun _ => hp) (by omega)
      refine ⟨{ objects := H1, handles := W.handles.set i (some { object_ptr_ := 0 }) }, ?_,
        ⟨?_, ?_⟩, ?_⟩
      · simp [IWorld.step, hsl, e1, bind, Except.bind, pure, Except.pure]
      · apply i1.objCongr
        intro q hq
        show refCount IntrusivePtr.object_ptr_ _ q = _
        rw [refCount_set_some _ hsl]
        exact bump_zero_apply _ 0 rfl hq
      · have := hW.2
        simp only [List.length_set]
        omega
      · exact paired_set i hO (Or.inl rfl)
  | destroy i =>
    cases hsl : slot W.handles i with
    | none => exact ⟨W, by simp [IWorld.step, hsl, pure, Except.pure], hmono, hO⟩
    | some s =>
      have hp : 1 ≤ W.live s.object_ptr_ := refCount_pos IntrusivePtr.object_ptr_ hsl
      have hb := hW.bound s.object_ptr_
      obtain ⟨H1, e1, _, i1⟩ := IntrusivePtr.iDtor_spec hW.1 (fun _ => hp) (by omega)
      refine ⟨{ objects := H1, handles := W.handles.set i none }, ?_, ⟨?_, ?_⟩, ?_⟩
      · simp [IWorld.step, hsl, e1, bind, Except.bind, pure, Except.pure]
      · exact i1.objCongr fun q _ => refCount_set_none _ hsl _
      · have := hW.2
        simp only [List.length_set]
        omega
      · exact paired_set_none i hO

theorem IWorld.iRun_inv {a : Nat} (ops : List IOp) {n : Nat} {W : IWorld} (hW : W.Inv n)
    (hO : W.Over a) (hn : n + ops.length < SIZE_MOD)
    (hops : ∀ op ∈ ops, op.avoids a = true) :
    ∃ W1, IWorld.run W ops = .ok W1 ∧ W1.Inv (n + ops.length) ∧ W1.Over a := by
  induction ops generalizing n W with
  | nil => exact ⟨W, rfl, by simpa using hW, hO⟩
  | cons op ops ih =>
    simp only [List.length_cons] at hn ⊢
    obtain ⟨W1, e1, i1, o1⟩ := IWorld.iStep_inv hW hO (by omega) op
      (hops op (List.mem_cons_self _ _))
    obtain ⟨W2, e2, i2, o2⟩ := ih i1 o1 (by omega)
      (fun o ho => hops o (List.mem_cons_of_mem _ ho))
    refine ⟨W2, ?_, ?_, o2⟩
    · simp only [IWorld.run, e1]
      exact e2
    · have e : n + (ops.length + 1) = n + 1 + ops.length := by omega
      rw [e]
      exact i2

theorem IWorld.Inv.iUseCount {n : Nat} {W : IWorld} (hW : W.Inv n) {i : Nat}
    {s : IntrusivePtr} (hs : slot W.handles i = some s) :
    IntrusivePtr.UseCount W.objects s =
      .ok (if s.toBool then W.live s.object_ptr_ else 0) := by
  by_cases hp : s.object_ptr_ = 0
  · simp [IntrusivePtr.UseCount, IntrusivePtr.toBool, hp, pure, Except.pure]
  · have h1 : 1 ≤ W.live s.object_ptr_ := refCount_pos IntrusivePtr.object_ptr_ hs
    simp [IntrusivePtr.UseCount, IntrusivePtr.toBool, hp, Objects.RefCount,
      hW.1.objLive hp h1, RefCounted.RefCount, SimpleCounter.RefCount]

theorem IWorld.ofMakeIntrusive_eq :
    IWorld.ofMakeIntrusive =
      .ok { objects := Objects.empty.alloc.1.store 1
              { counter_ := { count_ := 1 }, destroyed := 0 },
            handles := [some { object_ptr_ := 1 }] } := rfl

theorem IWorld.ofMakeIntrusive_inv :
    ∃ W0, IWorld.ofMakeIntrusive = .ok W0 ∧ W0.Inv 1 ∧ W0.Over 1 := by
  refine ⟨_, IWorld.ofMakeIntrusive_eq, ⟨?_, by simp⟩, ?_⟩
  · intro p hp h1
    have hl : ∀ q, IWorld.live
        { objects := Objects.empty.alloc.1.store 1
            { counter_ := { count_ := 1 }, destroyed := 0 },
          handles := [some { object_ptr_ := 1 }] } q = if 1 = q then 1 else 0 := by
      intro q
      show refCount IntrusivePtr.object_ptr_ [some { object_ptr_ := 1 }] q = _
      rw [refCount_cons_some, refCount_nil]
      simp
    rw [hl] at h1 ⊢
    by_cases e : 1 = p
    · subst e
      simp [Objects.store]
    · simp [e] at h1
  · intro s hs
    right
    have h2 : some s ∈ [some ({ object_ptr_ := 1 } : IntrusivePtr)] := hs
    have h3 : s = { object_ptr_ := 1 } := by simpa using h2
    rw [h3]

/-- Every program made of constructions from the raw pointer of a live handle, copy and move
constructions, copy and move assignments, `Reset()` and destructions of `IntrusivePtr`
variables, started from one handle made by `MakeIntrusive` in an empty heap (the object is at
address `1`), runs to its end, provided that no copy constructor `IntrusivePtr(const
IntrusivePtr&)` of the program runs in storage that already holds the address of the object.
At the end `UseCount()` of every live non-empty handle and `RefCount()` of the object are the
number of live variables that hold the object, and `UseCount()` of an empty handle is `0`. -/
theorem IWorld.run_counts (ops : List IOp) (hops : ∀ op ∈ ops, op.avoids 1 = true)
    (hlen : ops.length + 1 < SIZE_MOD) :
    ∃ W0 W, IWorld.ofMakeIntrusive = .ok W0 ∧ IWorld.run W0 ops = .ok W ∧
      ∀ i s, slot W.handles i = some s →
        (s.toBool = true → s.Get = 1 ∧
          IntrusivePtr.UseCount W.objects s = .ok (W.live 1) ∧
          W.objects.RefCount 1 = .ok (W.live 1)) ∧
        (s.toBool = false → IntrusivePtr.UseCount W.objects s = .ok 0) := by
  obtain ⟨W0, e0, i0, o0⟩ := IWorld.ofMakeIntrusive_inv
  obtain ⟨W, e1, i1, o1⟩ := IWorld.iRun_inv ops i0 o0 (by omega) hops
  refine ⟨W0, W, e0, e1, ?_⟩
  intro i s hs
  have hu := i1.iUseCount hs
  constructor
  · intro hb
    have hne : s.object_ptr_ ≠ 0 := by simpa [IntrusivePtr.toBool] using hb
    have h1 : s.object_ptr_ = 1 := by
      rcases o1 s (slot_mem hs) with h | h
      · exact absurd h hne
      · exact h
    rw [hb, h1] at hu
    refine ⟨h1, by simpa using hu, ?_⟩
    have hl : 1 ≤ W.live 1 := by
      have := refCount_pos IntrusivePtr.object_ptr_ hs
      rw [h1] at this
      exact this
    simp [Objects.RefCount, i1.1.objLive (by decide) hl, RefCounted.RefCount,
      SimpleCounter.RefCount]
  · intro hb
    rw [hb] at hu
    simpa using hu

/-- The counting of `IWorld.run_counts` on `p = MakeIntrusive(); q(p); r(p.Get()); s(move(p));
p = r; q.Reset(); ~r`: two live variables hold the object and its counter is `2`. -/
theorem IWorld.run_counts_example :
    ∃ W, IWorld.run { objects := Objects.empty.alloc.1.store 1
                        { counter_ := { count_ := 1 }, destroyed := 0 },
                      handles := [some { object_ptr_ := 1 }] }
        [.copy 0 0, .ofPtr 1, .move 0, .copyAssign 0 2, .reset 1, .destroy 2] = .ok W ∧
      W.handles = [some { object_ptr_ := 1 }, some { object_ptr_ := 0 }, none,
        some { object_ptr_ := 1 }] ∧
      W.live 1 = 2 ∧ W.objects.RefCount 1 = .ok 2 :=
  ⟨_, rfl, by decide, by decide, rfl⟩
end SmartPointers
